import Mathlib

/-!
The IP pool allocator of `pkg/ipam/poolallocator/allocator.go`.

A shallow embedding of the IP pool allocator: the pool resource, the store it is
read from and written to, the per-range allocators rebuilt on every call, and the
mutating operations `AllocateIP`, `AllocateNext`, `Release`, `ReleasePod`,
`ReleaseContainerIfPresent` with their conflict-retry loop.

Conventions.
* An address (`net.IP`) is the number its 16-byte form denotes, so an IPv4 address
  `a.b.c.d` is `0xffff00000000 + (a.b.c.d)`; a possibly-nil `net.IP` is `Option IP`.
* A string field holding an address is an `IPText`: what Go's `net` package can
  observe of the string (is it the text `IP.String()` prints for an address, and
  what does `net.ParseIP` return on it).
* Go's `error` results are `Option Err` (`none` is `nil`).
-/

namespace PoolAllocator

/-! ## Addresses and their text -/

/-- An address, as the number denoted by the 16-byte form of a `net.IP`. -/
abbrev IP := Nat

/-- The IPv4 address `a.b.c.d` in 16-byte (IPv4-mapped) form. -/
def ipv4 (a b c d : Nat) : IP :=
  0xffff00000000 + (a * 2 ^ 24 + b * 2 ^ 16 + c * 2 ^ 8 + d)

/-- A string that is meant to hold an address. `canonical ip` is the text that
`net.IP.String()` prints for `ip`; `other text parsed` is any other string, kept
together with the result of `net.ParseIP` on it (`none`: it does not parse). -/
inductive IPText where
  | canonical (ip : IP)
  | other (text : String) (parsed : Option IP)
  deriving DecidableEq, Repr

/-- Go `net.ParseIP`: the address a string denotes, `none` (nil) when it denotes none. -/
def ParseIP : IPText → Option IP
  | .canonical ip => some ip
  | .other _ parsed => parsed

/-- Go `net.IP.String()`; a nil address prints as `<nil>`, which does not parse. -/
def IPString : Option IP → IPText
  | some ip => .canonical ip
  | none => .other "<nil>" none

/-- Go `*net.IPNet` as returned by `net.ParseCIDR`: the network address and the
mask, the mask given by the pair `Mask.Size()` returns (`bits` is 32 for an IPv4
CIDR and 128 for an IPv6 one). -/
structure IPNet where
  IP : IP
  ones : Nat
  bits : Nat
  deriving DecidableEq, Repr

/-- The `CIDR` string of a range: empty, or some text together with the network
`net.ParseCIDR` returns on it (`none`: `ParseCIDR` returns an error). -/
inductive CIDRText where
  | empty
  | text (parsed : Option IPNet)
  deriving DecidableEq, Repr

/-! ## The pool resource (apis/crd/v1alpha2) -/

/-- Go `v1alpha2.SubnetInfo`. -/
structure SubnetInfo where
  Gateway : IPText
  PrefixLength : Int
  deriving DecidableEq, Repr

instance : Inhabited SubnetInfo := ⟨⟨.other "" none, 0⟩⟩

/-- Go `v1alpha2.SubnetIPRange`: a range (CIDR, or start and end) with its subnet. -/
structure SubnetIPRange where
  CIDR : CIDRText
  Start : IPText
  End : IPText
  SubnetInfo : SubnetInfo
  deriving DecidableEq, Repr

instance : Inhabited SubnetIPRange := ⟨⟨.empty, .other "" none, .other "" none, default⟩⟩

/-- Go `v1alpha2.IPAddressPhase`. -/
inductive IPAddressPhase where
  | Allocated
  | Preallocated
  | Reserved
  deriving DecidableEq, Repr

/-- Go `v1alpha2.PodOwner`. -/
structure PodOwner where
  Name : String
  Namespace : String
  ContainerID : String
  deriving DecidableEq, Repr

/-- Go `v1alpha2.IPAddressOwner`; `Pod` is a pointer, nil for an owner of another kind. -/
structure IPAddressOwner where
  Pod : Option PodOwner
  deriving DecidableEq, Repr

/-- Go `v1alpha2.IPAddressState`: one allocation record of the status. -/
structure IPAddressState where
  IPAddress : IPText
  Phase : IPAddressPhase
  Owner : IPAddressOwner
  deriving DecidableEq, Repr

/-- Go `v1alpha2.IPPoolSpec`. -/
structure IPPoolSpec where
  IPRanges : List SubnetIPRange
  deriving DecidableEq, Repr

/-- Go `v1alpha2.IPPoolStatus`. -/
structure IPPoolStatus where
  IPAddresses : List IPAddressState
  deriving DecidableEq, Repr

/-- Go `v1alpha2.IPPool`, with the resource version of its object metadata. -/
structure IPPool where
  Name : String
  ResourceVersion : Nat
  Spec : IPPoolSpec
  Status : IPPoolStatus
  deriving DecidableEq, Repr

/-! ## Errors -/

/-- The errors the operations return, one constructor per error the code builds
(a `fmt.Errorf` format, an error of the range allocators, an error of the store). -/
inductive Err where
  /-- The store rejects a status write made against a stale resource version. -/
  | conflict
  /-- The store fails with an I/O error or a timeout. -/
  | storeUnavailable
  /-- The error `net.ParseCIDR` returns. -/
  | invalidCIDR
  /-- A range allocator cannot be built from the given bounds. -/
  | invalidRange
  /-- Range allocator: the address is outside the block. -/
  | outOfRange
  /-- Range allocator: the address is already marked used. -/
  | alreadyAllocated
  /-- Range allocator: the address is a reserved one. -/
  | reserved
  /-- Range allocator: no free address remains. -/
  | rangeExhausted
  /-- Range allocators: the address is not marked used. -/
  | notAllocated
  /-- Range allocators: no range contains the address. -/
  | notInAnyRange
  /-- The format `inconsistent state for IP Pool %s with IP %s`. -/
  | inconsistentState (pool : String) (ip : IPText)
  /-- The format `IP address %s was not allocated from IP pool %s`. -/
  | wasNotAllocated (ip : IPText) (pool : String)
  /-- The format `IP %v does not belong to IP pool %s`. -/
  | doesNotBelong (ip : IPText) (pool : String)
  /-- The format `failed to allocate IP: Pool %s is exausted`. -/
  | poolExhausted (pool : String)
  /-- The format `container %s was already allocated an address from IP Pool %s`. -/
  | containerAlreadyAllocated (containerID : String) (pool : String)
  /-- The format `failed to find record of IP allocated to Pod:%s/%s in pool %s`. -/
  | podRecordNotFound (ns : String) (podName : String) (pool : String)
  /-- A run-time panic on a nil pointer dereference (no error value is returned). -/
  | nilPointerPanic
  deriving DecidableEq, Repr

/-- Go `apierrors.IsConflict`. -/
def Err.isConflict : Err → Bool
  | .conflict => true
  | _ => false

/-- A fallible result: Go's `(value, error)` pair with a nil or non-nil error. -/
inductive Res (α : Type) where
  | ok (a : α)
  | error (e : Err)
  deriving DecidableEq, Repr

/-! ## The pool state store

The store is an external collaborator (the API server holding the pool resource).
It keeps the current pool, a script of what its environment does at the next
calls (nothing, a failure, a write by another agent), and a log of the calls made
through this client. -/

/-- What the environment does at one call of the store, before the call is served. -/
inductive Fault where
  /-- Nothing happens: the call is served from the current resource. -/
  | normal
  /-- The call fails with an I/O error or a timeout. -/
  | unavailable
  /-- Another agent replaces the status first, which bumps the resource version. -/
  | concurrentWrite (status : List IPAddressState)
  deriving DecidableEq, Repr

/-- One call made through the client, with what it returned. -/
inductive StoreCall where
  | get (result : Res IPPool)
  | updateStatus (submitted : IPPool) (result : Option Err)
  deriving DecidableEq, Repr

/-- The store: the stored pool, the script of coming faults (an empty script means
every further call is served normally) and the log of calls made so far. -/
structure Store where
  pool : IPPool
  faults : List Fault
  log : List StoreCall
  deriving DecidableEq, Repr

/-- The environment's move before a call: consumes one entry of the script and
tells whether the store answers the call. -/
def Store.env (st : Store) : Bool × Store :=
  match st.faults with
  | [] => (true, st)
  | .normal :: fs => (true, { st with faults := fs })
  | .unavailable :: fs => (false, { st with faults := fs })
  | .concurrentWrite status :: fs =>
    (true, { st with
      pool := { st.pool with Status := ⟨status⟩, ResourceVersion := st.pool.ResourceVersion + 1 }
      faults := fs })

/-- The call `IPPools().Get`: returns the stored pool with its resource version. -/
def Store.Get (st : Store) : Res IPPool × Store :=
  match st.env with
  | (false, st1) =>
    (.error .storeUnavailable, { st1 with log := st1.log ++ [.get (.error .storeUnavailable)] })
  | (true, st1) => (.ok st1.pool, { st1 with log := st1.log ++ [.get (.ok st1.pool)] })

/-- The call `IPPools().UpdateStatus`: replaces the stored status when the submitted
pool carries the stored resource version, and fails with a conflict otherwise. -/
def Store.UpdateStatus (st : Store) (newPool : IPPool) : Option Err × Store :=
  match st.env with
  | (false, st1) =>
    (some .storeUnavailable,
      { st1 with log := st1.log ++ [.updateStatus newPool (some .storeUnavailable)] })
  | (true, st1) =>
    if newPool.ResourceVersion = st1.pool.ResourceVersion then
      (none, { st1 with
        pool := { st1.pool with
          Status := newPool.Status, ResourceVersion := st1.pool.ResourceVersion + 1 }
        log := st1.log ++ [.updateStatus newPool none] })
    else
      (some .conflict, { st1 with log := st1.log ++ [.updateStatus newPool (some .conflict)] })

/-- The pools submitted in `UpdateStatus` calls so far, accepted or not. -/
def Store.writes (st : Store) : List IPPool :=
  st.log.filterMap fun c =>
    match c with
    | .updateStatus submitted _ => some submitted
    | .get _ => none

/-- Go `retry.DefaultRetry.Steps` (client-go): the number of attempts. -/
def DefaultRetrySteps : Nat := 5

/-- Go `retry.RetryOnConflict` (client-go): runs `fn` up to `steps` times, again
only after a conflict error; any other error, or success, ends the loop at once,
and when the attempts are used up the last conflict error is returned. `lastErr`
is the loop's `lastErr` variable, nil at the start. -/
def RetryOnConflict {σ : Type} (steps : Nat) (fn : σ → Option Err × σ)
    (lastErr : Option Err) (s : σ) : Option Err × σ :=
  match steps with
  | 0 => (lastErr, s)
  | n + 1 =>
    match fn s with
    | (none, s1) => (none, s1)
    | (some e, s1) =>
      if e.isConflict then RetryOnConflict n fn (some e) s1 else (some e, s1)

/-! ## The range allocators (pkg/ipam/ipallocator) -/

/-- Modelled from the spec: the range allocator of package `ipallocator`, whose
source is not part of the files at hand. It manages one contiguous block, the
`size` addresses from `first` on, with the reserved addresses it was built with
and the addresses currently marked used. -/
structure SingleIPAllocator where
  first : IP
  size : Nat
  reservedIPs : List (Option IP)
  allocated : List IP
  deriving DecidableEq, Repr

/-- Modelled from the spec: a multi-range allocator is the ordered list of the
range allocators, in the declaration order of the pool spec. -/
abbrev MultiIPAllocator := List SingleIPAllocator

/-- Modelled from the spec: `ip` lies within the bounds of the block. -/
def SingleIPAllocator.inBounds (a : SingleIPAllocator) (ip : IP) : Bool :=
  decide (a.first ≤ ip) && decide (ip < a.first + a.size)

/-- Modelled from the spec: `ip` is one of the reserved addresses (gateway, broadcast). -/
def SingleIPAllocator.isReserved (a : SingleIPAllocator) (ip : IP) : Bool :=
  decide (some ip ∈ a.reservedIPs)

/-- Modelled from the spec: `Has(ip)` is true iff `ip` lies within bounds and is
not a reserved address. -/
def SingleIPAllocator.Has (a : SingleIPAllocator) : Option IP → Bool
  | none => false
  | some ip => a.inBounds ip && !a.isReserved ip

/-- Modelled from the spec: `AllocateIP(ip)` fails with OutOfRange if `ip` is not in
the block, AlreadyAllocated if it is already marked used, Reserved if it is the
gateway or the broadcast address; otherwise it marks `ip` used. -/
def SingleIPAllocator.AllocateIP (a : SingleIPAllocator) : Option IP → Res SingleIPAllocator
  | none => .error .outOfRange
  | some ip =>
    if !a.inBounds ip then .error .outOfRange
    else if ip ∈ a.allocated then .error .alreadyAllocated
    else if a.isReserved ip then .error .reserved
    else .ok { a with allocated := ip :: a.allocated }

/-- Modelled from the spec: `AllocateNext()` returns the lowest unallocated,
non-reserved address in the block and marks it used; it fails Exhausted if none
remains. -/
def SingleIPAllocator.AllocateNext (a : SingleIPAllocator) : Res (IP × SingleIPAllocator) :=
  match (List.range' a.first a.size).find?
      (fun ip => decide (ip ∉ a.allocated) && !a.isReserved ip) with
  | none => .error .rangeExhausted
  | some ip => .ok (ip, { a with allocated := ip :: a.allocated })

/-- Modelled from the spec: `Release(ip)` fails NotAllocated if `ip` was not marked
used; otherwise it clears the mark. -/
def SingleIPAllocator.Release (a : SingleIPAllocator) : Option IP → Res SingleIPAllocator
  | none => .error .notAllocated
  | some ip =>
    if ip ∈ a.allocated then .ok { a with allocated := a.allocated.filter (· ≠ ip) }
    else .error .notAllocated

/-- Modelled from the spec: the allocator of a CIDR block. The network address is
excluded (for `10.0.0.0/30` the block is `.1` to `.3`), the given addresses are
reserved, nothing is marked used. -/
def NewCIDRAllocator (cidr : IPNet) (reservedIPs : List (Option IP)) : Res SingleIPAllocator :=
  .ok { first := cidr.IP + 1, size := 2 ^ (cidr.bits - cidr.ones) - 1,
        reservedIPs := reservedIPs, allocated := [] }

/-- Modelled from the spec: the allocator of an explicit range, both bounds
included and no address reserved; malformed bounds (a nil bound, an end below the
start) are an InvalidRange error. -/
def NewIPRangeAllocator (start stop : Option IP) : Res SingleIPAllocator :=
  match start, stop with
  | some s, some e =>
    if e < s then .error .invalidRange
    else .ok { first := s, size := e - s + 1, reservedIPs := [], allocated := [] }
  | _, _ => .error .invalidRange

/-- Modelled from the spec: `AllocateIP(ip)` of the multi-range allocator locates
the first range containing `ip` and delegates to it; it fails NotInPool if no
range contains it. -/
def MultiIPAllocator.AllocateIP : MultiIPAllocator → Option IP → Res MultiIPAllocator
  | [], _ => .error .notInAnyRange
  | a :: rest, ip =>
    if a.Has ip then
      match a.AllocateIP ip with
      | .ok a1 => .ok (a1 :: rest)
      | .error e => .error e
    else
      match MultiIPAllocator.AllocateIP rest ip with
      | .ok rest1 => .ok (a :: rest1)
      | .error e => .error e

/-- Modelled from the spec: `Release(ip)` of the multi-range allocator locates the
range currently holding `ip` as allocated and delegates to it; it fails
NotAllocated if no range has it marked used. -/
def MultiIPAllocator.Release : MultiIPAllocator → Option IP → Res MultiIPAllocator
  | [], _ => .error .notAllocated
  | a :: rest, ip =>
    match a.Release ip with
    | .ok a1 => .ok (a1 :: rest)
    | .error _ =>
      match MultiIPAllocator.Release rest ip with
      | .ok rest1 => .ok (a :: rest1)
      | .error e => .error e

/-- Modelled from the spec: `GetLocalBroadcastIP` of package `util/ip`, whose source
is not part of the files at hand: the broadcast address of a network, its last
address (all host bits set). -/
def GetLocalBroadcastIP (ipNet : IPNet) : Option IP :=
  some (ipNet.IP ||| (2 ^ (ipNet.bits - ipNet.ones) - 1))

/-! ## The pool allocator (pkg/ipam/poolallocator/allocator.go) -/

/-- Go `IPPoolAllocator`: the name of the pool resource; the client it holds is
the `Store` threaded through the operations. -/
structure IPPoolAllocator where
  ipPoolName : String
  deriving DecidableEq, Repr

/-- The reserved addresses `initIPAllocators` builds for a CIDR range: the gateway,
and the broadcast address as well when the mask of the CIDR has the declared
prefix length and is an IPv4 mask. -/
def cidrReservedIPs (ipRange : SubnetIPRange) (ipNet : IPNet) : List (Option IP) :=
  let reservedIPs := [ParseIP ipRange.SubnetInfo.Gateway]
  if (ipNet.ones : Int) = ipRange.SubnetInfo.PrefixLength ∧ ipNet.bits = 32 then
    reservedIPs ++ [GetLocalBroadcastIP ipNet]
  else
    reservedIPs

/-- The body of the first loop of `initIPAllocators`: the allocator of one range. -/
def newRangeAllocator (ipRange : SubnetIPRange) : Res SingleIPAllocator :=
  match ipRange.CIDR with
  | .text parsed =>
    match parsed with
    | none => .error .invalidCIDR
    | some ipNet => NewCIDRAllocator ipNet (cidrReservedIPs ipRange ipNet)
  | .empty => NewIPRangeAllocator (ParseIP ipRange.Start) (ParseIP ipRange.End)

/-- The first loop of `initIPAllocators`: one allocator per range, in spec order;
the first range that fails ends the loop with its error. -/
def initRanges : List SubnetIPRange → Res MultiIPAllocator
  | [] => .ok []
  | ipRange :: rest =>
    match newRangeAllocator ipRange with
    | .error e => .error e
    | .ok allocator =>
      match initRanges rest with
      | .error e => .error e
      | .ok allocators => .ok (allocator :: allocators)

/-- The second loop of `initIPAllocators`: marks the recorded addresses as
unavailable; a record that cannot be replayed is an inconsistent-state error. -/
def markAllocated (poolName : String) :
    MultiIPAllocator → List IPAddressState → Res MultiIPAllocator
  | allocators, [] => .ok allocators
  | allocators, ip :: rest =>
    match allocators.AllocateIP (ParseIP ip.IPAddress) with
    | .error _ => .error (.inconsistentState poolName ip.IPAddress)
    | .ok allocators1 => markAllocated poolName allocators1 rest

/-- Go `initIPAllocators`: the allocators of the pool spec with the allocations
recorded in the pool status replayed onto them. -/
def initIPAllocators (ipPool : IPPool) : Res MultiIPAllocator :=
  match initRanges ipPool.Spec.IPRanges with
  | .error e => .error e
  | .ok allocators => markAllocated ipPool.Name allocators ipPool.Status.IPAddresses

/-- Go `readPoolAndInitIPAllocators`. -/
def readPoolAndInitIPAllocators (st : Store) : Res (IPPool × MultiIPAllocator) × Store :=
  match st.Get with
  | (.error e, st1) => (.error e, st1)
  | (.ok ipPool, st1) =>
    match initIPAllocators ipPool with
    | .error e => (.error e, st1)
    | .ok allocators => (.ok (ipPool, allocators), st1)

/-- Go `appendPoolUsage`: writes the status with one more entry. -/
def appendPoolUsage (ipPool : IPPool) (ip : Option IP) (state : IPAddressPhase)
    (owner : IPAddressOwner) (st : Store) : Option Err × Store :=
  let usageEntry : IPAddressState := { IPAddress := IPString ip, Phase := state, Owner := owner }
  let newPool := { ipPool with Status := ⟨ipPool.Status.IPAddresses ++ [usageEntry]⟩ }
  st.UpdateStatus newPool

/-- Go `removePoolUsage`: writes the status without the entries of the released
address; an error, and no write, when no entry has that address. -/
def removePoolUsage (ipPool : IPPool) (ip : Option IP) (st : Store) : Option Err × Store :=
  let ipString := IPString ip
  let newList := ipPool.Status.IPAddresses.filter fun entry => entry.IPAddress ≠ ipString
  if newList.length = ipPool.Status.IPAddresses.length then
    (some (.wasNotAllocated ipString ipPool.Name), st)
  else
    let newPool := { ipPool with Status := ⟨newList⟩ }
    st.UpdateStatus newPool

/-- The range loop of `AllocateIP`: the index of the first allocator that has `ip`,
after allocating `ip` in it (an error of that allocation ends the call); `none`
when no allocator has `ip`. -/
def allocateIPLoop (ip : Option IP) : MultiIPAllocator → Nat → Res (Option Nat)
  | [], _ => .ok none
  | allocator :: rest, i =>
    if allocator.Has ip then
      match allocator.AllocateIP ip with
      | .error e => .error e
      | .ok _ => .ok (some i)
    else allocateIPLoop ip rest (i + 1)

/-- The function `AllocateIP` retries: one read-rebuild-allocate-write cycle. The
state is the captured variable `subnetSpec` and the store. -/
def AllocateIP.attempt (a : IPPoolAllocator) (ip : Option IP) (state : IPAddressPhase)
    (owner : IPAddressOwner) : SubnetInfo × Store → Option Err × (SubnetInfo × Store)
  | (subnetSpec, st) =>
    match readPoolAndInitIPAllocators st with
    | (.error e, st1) => (some e, (subnetSpec, st1))
    | (.ok (ipPool, allocators), st1) =>
      match allocateIPLoop ip allocators 0 with
      | .error e => (some e, (subnetSpec, st1))
      | .ok none => (some (.doesNotBelong (IPString ip) a.ipPoolName), (subnetSpec, st1))
      | .ok (some index) =>
        let subnetSpec1 := (ipPool.Spec.IPRanges.getD index default).SubnetInfo
        match appendPoolUsage ipPool ip state owner st1 with
        | (err, st2) => (err, (subnetSpec1, st2))

/-- Go `AllocateIP`: allocates the given address and returns the subnet of its range. -/
def AllocateIP (a : IPPoolAllocator) (ip : Option IP) (state : IPAddressPhase)
    (owner : IPAddressOwner) (st : Store) : (SubnetInfo × Option Err) × Store :=
  match RetryOnConflict DefaultRetrySteps (AllocateIP.attempt a ip state owner) none
      (default, st) with
  | (err, (subnetSpec, st1)) => ((subnetSpec, err), st1)

/-- The test `ip.Owner.Pod != nil && ip.Owner.Pod.ContainerID == containerID` of
`HasContainer` and `ReleaseContainerIfPresent`. -/
def ownedByContainer (containerID : String) (ip : IPAddressState) : Bool :=
  match ip.Owner.Pod with
  | some pod => pod.ContainerID = containerID
  | none => false

/-- The test `ip.Owner.Pod != nil && ip.Owner.Pod.Namespace == namespace &&
ip.Owner.Pod.Name == podName` of `HasPod` and `ReleasePod`. -/
def ownedByPod (ns podName : String) (ip : IPAddressState) : Bool :=
  match ip.Owner.Pod with
  | some pod => pod.Namespace = ns ∧ pod.Name = podName
  | none => false

/-- Go `HasContainer`: whether a record of the status belongs to the container. -/
def HasContainer (containerID : String) (st : Store) : Res Bool × Store :=
  match st.Get with
  | (.error e, st1) => (.error e, st1)
  | (.ok ipPool, st1) =>
    (.ok (ipPool.Status.IPAddresses.any (ownedByContainer containerID)), st1)

/-- Go `HasPod`: whether a record of the status belongs to the Pod. -/
def HasPod (ns podName : String) (st : Store) : Res Bool × Store :=
  match st.Get with
  | (.error e, st1) => (.error e, st1)
  | (.ok ipPool, st1) =>
    (.ok (ipPool.Status.IPAddresses.any (ownedByPod ns podName)), st1)

/-- The range loop of `AllocateNext`: asks each allocator in turn for its next
address and stops at the first that gives one. It returns the value left in the
captured variable `ip` (nil after a failed allocator) and the index found. -/
def allocateNextLoop : MultiIPAllocator → Nat → Option IP → Option IP × Option Nat
  | [], _, ip => (ip, none)
  | allocator :: rest, i, _ =>
    match allocator.AllocateNext with
    | .ok (ip1, _) => (some ip1, some i)
    | .error _ => allocateNextLoop rest (i + 1) none

/-- The function `AllocateNext` retries: one read-rebuild-allocate-write cycle. The
state is the captured variables `ip` and `subnetSpec` and the store. -/
def AllocateNext.attempt (a : IPPoolAllocator) (state : IPAddressPhase)
    (owner : IPAddressOwner) :
    Option IP × SubnetInfo × Store → Option Err × (Option IP × SubnetInfo × Store)
  | (ip, subnetSpec, st) =>
    match readPoolAndInitIPAllocators st with
    | (.error e, st1) => (some e, (ip, subnetSpec, st1))
    | (.ok (ipPool, allocators), st1) =>
      match allocateNextLoop allocators 0 ip with
      | (ip1, none) => (some (.poolExhausted a.ipPoolName), (ip1, subnetSpec, st1))
      | (ip1, some index) =>
        let subnetSpec1 := (ipPool.Spec.IPRanges.getD index default).SubnetInfo
        match appendPoolUsage ipPool ip1 state owner st1 with
        | (err, st2) => (err, (ip1, subnetSpec1, st2))

/-- Go `AllocateNext`: allocates the next available address; an owner without a
Pod makes the read of `owner.Pod.ContainerID` panic. -/
def AllocateNext (a : IPPoolAllocator) (state : IPAddressPhase) (owner : IPAddressOwner)
    (st : Store) : (Option IP × SubnetInfo × Option Err) × Store :=
  match owner.Pod with
  | none => ((none, default, some .nilPointerPanic), st)
  | some pod =>
    match HasContainer pod.ContainerID st with
    | (.error e, st1) => ((none, default, some e), st1)
    | (.ok true, st1) =>
      ((none, default, some (.containerAlreadyAllocated pod.ContainerID a.ipPoolName)), st1)
    | (.ok false, st1) =>
      match RetryOnConflict DefaultRetrySteps (AllocateNext.attempt a state owner) none
          (none, default, st1) with
      | (err, (ip, subnetSpec, st2)) => ((ip, subnetSpec, err), st2)

/-- The function `Release` retries: one read-rebuild-release-write cycle. -/
def Release.attempt (a : IPPoolAllocator) (ip : Option IP) (st : Store) : Option Err × Store :=
  match readPoolAndInitIPAllocators st with
  | (.error e, st1) => (some e, st1)
  | (.ok (ipPool, allocators), st1) =>
    match allocators.Release ip with
    | .error _ => (some (.doesNotBelong (IPString ip) a.ipPoolName), st1)
    | .ok _ => removePoolUsage ipPool ip st1

/-- Go `Release`: releases the given address. -/
def Release (a : IPPoolAllocator) (ip : Option IP) (st : Store) : Option Err × Store :=
  RetryOnConflict DefaultRetrySteps (Release.attempt a ip) none st

/-- The function `ReleasePod` retries: reads the pool and removes the usage of the
address of the first record owned by the Pod. -/
def ReleasePod.attempt (a : IPPoolAllocator) (ns podName : String) (st : Store) :
    Option Err × Store :=
  match st.Get with
  | (.error e, st1) => (some e, st1)
  | (.ok ipPool, st1) =>
    match ipPool.Status.IPAddresses.find? (ownedByPod ns podName) with
    | some ip => removePoolUsage ipPool (ParseIP ip.IPAddress) st1
    | none => (some (.podRecordNotFound ns podName a.ipPoolName), st1)

/-- Go `ReleasePod`: releases the address associated with the Pod. -/
def ReleasePod (a : IPPoolAllocator) (ns podName : String) (st : Store) : Option Err × Store :=
  RetryOnConflict DefaultRetrySteps (ReleasePod.attempt a ns podName) none st

/-- The function `ReleaseContainerIfPresent` retries: reads the pool and removes the
usage of the address of the first record owned by the container, if there is one. -/
def ReleaseContainerIfPresent.attempt (containerID : String) (st : Store) :
    Option Err × Store :=
  match st.Get with
  | (.error e, st1) => (some e, st1)
  | (.ok ipPool, st1) =>
    match ipPool.Status.IPAddresses.find? (ownedByContainer containerID) with
    | some ip => removePoolUsage ipPool (ParseIP ip.IPAddress) st1
    | none => (none, st1)

/-- Go `ReleaseContainerIfPresent`: releases the address associated with the
container when the status has one. -/
def ReleaseContainerIfPresent (containerID : String) (st : Store) : Option Err × Store :=
  RetryOnConflict DefaultRetrySteps (ReleaseContainerIfPresent.attempt containerID) none st

/-! ## Notions used in the statements -/

/-- The store after a `Get` that was served normally. -/
def Store.afterGet (st : Store) : Store :=
  { st with log := st.log ++ [.get (.ok st.pool)] }

/-- The store after an accepted `UpdateStatus` of `newPool`. -/
def Store.afterUpdate (st : Store) (newPool : IPPool) : Store :=
  { st with
    pool := { st.pool with
      Status := newPool.Status, ResourceVersion := st.pool.ResourceVersion + 1 }
    log := st.log ++ [.updateStatus newPool none] }

/-- The pool `appendPoolUsage` submits. -/
def IPPool.withUsage (ipPool : IPPool) (ip : Option IP) (state : IPAddressPhase)
    (owner : IPAddressOwner) : IPPool :=
  { ipPool with Status := ⟨ipPool.Status.IPAddresses ++ [⟨IPString ip, state, owner⟩]⟩ }

/-- The status `removePoolUsage` keeps: the entries whose address is not the text of `ip`. -/
def IPPool.withoutUsage (ipPool : IPPool) (ip : Option IP) : IPPool :=
  { ipPool with
    Status := ⟨ipPool.Status.IPAddresses.filter fun entry => entry.IPAddress ≠ IPString ip⟩ }

/-- The part of a range allocator that allocating and releasing never change: the
block and the reserved addresses. -/
def SingleIPAllocator.shape (al : SingleIPAllocator) : IP × Nat × List (Option IP) :=
  (al.first, al.size, al.reservedIPs)

/-- The blocks of two range allocators share no address. -/
def SingleIPAllocator.apart (x y : SingleIPAllocator) : Prop :=
  x.first + x.size ≤ y.first ∨ y.first + y.size ≤ x.first

instance (x y : SingleIPAllocator) : Decidable (x.apart y) := by
  unfold SingleIPAllocator.apart; infer_instance

/-- The blocks of the range allocators are pairwise disjoint. -/
def BlocksDisjoint (allocators : MultiIPAllocator) : Prop :=
  allocators.Pairwise SingleIPAllocator.apart

instance (allocators : MultiIPAllocator) : Decidable (BlocksDisjoint allocators) := by
  unfold BlocksDisjoint; infer_instance

/-- The ranges of the pool spec are well formed and pairwise disjoint. -/
def DisjointRanges (ipPool : IPPool) : Prop :=
  match initRanges ipPool.Spec.IPRanges with
  | .ok allocators => BlocksDisjoint allocators
  | .error _ => False

instance (ipPool : IPPool) : Decidable (DisjointRanges ipPool) := by
  unfold DisjointRanges; split <;> infer_instance

/-- The address `x` is marked used in the first range allocator that has it. -/
def Replayed (allocators : MultiIPAllocator) (x : IP) : Prop :=
  ∃ al, allocators.find? (fun al => al.Has (some x)) = some al ∧ x ∈ al.allocated

/-- The recorded status replays cleanly onto the ranges: `initIPAllocators` succeeds. -/
def ReplaysCleanly (ipPool : IPPool) : Prop :=
  ∃ allocators, initIPAllocators ipPool = .ok allocators

instance (ipPool : IPPool) : Decidable (ReplaysCleanly ipPool) :=
  match h : initIPAllocators ipPool with
  | .ok allocators => isTrue ⟨allocators, h⟩
  | .error e => isFalse (by rintro ⟨al, hal⟩; rw [h] at hal; cases hal)

/-- The range of the pool spec contains the address: the range allocator built
from it has the address (within bounds, not reserved). -/
def SubnetIPRange.contains (ipRange : SubnetIPRange) (ip : Option IP) : Bool :=
  match newRangeAllocator ipRange with
  | .ok allocator => allocator.Has ip
  | .error _ => false

/-- The range allocator is exhausted: every address it has is marked used. -/
def SingleIPAllocator.Exhausted (al : SingleIPAllocator) : Prop :=
  ∀ y, al.Has (some y) = true → y ∈ al.allocated

/-! ## Example pools -/

/-- The subnet `10.0.0.0/24` with gateway `10.0.0.1`. -/
def subnet24 : SubnetInfo := ⟨.canonical (ipv4 10 0 0 1), 24⟩

/-- The explicit range from `10.0.0.s` to `10.0.0.e` of the subnet `10.0.0.0/24`. -/
def rangeOf (s e : Nat) : SubnetIPRange :=
  ⟨.empty, .canonical (ipv4 10 0 0 s), .canonical (ipv4 10 0 0 e), subnet24⟩

/-- The owner that is the Pod `default/name` with container `containerID`. -/
def podOwner (name containerID : String) : IPAddressOwner :=
  ⟨some ⟨name, "default", containerID⟩⟩

/-- The record of `10.0.0.d`, allocated to the Pod `default/name`. -/
def recordOf (d : Nat) (name containerID : String) : IPAddressState :=
  ⟨.canonical (ipv4 10 0 0 d), .Allocated, podOwner name containerID⟩

/-- The allocator of the pool named `pool`. -/
def poolAllocator : IPPoolAllocator := ⟨"pool"⟩

/-- A store without faults holding the pool `pool` with the given ranges and records. -/
def storeOf (ranges : List SubnetIPRange) (records : List IPAddressState) : Store :=
  ⟨⟨"pool", 1, ⟨ranges⟩, ⟨records⟩⟩, [], []⟩

/-- A pool whose two ranges `10.0.0.5-10.0.0.6` and `10.0.0.6-10.0.0.7` overlap, with
`10.0.0.5` and `10.0.0.6` recorded. -/
def overlapStore : Store :=
  storeOf [rangeOf 5 6, rangeOf 6 7] [recordOf 5 "a" "c1", recordOf 6 "b" "c2"]

/-- A pool with the single range `10.0.0.5-10.0.0.6` and `10.0.0.5` recorded. -/
def smallStore : Store :=
  storeOf [rangeOf 5 6] [recordOf 5 "a" "c1"]

/-- The CIDR range `10.0.0.0/30` that is the whole subnet, gateway `10.0.0.1`. -/
def cidr30 : SubnetIPRange :=
  ⟨.text (some ⟨ipv4 10 0 0 0, 30, 32⟩), .other "" none, .other "" none,
    ⟨.canonical (ipv4 10 0 0 1), 30⟩⟩

/-- The IPv6 network `2001:db8::/64`. -/
def net6 : IPNet := ⟨0x20010db8000000000000000000000000, 64, 128⟩

/-- The CIDR range `2001:db8::/64` that is the whole subnet (declared prefix length
64), gateway `2001:db8::1`. -/
def cidr6 : SubnetIPRange :=
  ⟨.text (some net6), .other "" none, .other "" none,
    ⟨.canonical 0x20010db8000000000000000000000001, 64⟩⟩

/-- A pool with the single range `10.0.0.5-10.0.0.6` whose status records
`10.0.0.5` and also `10.0.0.9`, an address that fits no range. -/
def inconsistentStore : Store :=
  storeOf [rangeOf 5 6] [recordOf 5 "a" "c1", recordOf 9 "b" "c2"]

/-- A pool with the single range `10.0.0.5-10.0.0.6` and nothing recorded. -/
def emptyStore : Store :=
  storeOf [rangeOf 5 6] []

/-- A pool whose single range `10.0.0.5-10.0.0.5` is used up by container `c1`. -/
def fullStore : Store :=
  storeOf [rangeOf 5 5] [recordOf 5 "a" "c1"]

/-- A pool whose status holds the address `10.0.0.5` twice, once for the Pod
`default/a` and once for the Pod `default/b`. -/
def duplicateStore : Store :=
  storeOf [rangeOf 5 6] [recordOf 5 "a" "c1", recordOf 5 "b" "c2"]

/-- A pool whose only record, of the Pod `default/a`, spells the address `10.0.0.5`
as `::ffff:10.0.0.5`, which is not the text `IP.String()` prints for it. -/
def aliasStore : Store :=
  storeOf [rangeOf 5 6]
    [⟨.other "::ffff:10.0.0.5" (some (ipv4 10 0 0 5)), .Allocated, podOwner "a" "c1"⟩]

/-- A pool whose only range is the CIDR `10.0.0.0/30`, with nothing recorded. -/
def cidrStore : Store :=
  ⟨⟨"pool", 1, ⟨[cidr30]⟩, ⟨[]⟩⟩, [], []⟩

/-- A pool whose status holds two records of the container `c1`, for `10.0.0.5`
and for `10.0.0.6`. -/
def twoRecordStore : Store :=
  storeOf [rangeOf 5 6] [recordOf 5 "a" "c1", recordOf 6 "a" "c1"]

/-- The error is the inconsistent-state error of `initIPAllocators`. -/
def Err.isInconsistentState : Err → Bool
  | .inconsistentState _ _ => true
  | _ => false

/-- The error comes from the store: a version conflict, or an I/O error or timeout. -/
def Err.fromStore : Err → Bool
  | .conflict => true
  | .storeUnavailable => true
  | _ => false

/-- The store call failed with an I/O error or a timeout. -/
def StoreCall.unavailable : StoreCall → Bool
  | .get (.error .storeUnavailable) => true
  | .updateStatus _ (some .storeUnavailable) => true
  | _ => false

/-- The pool `submitted` is derived from the pool `ipPool`: the same resource at the
same version, its status either that of `ipPool` with one record appended or that
of `ipPool` without the records of one address. -/
def DerivedFrom (ipPool submitted : IPPool) : Prop :=
  submitted.Name = ipPool.Name ∧ submitted.ResourceVersion = ipPool.ResourceVersion
    ∧ submitted.Spec = ipPool.Spec
    ∧ ((∃ usageEntry, submitted.Status.IPAddresses = ipPool.Status.IPAddresses ++ [usageEntry])
      ∨ ∃ ip, submitted.Status.IPAddresses
          = ipPool.Status.IPAddresses.filter (fun entry => entry.IPAddress ≠ IPString ip))

/-- The store calls of one attempt: a read alone, or the read of a pool followed by
the write of a pool derived from the pool just read. -/
def AttemptCalls (calls : List StoreCall) : Prop :=
  (∃ r, calls = [.get r])
    ∨ ∃ ipPool submitted result,
        calls = [.get (.ok ipPool), .updateStatus submitted result]
        ∧ DerivedFrom ipPool submitted

/-- The store calls of an attempt whose write was rejected with a version conflict. -/
def ConflictAttempt (calls : List StoreCall) : Prop :=
  ∃ ipPool submitted, calls = [.get (.ok ipPool), .updateStatus submitted (some .conflict)]

/-- The read-decide-write cycle that every retried function is: read the pool,
decide from it alone (an error, nothing to write, or the pool to submit), write. -/
def cycle (plan : IPPool → Res (Option IPPool)) (st : Store) : Option Err × Store :=
  match st.Get with
  | (.error e, st1) => (some e, st1)
  | (.ok ipPool, st1) =>
    match plan ipPool with
    | .error e => (some e, st1)
    | .ok none => (none, st1)
    | .ok (some newPool) => st1.UpdateStatus newPool

/-- The calls of an attempt of `cycle plan` that ends the retry loop, with the error
it ends with. -/
def FinalAttempt (plan : IPPool → Res (Option IPPool)) (calls : List StoreCall)
    (err : Option Err) : Prop :=
  (calls = [.get (.error .storeUnavailable)] ∧ err = some .storeUnavailable)
    ∨ (∃ ipPool, calls = [.get (.ok ipPool)]
        ∧ ((∃ e, plan ipPool = .error e ∧ err = some e) ∨ (plan ipPool = .ok none ∧ err = none)))
    ∨ ∃ ipPool submitted, calls = [.get (.ok ipPool), .updateStatus submitted err]
        ∧ plan ipPool = .ok (some submitted) ∧ (err = none ∨ err = some .storeUnavailable)

/-- The calls of an attempt of `cycle plan` whose write was rejected with a conflict. -/
def ConflictStep (plan : IPPool → Res (Option IPPool)) (calls : List StoreCall) : Prop :=
  ∃ ipPool submitted, calls = [.get (.ok ipPool), .updateStatus submitted (some .conflict)]
    ∧ plan ipPool = .ok (some submitted)

/-- The attempts of `RetryOnConflict steps (cycle plan) lastErr`, each with its store
calls, and the error the loop returns. -/
inductive RetryTrace (plan : IPPool → Res (Option IPPool)) :
    Nat → Option Err → List (List StoreCall) → Option Err → Prop where
  | exhausted (lastErr : Option Err) : RetryTrace plan 0 lastErr [] lastErr
  | done (n : Nat) (lastErr : Option Err) (calls : List StoreCall) (err : Option Err) :
      FinalAttempt plan calls err → err ≠ some .conflict →
      RetryTrace plan (n + 1) lastErr [calls] err
  | again (n : Nat) (lastErr : Option Err) (calls : List StoreCall)
      (attempts : List (List StoreCall)) (err : Option Err) :
      ConflictStep plan calls → RetryTrace plan n (some .conflict) attempts err →
      RetryTrace plan (n + 1) lastErr (calls :: attempts) err

/-- The decision of `removePoolUsage`: the pool it submits, or its error when no
entry has the address. -/
def removePlan (ipPool : IPPool) (ip : Option IP) : Res (Option IPPool) :=
  if (ipPool.withoutUsage ip).Status.IPAddresses.length = ipPool.Status.IPAddresses.length then
    .error (.wasNotAllocated (IPString ip) ipPool.Name)
  else .ok (some (ipPool.withoutUsage ip))

/-- What one attempt of `AllocateIP` decides from the pool it read. -/
def AllocateIP.plan (a : IPPoolAllocator) (ip : Option IP) (state : IPAddressPhase)
    (owner : IPAddressOwner) (ipPool : IPPool) : Res (Option IPPool) :=
  match initIPAllocators ipPool with
  | .error e => .error e
  | .ok allocators =>
    match allocateIPLoop ip allocators 0 with
    | .error e => .error e
    | .ok none => .error (.doesNotBelong (IPString ip) a.ipPoolName)
    | .ok (some _) => .ok (some (ipPool.withUsage ip state owner))

/-- What one attempt of `AllocateNext` decides from the pool it read. -/
def AllocateNext.plan (a : IPPoolAllocator) (state : IPAddressPhase) (owner : IPAddressOwner)
    (ipPool : IPPool) : Res (Option IPPool) :=
  match initIPAllocators ipPool with
  | .error e => .error e
  | .ok allocators =>
    match allocateNextLoop allocators 0 none with
    | (_, none) => .error (.poolExhausted a.ipPoolName)
    | (ip1, some _) => .ok (some (ipPool.withUsage ip1 state owner))

/-- What one attempt of `Release` decides from the pool it read. -/
def Release.plan (a : IPPoolAllocator) (ip : Option IP) (ipPool : IPPool) :
    Res (Option IPPool) :=
  match initIPAllocators ipPool with
  | .error e => .error e
  | .ok allocators =>
    match allocators.Release ip with
    | .error _ => .error (.doesNotBelong (IPString ip) a.ipPoolName)
    | .ok _ => removePlan ipPool ip

/-- What one attempt of `ReleasePod` decides from the pool it read. -/
def ReleasePod.plan (a : IPPoolAllocator) (ns podName : String) (ipPool : IPPool) :
    Res (Option IPPool) :=
  match ipPool.Status.IPAddresses.find? (ownedByPod ns podName) with
  | some ip => removePlan ipPool (ParseIP ip.IPAddress)
  | none => .error (.podRecordNotFound ns podName a.ipPoolName)

/-- What one attempt of `ReleaseContainerIfPresent` decides from the pool it read. -/
def ReleaseContainerIfPresent.plan (containerID : String) (ipPool : IPPool) :
    Res (Option IPPool) :=
  match ipPool.Status.IPAddresses.find? (ownedByContainer containerID) with
  | some ip => removePlan ipPool (ParseIP ip.IPAddress)
  | none => .ok none

/-- The store after the environment's next `k` moves alone. -/
def Store.drift : Nat → Store → Store
  | 0, st => st
  | k + 1, st => Store.drift k st.env.2

/-- How a retried operation uses the store from `st` on: after the calls `lead`
made before the loop, it makes at most `DefaultRetrySteps` attempts, each a fresh
read followed by at most one write of a pool derived from that read; every attempt
before the last had its write rejected with a conflict, and an attempt so rejected
is the last one only when it is attempt number `DefaultRetrySteps`; the operation
returns a conflict error exactly when all `DefaultRetrySteps` attempts were so
rejected, and the stored pool is then what the moves of the environment alone made
it. -/
def RetryProtocol (st : Store) (lead : List StoreCall) (err : Option Err) (st1 : Store) :
    Prop :=
  ∃ attempts : List (List StoreCall),
    st1.log = st.log ++ lead ++ attempts.flatten
    ∧ attempts.length ≤ DefaultRetrySteps
    ∧ (∀ calls ∈ attempts, AttemptCalls calls)
    ∧ (∀ calls ∈ attempts.dropLast, ConflictAttempt calls)
    ∧ (∀ calls, attempts.getLast? = some calls → ConflictAttempt calls →
        attempts.length = DefaultRetrySteps)
    ∧ (err = some .conflict ↔
        attempts.length = DefaultRetrySteps ∧ ∀ calls ∈ attempts, ConflictAttempt calls)
    ∧ (err = some .conflict →
        st1.pool = (st.drift (lead.length + 2 * DefaultRetrySteps)).pool)

/-- A store whose environment writes the status between each read and the write
that follows it, five times over. -/
def contendedStore : Store :=
  { smallStore with
    faults := [.normal, .concurrentWrite [], .normal, .concurrentWrite [],
      .normal, .concurrentWrite [], .normal, .concurrentWrite [],
      .normal, .concurrentWrite []] }

/-- A store error other than a conflict ends the operation at once: when the first
read of the pool fails, the operation returns that error and does nothing more; and
any store call that fails with such an error is the last call the operation makes,
its error the one the operation returns. -/
def SurfacesUnavailable (st : Store) (err : Option Err) (st1 : Store) : Prop :=
  ((st.Get).1 = .error .storeUnavailable → err = some .storeUnavailable ∧ st1 = (st.Get).2)
    ∧ ∃ calls, st1.log = st.log ++ calls
      ∧ (∀ c ∈ calls.dropLast, c.unavailable = false)
      ∧ ∀ c, calls.getLast? = some c → c.unavailable = true → err = some .storeUnavailable

/-- The small pool in a store whose next call fails, every later call being served. -/
def flakyStore : Store :=
  { smallStore with faults := [.unavailable] }

/-- The subnet `10.0.0.128/25` with gateway `10.0.0.129`. -/
def subnet25 : SubnetInfo := ⟨.canonical (ipv4 10 0 0 129), 25⟩

/-- A pool with two disjoint ranges of different subnets, `10.0.0.5-10.0.0.5` of
`10.0.0.0/24` and `10.0.0.130-10.0.0.131` of `10.0.0.128/25`, the first used up by
container `c1`. -/
def twoRangeStore : Store :=
  storeOf [rangeOf 5 5,
      ⟨.empty, .canonical (ipv4 10 0 0 130), .canonical (ipv4 10 0 0 131), subnet25⟩]
    [recordOf 5 "a" "c1"]

/-- The two-range pool in a store where another agent records `10.0.0.130` for the
container `c3` between the read of the first attempt and its write. -/
def racedStore : Store :=
  { twoRangeStore with
    faults := [.normal, .normal,
      .concurrentWrite [recordOf 5 "a" "c1", recordOf 130 "c" "c3"]] }

/-- A pool whose two disjoint ranges `10.0.0.5-10.0.0.5` and `10.0.0.7-10.0.0.7` are
both used up, by the containers `c1` and `c3`. -/
def exhaustedStore : Store :=
  storeOf [rangeOf 5 5, rangeOf 7 7] [recordOf 5 "a" "c1", recordOf 7 "c" "c3"]

/-! # Theorems -/

/-! ## Basic facts: the store without faults, the retry loop -/

theorem Store.Get_quiet (st : Store) (hq : st.faults = []) :
    st.Get = (.ok st.pool, st.afterGet) := by
  simp [Store.Get, Store.env, hq, Store.afterGet]

theorem Store.UpdateStatus_quiet (st : Store) (newPool : IPPool) (hq : st.faults = [])
    (hv : newPool.ResourceVersion = st.pool.ResourceVersion) :
    st.UpdateStatus newPool = (none, st.afterUpdate newPool) := by
  simp [Store.UpdateStatus, Store.env, hq, hv, Store.afterUpdate]

@[simp] theorem Store.afterGet_faults (st : Store) : st.afterGet.faults = st.faults := rfl
@[simp] theorem Store.afterGet_pool (st : Store) : st.afterGet.pool = st.pool := rfl
@[simp] theorem Store.afterUpdate_faults (st : Store) (p : IPPool) :
    (st.afterUpdate p).faults = st.faults := rfl
@[simp] theorem Store.afterUpdate_status (st : Store) (p : IPPool) :
    (st.afterUpdate p).pool.Status = p.Status := rfl
@[simp] theorem Store.afterGet_writes (st : Store) : st.afterGet.writes = st.writes := by
  simp [Store.afterGet, Store.writes, List.filterMap_append]
@[simp] theorem Store.afterUpdate_writes (st : Store) (p : IPPool) :
    (st.afterUpdate p).writes = st.writes ++ [p] := by
  simp [Store.afterUpdate, Store.writes, List.filterMap_append]

theorem RetryOnConflict_ok {σ : Type} (n : Nat) (fn : σ → Option Err × σ) (l : Option Err)
    (s s1 : σ) (h : fn s = (none, s1)) : RetryOnConflict (n + 1) fn l s = (none, s1) := by
  simp [RetryOnConflict, h]

theorem RetryOnConflict_error {σ : Type} (n : Nat) (fn : σ → Option Err × σ) (l : Option Err)
    (s s1 : σ) (e : Err) (h : fn s = (some e, s1)) (he : e.isConflict = false) :
    RetryOnConflict (n + 1) fn l s = (some e, s1) := by
  simp [RetryOnConflict, h, he]

/-- In a store without faults, one attempt decides the loop when it does not end
in a conflict. -/
theorem RetryOnConflict_first {σ : Type} (fn : σ → Option Err × σ) (s : σ)
    (h : ∀ e, (fn s).1 = some e → e.isConflict = false) :
    RetryOnConflict DefaultRetrySteps fn none s = fn s := by
  unfold DefaultRetrySteps
  rcases hfn : fn s with ⟨_ | e, s1⟩
  · exact RetryOnConflict_ok _ _ _ _ _ hfn
  · exact RetryOnConflict_error _ _ _ _ _ _ hfn (h e (by simp [hfn]))

theorem SingleIPAllocator.AllocateIP_not_conflict (al : SingleIPAllocator) (ip : Option IP)
    (e : Err) (h : al.AllocateIP ip = .error e) : e.isConflict = false := by
  cases ip with
  | none => simp [SingleIPAllocator.AllocateIP] at h; subst h; rfl
  | some x =>
    simp only [SingleIPAllocator.AllocateIP] at h
    split_ifs at h <;> cases h <;> rfl

theorem initRanges_not_conflict (rs : List SubnetIPRange) (e : Err)
    (h : initRanges rs = .error e) : e.isConflict = false := by
  induction rs with
  | nil => simp [initRanges] at h
  | cons r rest ih =>
    simp only [initRanges] at h
    cases hr : newRangeAllocator r with
    | error e1 =>
      rw [hr] at h
      cases h
      unfold newRangeAllocator at hr
      cases hc : r.CIDR with
      | empty =>
        rw [hc] at hr
        simp only [NewIPRangeAllocator] at hr
        split at hr
        · split_ifs at hr
          · cases hr; rfl
        · cases hr; rfl
      | text parsed =>
        rw [hc] at hr
        cases parsed with
        | none => cases hr; rfl
        | some n => simp [NewCIDRAllocator] at hr
    | ok al =>
      rw [hr] at h
      cases hrest : initRanges rest with
      | error e2 => rw [hrest] at h; cases h; exact ih hrest
      | ok als => rw [hrest] at h; cases h

theorem markAllocated_not_conflict (name : String) (recs : List IPAddressState)
    (allocs : MultiIPAllocator) (e : Err)
    (h : markAllocated name allocs recs = .error e) : e.isConflict = false := by
  induction recs generalizing allocs with
  | nil => simp [markAllocated] at h
  | cons r rest ih =>
    simp only [markAllocated] at h
    cases hr : MultiIPAllocator.AllocateIP allocs (ParseIP r.IPAddress) with
    | error e1 => rw [hr] at h; cases h; rfl
    | ok al1 => rw [hr] at h; exact ih al1 h

theorem initIPAllocators_not_conflict (ipPool : IPPool) (e : Err)
    (h : initIPAllocators ipPool = .error e) : e.isConflict = false := by
  unfold initIPAllocators at h
  cases hr : initRanges ipPool.Spec.IPRanges with
  | error e1 => rw [hr] at h; cases h; exact initRanges_not_conflict _ _ hr
  | ok als => rw [hr] at h; exact markAllocated_not_conflict _ _ _ _ h

theorem allocateIPLoop_not_conflict (ip : Option IP) (allocs : MultiIPAllocator) (i : Nat)
    (e : Err) (h : allocateIPLoop ip allocs i = .error e) : e.isConflict = false := by
  induction allocs generalizing i with
  | nil => simp [allocateIPLoop] at h
  | cons al rest ih =>
    simp only [allocateIPLoop] at h
    split_ifs at h
    · cases hal : al.AllocateIP ip with
      | error e1 =>
        rw [hal] at h; cases h
        exact SingleIPAllocator.AllocateIP_not_conflict _ _ _ hal
      | ok a1 => rw [hal] at h; cases h
    · exact ih _ h

theorem readPoolAndInitIPAllocators_quiet (st : Store) (hq : st.faults = []) :
    readPoolAndInitIPAllocators st =
      (match initIPAllocators st.pool with
        | .error e => .error e
        | .ok allocators => .ok (st.pool, allocators), st.afterGet) := by
  unfold readPoolAndInitIPAllocators
  rw [Store.Get_quiet st hq]
  simp only []
  cases initIPAllocators st.pool <;> rfl

theorem appendPoolUsage_quiet (ipPool : IPPool) (ip : Option IP) (state : IPAddressPhase)
    (owner : IPAddressOwner) (st : Store) (hq : st.faults = [])
    (hv : ipPool.ResourceVersion = st.pool.ResourceVersion) :
    appendPoolUsage ipPool ip state owner st =
      (none, st.afterUpdate { ipPool with
        Status := ⟨ipPool.Status.IPAddresses ++ [⟨IPString ip, state, owner⟩]⟩ }) := by
  unfold appendPoolUsage
  exact Store.UpdateStatus_quiet _ _ hq hv

theorem AllocateIP_attempt_quiet (a : IPPoolAllocator) (ip : Option IP) (state : IPAddressPhase)
    (owner : IPAddressOwner) (sn : SubnetInfo) (st : Store) (hq : st.faults = []) :
    AllocateIP.attempt a ip state owner (sn, st) =
      match initIPAllocators st.pool with
      | .error e => (some e, (sn, st.afterGet))
      | .ok allocators =>
        match allocateIPLoop ip allocators 0 with
        | .error e => (some e, (sn, st.afterGet))
        | .ok none => (some (.doesNotBelong (IPString ip) a.ipPoolName), (sn, st.afterGet))
        | .ok (some index) =>
          (none, ((st.pool.Spec.IPRanges.getD index default).SubnetInfo,
            st.afterGet.afterUpdate (st.pool.withUsage ip state owner))) := by
  simp only [AllocateIP.attempt]
  rw [readPoolAndInitIPAllocators_quiet st hq]
  cases hi : initIPAllocators st.pool with
  | error e => rfl
  | ok allocators =>
    simp only []
    cases hl : allocateIPLoop ip allocators 0 with
    | error e => rfl
    | ok idx =>
      cases idx with
      | none => rfl
      | some index =>
        simp only []
        rw [appendPoolUsage_quiet _ _ _ _ _ (by simpa using hq) (by simp)]
        rfl

theorem AllocateIP_quiet (a : IPPoolAllocator) (ip : Option IP) (state : IPAddressPhase)
    (owner : IPAddressOwner) (st : Store) (hq : st.faults = []) :
    AllocateIP a ip state owner st =
      match initIPAllocators st.pool with
      | .error e => ((default, some e), st.afterGet)
      | .ok allocators =>
        match allocateIPLoop ip allocators 0 with
        | .error e => ((default, some e), st.afterGet)
        | .ok none => ((default, some (.doesNotBelong (IPString ip) a.ipPoolName)), st.afterGet)
        | .ok (some index) =>
          (((st.pool.Spec.IPRanges.getD index default).SubnetInfo, none),
            st.afterGet.afterUpdate (st.pool.withUsage ip state owner)) := by
  unfold AllocateIP
  rw [RetryOnConflict_first]
  · rw [AllocateIP_attempt_quiet a ip state owner default st hq]
    cases hi : initIPAllocators st.pool with
    | error e => rfl
    | ok allocators =>
      simp only []
      cases hl : allocateIPLoop ip allocators 0 with
      | error e => rfl
      | ok idx => cases idx <;> rfl
  · intro e he
    rw [AllocateIP_attempt_quiet a ip state owner default st hq] at he
    cases hi : initIPAllocators st.pool with
    | error e1 =>
      rw [hi] at he; simp at he; subst he
      exact initIPAllocators_not_conflict _ _ hi
    | ok allocators =>
      rw [hi] at he
      simp only [] at he
      cases hl : allocateIPLoop ip allocators 0 with
      | error e1 =>
        rw [hl] at he; simp at he; subst he
        exact allocateIPLoop_not_conflict _ _ _ _ hl
      | ok idx =>
        rw [hl] at he
        cases idx with
        | none => simp at he; subst he; rfl
        | some index => simp at he

theorem HasContainer_quiet (containerID : String) (st : Store) (hq : st.faults = []) :
    HasContainer containerID st =
      (.ok (st.pool.Status.IPAddresses.any (ownedByContainer containerID)), st.afterGet) := by
  unfold HasContainer
  rw [Store.Get_quiet st hq]

theorem AllocateNext_attempt_quiet (a : IPPoolAllocator) (state : IPAddressPhase)
    (owner : IPAddressOwner) (ip : Option IP) (sn : SubnetInfo) (st : Store)
    (hq : st.faults = []) :
    AllocateNext.attempt a state owner (ip, sn, st) =
      match initIPAllocators st.pool with
      | .error e => (some e, (ip, sn, st.afterGet))
      | .ok allocators =>
        match allocateNextLoop allocators 0 ip with
        | (ip1, none) => (some (.poolExhausted a.ipPoolName), (ip1, sn, st.afterGet))
        | (ip1, some index) =>
          (none, (ip1, (st.pool.Spec.IPRanges.getD index default).SubnetInfo,
            st.afterGet.afterUpdate (st.pool.withUsage ip1 state owner))) := by
  simp only [AllocateNext.attempt]
  rw [readPoolAndInitIPAllocators_quiet st hq]
  cases hi : initIPAllocators st.pool with
  | error e => rfl
  | ok allocators =>
    simp only []
    rcases hl : allocateNextLoop allocators 0 ip with ⟨ip1, _ | index⟩
    · rfl
    · simp only []
      rw [appendPoolUsage_quiet _ _ _ _ _ (by simpa using hq) (by simp)]
      rfl

theorem AllocateNext_quiet (a : IPPoolAllocator) (state : IPAddressPhase)
    (owner : IPAddressOwner) (pod : PodOwner) (st : Store) (hq : st.faults = [])
    (hpod : owner.Pod = some pod) :
    AllocateNext a state owner st =
      if st.pool.Status.IPAddresses.any (ownedByContainer pod.ContainerID) = true then
        ((none, default, some (.containerAlreadyAllocated pod.ContainerID a.ipPoolName)),
          st.afterGet)
      else
        match initIPAllocators st.pool with
        | .error e => ((none, default, some e), st.afterGet.afterGet)
        | .ok allocators =>
          match allocateNextLoop allocators 0 none with
          | (ip1, none) =>
            ((ip1, default, some (.poolExhausted a.ipPoolName)), st.afterGet.afterGet)
          | (ip1, some index) =>
            ((ip1, (st.pool.Spec.IPRanges.getD index default).SubnetInfo, none),
              st.afterGet.afterGet.afterUpdate (st.pool.withUsage ip1 state owner)) := by
  unfold AllocateNext
  simp only [hpod]
  rw [HasContainer_quiet _ st hq]
  cases hany : st.pool.Status.IPAddresses.any (ownedByContainer pod.ContainerID) with
  | true => simp
  | false =>
    simp only [Bool.false_eq_true, if_false]
    have hq1 : st.afterGet.faults = [] := by simpa using hq
    have hatt := AllocateNext_attempt_quiet a state owner none default st.afterGet hq1
    simp only [Store.afterGet_pool] at hatt
    rw [RetryOnConflict_first]
    · rw [hatt]
      cases hi : initIPAllocators st.pool with
      | error e => rfl
      | ok allocators =>
        simp only []
        rcases hl : allocateNextLoop allocators 0 none with ⟨ip1, _ | index⟩ <;> rfl
    · intro e he
      rw [hatt] at he
      cases hi : initIPAllocators st.pool with
      | error e1 =>
        rw [hi] at he; simp at he; subst he
        exact initIPAllocators_not_conflict _ _ hi
      | ok allocators =>
        rw [hi] at he
        simp only [] at he
        rcases hl : allocateNextLoop allocators 0 none with ⟨ip1, _ | index⟩
        · rw [hl] at he; simp at he; subst he; rfl
        · rw [hl] at he; simp at he

theorem removePoolUsage_quiet (ipPool : IPPool) (ip : Option IP) (st : Store)
    (hq : st.faults = []) (hv : ipPool.ResourceVersion = st.pool.ResourceVersion) :
    removePoolUsage ipPool ip st =
      if (ipPool.withoutUsage ip).Status.IPAddresses.length = ipPool.Status.IPAddresses.length
      then (some (.wasNotAllocated (IPString ip) ipPool.Name), st)
      else (none, st.afterUpdate (ipPool.withoutUsage ip)) := by
  unfold removePoolUsage
  simp only [IPPool.withoutUsage]
  split_ifs with h
  · rfl
  · exact Store.UpdateStatus_quiet _ _ hq hv

theorem removePoolUsage_not_conflict (ipPool : IPPool) (ip : Option IP) (st : Store)
    (hq : st.faults = []) (hv : ipPool.ResourceVersion = st.pool.ResourceVersion) (e : Err)
    (h : (removePoolUsage ipPool ip st).1 = some e) : e.isConflict = false := by
  rw [removePoolUsage_quiet ipPool ip st hq hv] at h
  split_ifs at h
  · simp at h; subst h; rfl

theorem Release_attempt_quiet (a : IPPoolAllocator) (ip : Option IP) (st : Store)
    (hq : st.faults = []) :
    Release.attempt a ip st =
      match initIPAllocators st.pool with
      | .error e => (some e, st.afterGet)
      | .ok allocators =>
        match allocators.Release ip with
        | .error _ => (some (.doesNotBelong (IPString ip) a.ipPoolName), st.afterGet)
        | .ok _ => removePoolUsage st.pool ip st.afterGet := by
  simp only [Release.attempt]
  rw [readPoolAndInitIPAllocators_quiet st hq]
  cases hi : initIPAllocators st.pool with
  | error e => rfl
  | ok allocators => rfl

theorem Release_quiet (a : IPPoolAllocator) (ip : Option IP) (st : Store)
    (hq : st.faults = []) :
    Release a ip st =
      match initIPAllocators st.pool with
      | .error e => (some e, st.afterGet)
      | .ok allocators =>
        match allocators.Release ip with
        | .error _ => (some (.doesNotBelong (IPString ip) a.ipPoolName), st.afterGet)
        | .ok _ =>
          if (st.pool.withoutUsage ip).Status.IPAddresses.length
              = st.pool.Status.IPAddresses.length
          then (some (.wasNotAllocated (IPString ip) st.pool.Name), st.afterGet)
          else (none, st.afterGet.afterUpdate (st.pool.withoutUsage ip)) := by
  unfold Release
  have hq1 : st.afterGet.faults = [] := by simpa using hq
  rw [RetryOnConflict_first]
  · rw [Release_attempt_quiet a ip st hq]
    cases hi : initIPAllocators st.pool with
    | error e => rfl
    | ok allocators =>
      simp only []
      cases hr : MultiIPAllocator.Release allocators ip with
      | error e => rfl
      | ok al1 =>
        simp only []
        rw [removePoolUsage_quiet st.pool ip st.afterGet hq1 rfl]
  · intro e he
    rw [Release_attempt_quiet a ip st hq] at he
    cases hi : initIPAllocators st.pool with
    | error e1 =>
      rw [hi] at he; simp at he; subst he
      exact initIPAllocators_not_conflict _ _ hi
    | ok allocators =>
      rw [hi] at he
      simp only [] at he
      cases hr : MultiIPAllocator.Release allocators ip with
      | error e1 => rw [hr] at he; simp at he; subst he; rfl
      | ok al1 =>
        rw [hr] at he
        exact removePoolUsage_not_conflict st.pool ip st.afterGet hq1 rfl e he

theorem ReleasePod_quiet (a : IPPoolAllocator) (ns podName : String) (st : Store)
    (hq : st.faults = []) :
    ReleasePod a ns podName st =
      match st.pool.Status.IPAddresses.find? (ownedByPod ns podName) with
      | none => (some (.podRecordNotFound ns podName a.ipPoolName), st.afterGet)
      | some r =>
        if (st.pool.withoutUsage (ParseIP r.IPAddress)).Status.IPAddresses.length
            = st.pool.Status.IPAddresses.length
        then (some (.wasNotAllocated (IPString (ParseIP r.IPAddress)) st.pool.Name), st.afterGet)
        else (none, st.afterGet.afterUpdate (st.pool.withoutUsage (ParseIP r.IPAddress))) := by
  unfold ReleasePod
  have hq1 : st.afterGet.faults = [] := by simpa using hq
  have hatt : ReleasePod.attempt a ns podName st =
      match st.pool.Status.IPAddresses.find? (ownedByPod ns podName) with
      | none => (some (.podRecordNotFound ns podName a.ipPoolName), st.afterGet)
      | some r => removePoolUsage st.pool (ParseIP r.IPAddress) st.afterGet := by
    simp only [ReleasePod.attempt]
    rw [Store.Get_quiet st hq]
    simp only []
    cases st.pool.Status.IPAddresses.find? (ownedByPod ns podName) <;> rfl
  rw [RetryOnConflict_first]
  · rw [hatt]
    cases hf : st.pool.Status.IPAddresses.find? (ownedByPod ns podName) with
    | none => rfl
    | some r =>
      simp only []
      rw [removePoolUsage_quiet st.pool _ st.afterGet hq1 rfl]
  · intro e he
    rw [hatt] at he
    cases hf : st.pool.Status.IPAddresses.find? (ownedByPod ns podName) with
    | none => rw [hf] at he; simp at he; subst he; rfl
    | some r =>
      rw [hf] at he
      exact removePoolUsage_not_conflict st.pool _ st.afterGet hq1 rfl e he

/-! ## The range allocators -/

theorem SingleIPAllocator.Has_eq_of_shape (al al1 : SingleIPAllocator)
    (h : al1.shape = al.shape) (ip : Option IP) : al1.Has ip = al.Has ip := by
  simp only [SingleIPAllocator.shape, Prod.mk.injEq] at h
  obtain ⟨h1, h2, h3⟩ := h
  cases ip with
  | none => rfl
  | some x => simp [SingleIPAllocator.Has, SingleIPAllocator.inBounds,
      SingleIPAllocator.isReserved, h1, h2, h3]

theorem SingleIPAllocator.AllocateIP_ok (al al1 : SingleIPAllocator) (ip : Option IP)
    (h : al.AllocateIP ip = .ok al1) :
    ∃ x, ip = some x ∧ al.Has (some x) = true ∧ x ∉ al.allocated
      ∧ al1 = { al with allocated := x :: al.allocated } := by
  cases ip with
  | none => simp [SingleIPAllocator.AllocateIP] at h
  | some x =>
    simp only [SingleIPAllocator.AllocateIP] at h
    split_ifs at h with h1 h2 h3
    cases h
    refine ⟨x, rfl, ?_, h2, rfl⟩
    simp only [SingleIPAllocator.Has]
    simp at h1 h3
    simp [h1, h3]

theorem SingleIPAllocator.AllocateIP_of_has (al : SingleIPAllocator) (x : IP)
    (h : al.Has (some x) = true) :
    al.AllocateIP (some x) =
      if x ∈ al.allocated then .error .alreadyAllocated
      else .ok { al with allocated := x :: al.allocated } := by
  simp only [SingleIPAllocator.Has, Bool.and_eq_true, Bool.not_eq_true'] at h
  simp [SingleIPAllocator.AllocateIP, h.1, h.2]

theorem SingleIPAllocator.AllocateNext_ok (al al1 : SingleIPAllocator) (x : IP)
    (h : al.AllocateNext = .ok (x, al1)) :
    al.Has (some x) = true ∧ x ∉ al.allocated
      ∧ al1 = { al with allocated := x :: al.allocated }
      ∧ ∀ y, y < x → al.Has (some y) = true → y ∈ al.allocated := by
  unfold SingleIPAllocator.AllocateNext at h
  split at h
  · cases h
  · rename_i ip hf
    cases h
    rw [List.find?_range'_eq_some] at hf
    obtain ⟨hp, hm, hlow⟩ := hf
    simp only [List.mem_range'_1] at hm
    simp only [Bool.and_eq_true, decide_eq_true_eq, Bool.not_eq_true'] at hp
    refine ⟨?_, hp.1, rfl, ?_⟩
    · simp [SingleIPAllocator.Has, SingleIPAllocator.inBounds, hm.1, hm.2, hp.2]
    · intro y hy hhas
      simp only [SingleIPAllocator.Has, SingleIPAllocator.inBounds, Bool.and_eq_true,
        decide_eq_true_eq, Bool.not_eq_true'] at hhas
      have := hlow y hhas.1.1 hy
      simp only [Bool.not_eq_true', Bool.and_eq_false_iff, decide_eq_false_iff_not,
        Decidable.not_not, Bool.not_eq_false'] at this
      rcases this with h1 | h1
      · exact h1
      · rw [hhas.2] at h1; cases h1

theorem SingleIPAllocator.AllocateNext_error (al : SingleIPAllocator) (e : Err)
    (h : al.AllocateNext = .error e) :
    e = .rangeExhausted ∧ ∀ y, al.Has (some y) = true → y ∈ al.allocated := by
  unfold SingleIPAllocator.AllocateNext at h
  split at h
  · rename_i hf
    cases h
    refine ⟨rfl, ?_⟩
    intro y hhas
    rw [List.find?_range'_eq_none] at hf
    simp only [SingleIPAllocator.Has, SingleIPAllocator.inBounds, Bool.and_eq_true,
      decide_eq_true_eq, Bool.not_eq_true'] at hhas
    have := hf y hhas.1.1 hhas.1.2
    simp only [Bool.not_eq_true', Bool.and_eq_false_iff, decide_eq_false_iff_not,
      Decidable.not_not, Bool.not_eq_false'] at this
    rcases this with h1 | h1
    · exact h1
    · rw [hhas.2] at h1; cases h1
  · cases h

/-- A range allocator gives a next address exactly when it still has a free,
non-reserved address in its block. -/
theorem SingleIPAllocator.AllocateNext_isOk_iff (al : SingleIPAllocator) :
    (∃ x al1, al.AllocateNext = .ok (x, al1)) ↔
      ∃ y, al.Has (some y) = true ∧ y ∉ al.allocated := by
  constructor
  · rintro ⟨x, al1, h⟩
    obtain ⟨h1, h2, _, _⟩ := al.AllocateNext_ok al1 x h
    exact ⟨x, h1, h2⟩
  · rintro ⟨y, h1, h2⟩
    cases h : al.AllocateNext with
    | ok r => exact ⟨r.1, r.2, rfl⟩
    | error e => exact absurd ((al.AllocateNext_error e h).2 y h1) h2

theorem SingleIPAllocator.Release_ok (al al1 : SingleIPAllocator) (ip : Option IP)
    (h : al.Release ip = .ok al1) :
    ∃ x, ip = some x ∧ x ∈ al.allocated := by
  cases ip with
  | none => simp [SingleIPAllocator.Release] at h
  | some x =>
    simp only [SingleIPAllocator.Release] at h
    split_ifs at h with h1
    exact ⟨x, rfl, h1⟩

theorem SingleIPAllocator.Release_of_mem (al : SingleIPAllocator) (x : IP)
    (h : x ∈ al.allocated) :
    al.Release (some x) = .ok { al with allocated := al.allocated.filter (· ≠ x) } := by
  simp [SingleIPAllocator.Release, h]

/-! ## The multi-range allocator and the replay of the status -/

theorem find_has_cons_pos (al : SingleIPAllocator) (rest : List SingleIPAllocator) (x : IP)
    (h : al.Has (some x) = true) :
    (al :: rest).find? (fun al => al.Has (some x)) = some al := by
  simp [List.find?_cons, h]

theorem find_has_cons_neg (al : SingleIPAllocator) (rest : List SingleIPAllocator) (x : IP)
    (h : ¬ al.Has (some x) = true) :
    (al :: rest).find? (fun al => al.Has (some x))
      = rest.find? (fun al => al.Has (some x)) := by
  simp [List.find?_cons, h]

theorem MultiIPAllocator.AllocateIP_shape (allocs allocs1 : MultiIPAllocator) (ip : Option IP)
    (h : MultiIPAllocator.AllocateIP allocs ip = .ok allocs1) :
    allocs1.map SingleIPAllocator.shape = allocs.map SingleIPAllocator.shape := by
  induction allocs generalizing allocs1 with
  | nil => simp [MultiIPAllocator.AllocateIP] at h
  | cons al rest ih =>
    simp only [MultiIPAllocator.AllocateIP] at h
    split_ifs at h with hhas
    · cases hal : al.AllocateIP ip with
      | error e => rw [hal] at h; cases h
      | ok al1 =>
        rw [hal] at h; cases h
        obtain ⟨x, _, _, _, rfl⟩ := al.AllocateIP_ok al1 ip hal
        simp [SingleIPAllocator.shape]
    · cases hr : MultiIPAllocator.AllocateIP rest ip with
      | error e => rw [hr] at h; cases h
      | ok rest1 =>
        rw [hr] at h; cases h
        simp [ih rest1 hr]

theorem MultiIPAllocator.AllocateIP_ok_some (allocs allocs1 : MultiIPAllocator)
    (ip : Option IP) (h : MultiIPAllocator.AllocateIP allocs ip = .ok allocs1) :
    ∃ x, ip = some x := by
  cases ip with
  | some x => exact ⟨x, rfl⟩
  | none =>
    exfalso
    induction allocs generalizing allocs1 with
    | nil => simp [MultiIPAllocator.AllocateIP] at h
    | cons al rest ih =>
      simp only [MultiIPAllocator.AllocateIP, SingleIPAllocator.Has] at h
      cases hr : MultiIPAllocator.AllocateIP rest none with
      | error e => rw [hr] at h; simp at h
      | ok rest1 => exact ih rest1 hr

/-- What `AllocateIP` of the multi-range allocator does, in terms of the first range
allocator that has the address. -/
theorem MultiIPAllocator.AllocateIP_some (allocs : MultiIPAllocator) (x : IP) :
    (∃ allocs1, MultiIPAllocator.AllocateIP allocs (some x) = .ok allocs1) ↔
      ∃ al, allocs.find? (fun al => al.Has (some x)) = some al ∧ x ∉ al.allocated := by
  induction allocs with
  | nil => simp [MultiIPAllocator.AllocateIP]
  | cons al rest ih =>
    simp only [MultiIPAllocator.AllocateIP]
    by_cases hhas : al.Has (some x) = true
    · simp only [hhas, if_true, find_has_cons_pos _ _ _ hhas, Option.some.injEq, exists_eq_left']
      rw [al.AllocateIP_of_has x hhas]
      by_cases hm : x ∈ al.allocated <;> simp [hm]
    · simp only [hhas, if_false, Bool.false_eq_true]
      rw [find_has_cons_neg _ _ _ hhas, ← ih]
      constructor
      · rintro ⟨allocs1, h⟩
        cases hr : MultiIPAllocator.AllocateIP rest (some x) with
        | error e => rw [hr] at h; cases h
        | ok rest1 => exact ⟨rest1, rfl⟩
      · rintro ⟨rest1, h⟩
        exact ⟨al :: rest1, by rw [h]⟩

theorem find_has_of_shape (allocs allocs1 : MultiIPAllocator) (x : IP)
    (hs : allocs1.map SingleIPAllocator.shape = allocs.map SingleIPAllocator.shape) :
    (allocs1.find? (fun al => al.Has (some x))).map SingleIPAllocator.shape
      = (allocs.find? (fun al => al.Has (some x))).map SingleIPAllocator.shape := by
  induction allocs generalizing allocs1 with
  | nil => cases allocs1 <;> simp_all
  | cons al rest ih =>
    cases allocs1 with
    | nil => simp at hs
    | cons al1 rest1 =>
      simp only [List.map_cons, List.cons.injEq] at hs
      have hhas := SingleIPAllocator.Has_eq_of_shape al al1 hs.1 (some x)
      by_cases h : al.Has (some x) = true
      · rw [find_has_cons_pos _ _ _ h, find_has_cons_pos _ _ _ (by rw [hhas]; exact h)]
        simp [hs.1]
      · rw [find_has_cons_neg _ _ _ h, find_has_cons_neg _ _ _ (by rw [hhas]; exact h)]
        exact ih rest1 hs.2

theorem MultiIPAllocator.AllocateIP_replayed (allocs allocs1 : MultiIPAllocator) (x : IP)
    (h : MultiIPAllocator.AllocateIP allocs (some x) = .ok allocs1) : Replayed allocs1 x := by
  induction allocs generalizing allocs1 with
  | nil => simp [MultiIPAllocator.AllocateIP] at h
  | cons al rest ih =>
    simp only [MultiIPAllocator.AllocateIP] at h
    split_ifs at h with hhas
    · cases hal : al.AllocateIP (some x) with
      | error e => rw [hal] at h; cases h
      | ok al1 =>
        rw [hal] at h; cases h
        obtain ⟨y, hy, _, _, rfl⟩ := al.AllocateIP_ok al1 _ hal
        cases hy
        refine ⟨_, find_has_cons_pos _ _ _ ?_, by simp⟩
        rw [← hhas]
        exact SingleIPAllocator.Has_eq_of_shape _ _ rfl _
    · cases hr : MultiIPAllocator.AllocateIP rest (some x) with
      | error e => rw [hr] at h; cases h
      | ok rest1 =>
        rw [hr] at h; cases h
        obtain ⟨al2, hf, hm⟩ := ih rest1 hr
        exact ⟨al2, by rw [find_has_cons_neg _ _ _ hhas]; exact hf, hm⟩

theorem MultiIPAllocator.AllocateIP_replayed_mono (allocs allocs1 : MultiIPAllocator)
    (ip : Option IP) (y : IP) (h : MultiIPAllocator.AllocateIP allocs ip = .ok allocs1)
    (hy : Replayed allocs y) : Replayed allocs1 y := by
  induction allocs generalizing allocs1 with
  | nil => simp [MultiIPAllocator.AllocateIP] at h
  | cons al rest ih =>
    obtain ⟨al0, hf, hm⟩ := hy
    simp only [MultiIPAllocator.AllocateIP] at h
    split_ifs at h with hhas
    · cases hal : al.AllocateIP ip with
      | error e => rw [hal] at h; cases h
      | ok al1 =>
        rw [hal] at h; cases h
        obtain ⟨x, _, _, _, rfl⟩ := al.AllocateIP_ok al1 _ hal
        by_cases hy : al.Has (some y) = true
        · rw [find_has_cons_pos _ _ _ hy] at hf
          cases hf
          refine ⟨_, find_has_cons_pos _ _ _ ?_, by simp [hm]⟩
          rw [← hy]
          exact SingleIPAllocator.Has_eq_of_shape _ _ rfl _
        · rw [find_has_cons_neg _ _ _ hy] at hf
          refine ⟨al0, ?_, hm⟩
          rw [find_has_cons_neg _ _ _ ?_]
          · exact hf
          · have hsh := SingleIPAllocator.Has_eq_of_shape al
              { al with allocated := x :: al.allocated } rfl (some y)
            rw [hsh]; exact hy
    · cases hr : MultiIPAllocator.AllocateIP rest ip with
      | error e => rw [hr] at h; cases h
      | ok rest1 =>
        rw [hr] at h; cases h
        by_cases hy : al.Has (some y) = true
        · rw [find_has_cons_pos _ _ _ hy] at hf
          cases hf
          exact ⟨al, find_has_cons_pos _ _ _ hy, hm⟩
        · rw [find_has_cons_neg _ _ _ hy] at hf
          obtain ⟨al2, hf2, hm2⟩ := ih rest1 hr ⟨al0, hf, hm⟩
          exact ⟨al2, by rw [find_has_cons_neg _ _ _ hy]; exact hf2, hm2⟩

/-- Every mark of the allocators after `AllocateIP` was there before or is the
address just allocated. -/
theorem MultiIPAllocator.AllocateIP_marks (allocs allocs1 : MultiIPAllocator)
    (ip : Option IP) (h : MultiIPAllocator.AllocateIP allocs ip = .ok allocs1)
    (al1 : SingleIPAllocator) (hal1 : al1 ∈ allocs1) (y : IP) (hy : y ∈ al1.allocated) :
    ip = some y ∨ ∃ al ∈ allocs, y ∈ al.allocated := by
  induction allocs generalizing allocs1 with
  | nil => simp [MultiIPAllocator.AllocateIP] at h
  | cons al rest ih =>
    simp only [MultiIPAllocator.AllocateIP] at h
    split_ifs at h with hhas
    · cases hal : al.AllocateIP ip with
      | error e => rw [hal] at h; cases h
      | ok al2 =>
        rw [hal] at h; cases h
        obtain ⟨x, hx, _, _, rfl⟩ := al.AllocateIP_ok al2 _ hal
        rcases List.mem_cons.1 hal1 with rfl | hmem
        · simp only [List.mem_cons] at hy
          rcases hy with rfl | hy
          · exact Or.inl hx
          · exact Or.inr ⟨al, by simp, hy⟩
        · exact Or.inr ⟨al1, by simp [hmem], hy⟩
    · cases hr : MultiIPAllocator.AllocateIP rest ip with
      | error e => rw [hr] at h; cases h
      | ok rest1 =>
        rw [hr] at h; cases h
        rcases List.mem_cons.1 hal1 with rfl | hmem
        · exact Or.inr ⟨al1, by simp, hy⟩
        · rcases ih rest1 hr hmem with h1 | ⟨al3, h3, h4⟩
          · exact Or.inl h1
          · exact Or.inr ⟨al3, by simp [h3], h4⟩

theorem markAllocated_cons (name : String) (allocs : MultiIPAllocator) (r : IPAddressState)
    (rest : List IPAddressState) :
    markAllocated name allocs (r :: rest) =
      match MultiIPAllocator.AllocateIP allocs (ParseIP r.IPAddress) with
      | .error _ => .error (.inconsistentState name r.IPAddress)
      | .ok allocs1 => markAllocated name allocs1 rest := by
  simp only [markAllocated]

theorem markAllocated_shape (name : String) (recs : List IPAddressState)
    (allocs allocs1 : MultiIPAllocator) (h : markAllocated name allocs recs = .ok allocs1) :
    allocs1.map SingleIPAllocator.shape = allocs.map SingleIPAllocator.shape := by
  induction recs generalizing allocs with
  | nil => simp [markAllocated] at h; subst h; rfl
  | cons r rest ih =>
    rw [markAllocated_cons] at h
    cases hr : MultiIPAllocator.AllocateIP allocs (ParseIP r.IPAddress) with
    | error e => rw [hr] at h; cases h
    | ok allocs2 =>
      rw [hr] at h
      rw [ih allocs2 h, MultiIPAllocator.AllocateIP_shape _ _ _ hr]

theorem markAllocated_replayed (name : String) (recs : List IPAddressState)
    (allocs allocs1 : MultiIPAllocator) (h : markAllocated name allocs recs = .ok allocs1) :
    (∀ y, Replayed allocs y → Replayed allocs1 y) ∧
      ∀ r ∈ recs, ∃ x, ParseIP r.IPAddress = some x ∧ Replayed allocs1 x := by
  induction recs generalizing allocs with
  | nil => simp [markAllocated] at h; subst h; simp
  | cons r rest ih =>
    rw [markAllocated_cons] at h
    cases hr : MultiIPAllocator.AllocateIP allocs (ParseIP r.IPAddress) with
    | error e => rw [hr] at h; cases h
    | ok allocs2 =>
      rw [hr] at h
      obtain ⟨ih1, ih2⟩ := ih allocs2 h
      refine ⟨fun y hy => ih1 y (MultiIPAllocator.AllocateIP_replayed_mono _ _ _ _ hr hy), ?_⟩
      intro r1 hr1
      rcases List.mem_cons.1 hr1 with rfl | hmem
      · obtain ⟨x, hx⟩ := MultiIPAllocator.AllocateIP_ok_some _ _ _ hr
        rw [hx] at hr
        exact ⟨x, hx, ih1 x (MultiIPAllocator.AllocateIP_replayed _ _ _ hr)⟩
      · exact ih2 r1 hmem

theorem markAllocated_marks (name : String) (recs : List IPAddressState)
    (allocs allocs1 : MultiIPAllocator) (h : markAllocated name allocs recs = .ok allocs1)
    (al1 : SingleIPAllocator) (hal1 : al1 ∈ allocs1) (y : IP) (hy : y ∈ al1.allocated) :
    (∃ al ∈ allocs, y ∈ al.allocated) ∨ ∃ r ∈ recs, ParseIP r.IPAddress = some y := by
  induction recs generalizing allocs with
  | nil => simp [markAllocated] at h; subst h; exact Or.inl ⟨al1, hal1, hy⟩
  | cons r rest ih =>
    rw [markAllocated_cons] at h
    cases hr : MultiIPAllocator.AllocateIP allocs (ParseIP r.IPAddress) with
    | error e => rw [hr] at h; cases h
    | ok allocs2 =>
      rw [hr] at h
      rcases ih allocs2 h with ⟨al2, hal2, hy2⟩ | ⟨r1, hr1, hp⟩
      · rcases MultiIPAllocator.AllocateIP_marks _ _ _ hr al2 hal2 y hy2 with h1 | h1
        · exact Or.inr ⟨r, by simp, h1⟩
        · exact Or.inl h1
      · exact Or.inr ⟨r1, by simp [hr1], hp⟩

theorem markAllocated_append (name : String) (recs : List IPAddressState) (r : IPAddressState)
    (allocs : MultiIPAllocator) :
    markAllocated name allocs (recs ++ [r]) =
      match markAllocated name allocs recs with
      | .error e => .error e
      | .ok allocs1 =>
        match MultiIPAllocator.AllocateIP allocs1 (ParseIP r.IPAddress) with
        | .error _ => .error (.inconsistentState name r.IPAddress)
        | .ok allocs2 => .ok allocs2 := by
  induction recs generalizing allocs with
  | nil =>
    simp only [List.nil_append, markAllocated]
  | cons r1 rest ih =>
    rw [List.cons_append, markAllocated_cons, markAllocated_cons]
    cases hr : MultiIPAllocator.AllocateIP allocs (ParseIP r1.IPAddress) with
    | error e => rfl
    | ok allocs2 => exact ih allocs2

theorem newRangeAllocator_fresh (r : SubnetIPRange) (al : SingleIPAllocator)
    (h : newRangeAllocator r = .ok al) : al.allocated = [] := by
  unfold newRangeAllocator at h
  split at h
  · split at h
    · cases h
    · simp only [NewCIDRAllocator] at h; cases h; rfl
  · simp only [NewIPRangeAllocator] at h
    split at h
    · split_ifs at h; cases h; rfl
    · cases h

theorem initRanges_forall₂ (rs : List SubnetIPRange) (allocs : MultiIPAllocator)
    (h : initRanges rs = .ok allocs) :
    List.Forall₂ (fun r al => newRangeAllocator r = .ok al) rs allocs := by
  induction rs generalizing allocs with
  | nil => simp [initRanges] at h; subst h; exact List.Forall₂.nil
  | cons r rest ih =>
    simp only [initRanges] at h
    cases hr : newRangeAllocator r with
    | error e => rw [hr] at h; cases h
    | ok al =>
      rw [hr] at h
      cases hrest : initRanges rest with
      | error e => rw [hrest] at h; cases h
      | ok als =>
        rw [hrest] at h; cases h
        exact List.Forall₂.cons hr (ih als hrest)

theorem initRanges_fresh (rs : List SubnetIPRange) (allocs : MultiIPAllocator)
    (h : initRanges rs = .ok allocs) : ∀ al ∈ allocs, al.allocated = [] := by
  have hf := initRanges_forall₂ rs allocs h
  induction hf with
  | nil => simp
  | cons h1 _ ih =>
    intro al hal
    rcases List.mem_cons.1 hal with rfl | hmem
    · exact newRangeAllocator_fresh _ _ h1
    · simp only [initRanges, h1] at h
      split at h
      · cases h
      · rename_i als hals
        cases h
        exact ih hals al hmem

theorem initIPAllocators_ok (ipPool : IPPool) (allocs : MultiIPAllocator)
    (h : initIPAllocators ipPool = .ok allocs) :
    ∃ allocs0, initRanges ipPool.Spec.IPRanges = .ok allocs0 ∧
      markAllocated ipPool.Name allocs0 ipPool.Status.IPAddresses = .ok allocs := by
  unfold initIPAllocators at h
  cases hr : initRanges ipPool.Spec.IPRanges with
  | error e => rw [hr] at h; cases h
  | ok allocs0 => rw [hr] at h; exact ⟨allocs0, rfl, h⟩

theorem initIPAllocators_length (ipPool : IPPool) (allocs : MultiIPAllocator)
    (h : initIPAllocators ipPool = .ok allocs) :
    allocs.length = ipPool.Spec.IPRanges.length := by
  obtain ⟨allocs0, h0, h1⟩ := initIPAllocators_ok ipPool allocs h
  have := congrArg List.length (markAllocated_shape _ _ _ _ h1)
  simp only [List.length_map] at this
  rw [this, (initRanges_forall₂ _ _ h0).length_eq]

/-- After a clean rebuild, every record of the status parses to an address that is
marked used in the first range allocator that has it. -/
theorem initIPAllocators_replayed (ipPool : IPPool) (allocs : MultiIPAllocator)
    (h : initIPAllocators ipPool = .ok allocs) :
    ∀ r ∈ ipPool.Status.IPAddresses, ∃ x, ParseIP r.IPAddress = some x ∧ Replayed allocs x := by
  obtain ⟨allocs0, _, h1⟩ := initIPAllocators_ok ipPool allocs h
  exact (markAllocated_replayed _ _ _ _ h1).2

/-- After a clean rebuild, every address marked used is the address of a record. -/
theorem initIPAllocators_marks (ipPool : IPPool) (allocs : MultiIPAllocator)
    (h : initIPAllocators ipPool = .ok allocs) (al : SingleIPAllocator) (hal : al ∈ allocs)
    (y : IP) (hy : y ∈ al.allocated) :
    ∃ r ∈ ipPool.Status.IPAddresses, ParseIP r.IPAddress = some y := by
  obtain ⟨allocs0, h0, h1⟩ := initIPAllocators_ok ipPool allocs h
  rcases markAllocated_marks _ _ _ _ h1 al hal y hy with ⟨al0, hal0, hy0⟩ | h2
  · rw [initRanges_fresh _ _ h0 al0 hal0] at hy0
    cases hy0
  · exact h2

theorem allocateNextLoop_found (allocs : MultiIPAllocator) (i : Nat) (ip0 ip1 : Option IP)
    (k : Nat) (h : allocateNextLoop allocs i ip0 = (ip1, some k)) :
    ∃ j al x al1, k = i + j ∧ allocs[j]? = some al ∧ al.AllocateNext = .ok (x, al1)
      ∧ ip1 = some x
      ∧ ∀ j1 al2, j1 < j → allocs[j1]? = some al2 → al2.AllocateNext = .error .rangeExhausted := by
  induction allocs generalizing i ip0 with
  | nil => simp [allocateNextLoop] at h
  | cons al rest ih =>
    simp only [allocateNextLoop] at h
    cases hal : al.AllocateNext with
    | ok r =>
      obtain ⟨x, al1⟩ := r
      rw [hal] at h
      simp only [Prod.mk.injEq, Option.some.injEq] at h
      refine ⟨0, al, x, al1, by omega, by simp, hal, h.1.symm, ?_⟩
      intro j1 al2 hj; omega
    | error e =>
      rw [hal] at h
      obtain ⟨j, al3, x, al1, hk, hj, hnext, hip, hlow⟩ := ih _ _ h
      refine ⟨j + 1, al3, x, al1, by omega, by simpa using hj, hnext, hip, ?_⟩
      intro j1 al2 hj1 hget
      cases j1 with
      | zero =>
        simp only [List.getElem?_cons_zero, Option.some.injEq] at hget
        subst hget
        rw [hal, (al.AllocateNext_error e hal).1]
      | succ j2 =>
        exact hlow j2 al2 (by omega) (by simpa using hget)

theorem allocateNextLoop_none_iff (allocs : MultiIPAllocator) (i : Nat) (ip0 : Option IP) :
    (allocateNextLoop allocs i ip0).2 = none ↔
      ∀ al ∈ allocs, al.AllocateNext = .error .rangeExhausted := by
  induction allocs generalizing i ip0 with
  | nil => simp [allocateNextLoop]
  | cons al rest ih =>
    simp only [allocateNextLoop, List.mem_cons, forall_eq_or_imp]
    cases hal : al.AllocateNext with
    | ok r => simp
    | error e =>
      simp only [ih]
      rw [(al.AllocateNext_error e hal).1]
      simp

theorem disjoint_same_allocator (allocs : MultiIPAllocator) (hd : BlocksDisjoint allocs)
    (al1 al2 : SingleIPAllocator) (h1 : al1 ∈ allocs) (h2 : al2 ∈ allocs) (x : IP)
    (hx1 : al1.Has (some x) = true) (hx2 : al2.Has (some x) = true) : al1 = al2 := by
  by_contra hne
  have hsym : Symmetric SingleIPAllocator.apart := by
    intro a b hab
    exact hab.symm
  have := List.Pairwise.forall hsym hd h1 h2 hne
  simp only [SingleIPAllocator.Has, SingleIPAllocator.inBounds, Bool.and_eq_true,
    decide_eq_true_eq] at hx1 hx2
  obtain ⟨⟨ha1, ha2⟩, _⟩ := hx1
  obtain ⟨⟨hb1, hb2⟩, _⟩ := hx2
  rcases this with h | h
  · exact absurd (Nat.lt_of_lt_of_le ha2 h) (Nat.not_lt.2 hb1)
  · exact absurd (Nat.lt_of_lt_of_le hb2 h) (Nat.not_lt.2 ha1)

theorem blocksDisjoint_of_shape (allocs allocs1 : MultiIPAllocator)
    (hs : allocs1.map SingleIPAllocator.shape = allocs.map SingleIPAllocator.shape)
    (hd : BlocksDisjoint allocs) : BlocksDisjoint allocs1 := by
  have key : ∀ l : MultiIPAllocator, BlocksDisjoint l ↔
      (l.map SingleIPAllocator.shape).Pairwise
        (fun s t => s.1 + s.2.1 ≤ t.1 ∨ t.1 + t.2.1 ≤ s.1) := by
    intro l
    rw [List.pairwise_map]
    rfl
  rw [key] at hd ⊢
  rw [hs]
  exact hd

/-- In a pool with disjoint ranges, no address a range allocator can still give
after a clean rebuild is the address of a record. -/
theorem fresh_of_disjoint (ipPool : IPPool) (allocs : MultiIPAllocator)
    (hd : DisjointRanges ipPool) (h : initIPAllocators ipPool = .ok allocs)
    (al : SingleIPAllocator) (hal : al ∈ allocs) (x : IP) (hhas : al.Has (some x) = true)
    (hfree : x ∉ al.allocated) :
    ∀ r ∈ ipPool.Status.IPAddresses, ParseIP r.IPAddress ≠ some x := by
  intro r hr hp
  obtain ⟨allocs0, h0, h1⟩ := initIPAllocators_ok ipPool allocs h
  unfold DisjointRanges at hd
  rw [h0] at hd
  have hd1 := blocksDisjoint_of_shape _ _ (markAllocated_shape _ _ _ _ h1) hd
  obtain ⟨y, hy, al2, hf, hm⟩ := initIPAllocators_replayed ipPool allocs h r hr
  rw [hp] at hy
  cases hy
  have h2 : al2.Has (some x) = true := by simpa using List.find?_some hf
  have := disjoint_same_allocator allocs hd1 al al2 hal (List.mem_of_find?_eq_some hf) x hhas h2
  subst this
  exact hfree hm

theorem ParseIP_IPString (x : IP) : ParseIP (IPString (some x)) = some x := rfl

/-! ## AllocateNext: the owner check and the freshness of the address -/

/-- C2: for every pool whose status contains a record of a Pod owner with the
requesting owner's container ID, `AllocateNext` (store without faults) fails with
the error `container ... was already allocated an address`, returns no address
and no subnet, and submits no write: the stored pool is unchanged. -/
theorem AllocateNext_owner_already_has_allocation (a : IPPoolAllocator)
    (state : IPAddressPhase) (owner : IPAddressOwner) (pod : PodOwner) (st : Store)
    (hq : st.faults = []) (hpod : owner.Pod = some pod)
    (hrec : ∃ r ∈ st.pool.Status.IPAddresses, ∃ p, r.Owner.Pod = some p
      ∧ p.ContainerID = pod.ContainerID) :
    (AllocateNext a state owner st).1
        = (none, default, some (.containerAlreadyAllocated pod.ContainerID a.ipPoolName))
      ∧ (AllocateNext a state owner st).2.pool = st.pool
      ∧ (AllocateNext a state owner st).2.writes = st.writes := by
  have hany : st.pool.Status.IPAddresses.any (ownedByContainer pod.ContainerID) = true := by
    obtain ⟨r, hr, p, hp, hc⟩ := hrec
    rw [List.any_eq_true]
    exact ⟨r, hr, by simp [ownedByContainer, hp, hc]⟩
  rw [AllocateNext_quiet a state owner pod st hq hpod, if_pos hany]
  exact ⟨rfl, rfl, Store.afterGet_writes st⟩

/-- C2 at the pool with `10.0.0.5` recorded for container `c1`, asked by `c1` again. -/
theorem AllocateNext_owner_already_has_allocation_witness :
    (AllocateNext poolAllocator .Allocated (podOwner "a" "c1") smallStore).1
        = (none, default, some (.containerAlreadyAllocated "c1" "pool"))
      ∧ (AllocateNext poolAllocator .Allocated (podOwner "a" "c1") smallStore).2.pool
        = smallStore.pool
      ∧ (AllocateNext poolAllocator .Allocated (podOwner "a" "c1") smallStore).2.writes
        = smallStore.writes :=
  AllocateNext_owner_already_has_allocation poolAllocator .Allocated (podOwner "a" "c1")
    ⟨"a", "default", "c1"⟩ smallStore rfl rfl
    ⟨recordOf 5 "a" "c1", by simp [smallStore, storeOf], ⟨"a", "default", "c1"⟩, rfl, rfl⟩

/-- C1, as stated, fails: the pool with the overlapping ranges `10.0.0.5-10.0.0.6`
and `10.0.0.6-10.0.0.7` and the records of `10.0.0.5` and `10.0.0.6` replays
cleanly, and `AllocateNext` succeeds with `10.0.0.6`, the address of a record of
the status it read; the status it writes holds that address twice. -/
theorem AllocateNext_overlap_counterexample :
    ReplaysCleanly overlapStore.pool
      ∧ (AllocateNext poolAllocator .Allocated (podOwner "c" "c3") overlapStore).1
        = (some (ipv4 10 0 0 6), subnet24, none)
      ∧ recordOf 6 "b" "c2" ∈ overlapStore.pool.Status.IPAddresses
      ∧ (recordOf 6 "b" "c2").IPAddress = IPString (some (ipv4 10 0 0 6))
      ∧ List.countP (fun r => r.IPAddress = IPString (some (ipv4 10 0 0 6)))
          (AllocateNext poolAllocator .Allocated (podOwner "c" "c3")
            overlapStore).2.pool.Status.IPAddresses = 2 := by
  decide

/-! ## initIPAllocators: the reserved addresses -/

theorem forall₂_getElem? {α β : Type} (R : α → β → Prop) (l1 : List α) (l2 : List β)
    (h : List.Forall₂ R l1 l2) (i : Nat) (x : α) (hx : l1[i]? = some x) :
    ∃ y, l2[i]? = some y ∧ R x y := by
  induction h generalizing i with
  | nil => simp at hx
  | cons hxy _ ih =>
    cases i with
    | zero => simp at hx; subst hx; exact ⟨_, by simp, hxy⟩
    | succ j => simpa using ih j (by simpa using hx)

theorem getElem?_of_shape (allocs allocs1 : MultiIPAllocator)
    (hs : allocs1.map SingleIPAllocator.shape = allocs.map SingleIPAllocator.shape)
    (i : Nat) (al : SingleIPAllocator) (h : allocs[i]? = some al) :
    ∃ al1, allocs1[i]? = some al1 ∧ al1.shape = al.shape := by
  have h1 : (allocs1.map SingleIPAllocator.shape)[i]? = some al.shape := by
    rw [hs, List.getElem?_map, h]; rfl
  rw [List.getElem?_map] at h1
  cases h2 : allocs1[i]? with
  | none => rw [h2] at h1; cases h1
  | some al1 => rw [h2] at h1; exact ⟨al1, rfl, by simpa using h1⟩

/-- After a successful rebuild, the allocator at an index has the shape of the
allocator built from the range at that index. -/
theorem initIPAllocators_getElem? (ipPool : IPPool) (allocs : MultiIPAllocator)
    (h : initIPAllocators ipPool = .ok allocs) (i : Nat) (ipRange : SubnetIPRange)
    (hr : ipPool.Spec.IPRanges[i]? = some ipRange) :
    ∃ al al0, allocs[i]? = some al ∧ newRangeAllocator ipRange = .ok al0
      ∧ al.shape = al0.shape := by
  obtain ⟨allocs0, h0, h1⟩ := initIPAllocators_ok ipPool allocs h
  obtain ⟨al0, hal0, hnew⟩ := forall₂_getElem? _ _ _ (initRanges_forall₂ _ _ h0) i ipRange hr
  obtain ⟨al, hal, hsh⟩ := getElem?_of_shape allocs0 allocs (markAllocated_shape _ _ _ _ h1) i al0 hal0
  exact ⟨al, al0, hal, hnew, hsh⟩

/-- C3, as stated, fails: for the IPv6 range `2001:db8::/64` whose prefix length
equals the declared subnet prefix length, the reserved addresses that
`initIPAllocators` passes to the range allocator are the gateway alone: the last
address of the CIDR is not among them. -/
theorem initIPAllocators_reserved_ipv6_counterexample :
    ∃ al, initIPAllocators ⟨"pool", 1, ⟨[cidr6]⟩, ⟨[]⟩⟩ = .ok [al]
      ∧ cidr6.CIDR = .text (some net6)
      ∧ (net6.ones : Int) = cidr6.SubnetInfo.PrefixLength
      ∧ al.reservedIPs = [ParseIP cidr6.SubnetInfo.Gateway]
      ∧ GetLocalBroadcastIP net6 ∉ al.reservedIPs :=
  ⟨_, rfl, rfl, rfl, rfl, by decide⟩

/-- C3 (amended): for every CIDR-form range of a pool spec, the reserved-address
list that `initIPAllocators` passes to the range allocator is the range's gateway
address, followed by the CIDR's broadcast address exactly when the CIDR is an IPv4
CIDR whose prefix length equals the declared subnet prefix length, and nothing
else; an explicit start/end range gets no reserved addresses; and for the CIDR
`10.0.0.0/30` with gateway `10.0.0.1` and prefix length 30 the reserved addresses
are exactly `10.0.0.1` and `10.0.0.3`. -/
theorem initIPAllocators_reservedIPs (ipPool : IPPool) (allocs : MultiIPAllocator)
    (i : Nat) (ipRange : SubnetIPRange) (h : initIPAllocators ipPool = .ok allocs)
    (hr : ipPool.Spec.IPRanges[i]? = some ipRange) :
    (∃ al, allocs[i]? = some al ∧
      match ipRange.CIDR with
      | .empty => al.reservedIPs = []
      | .text parsed => ∃ ipNet, parsed = some ipNet ∧
          al.reservedIPs =
            if (ipNet.ones : Int) = ipRange.SubnetInfo.PrefixLength ∧ ipNet.bits = 32 then
              [ParseIP ipRange.SubnetInfo.Gateway, GetLocalBroadcastIP ipNet]
            else [ParseIP ipRange.SubnetInfo.Gateway])
      ∧ ∃ al30, initIPAllocators ⟨"pool", 1, ⟨[cidr30]⟩, ⟨[]⟩⟩ = .ok [al30]
          ∧ al30.reservedIPs = [some (ipv4 10 0 0 1), some (ipv4 10 0 0 3)] := by
  refine ⟨?_, _, rfl, by decide⟩
  obtain ⟨al, al0, hal, hnew, hsh⟩ := initIPAllocators_getElem? ipPool allocs h i ipRange hr
  refine ⟨al, hal, ?_⟩
  have hres : al.reservedIPs = al0.reservedIPs := by
    simp only [SingleIPAllocator.shape, Prod.mk.injEq] at hsh
    exact hsh.2.2
  unfold newRangeAllocator at hnew
  cases hc : ipRange.CIDR with
  | empty =>
    rw [hc] at hnew
    simp only [NewIPRangeAllocator] at hnew
    simp only []
    split at hnew
    · split_ifs at hnew
      cases hnew
      exact hres
    · cases hnew
  | text parsed =>
    rw [hc] at hnew
    cases parsed with
    | none => cases hnew
    | some ipNet =>
      simp only [NewCIDRAllocator, Res.ok.injEq] at hnew
      subst hnew
      refine ⟨ipNet, rfl, ?_⟩
      rw [hres]
      simp only [cidrReservedIPs]
      split_ifs <;> rfl

/-- C3 (amended) at the pool whose only range is the CIDR `10.0.0.0/30`. -/
theorem initIPAllocators_reservedIPs_witness :
    (∃ al, [(⟨ipv4 10 0 0 1, 3, [some (ipv4 10 0 0 1), some (ipv4 10 0 0 3)], []⟩
          : SingleIPAllocator)][0]? = some al ∧
      match cidr30.CIDR with
      | .empty => al.reservedIPs = []
      | .text parsed => ∃ ipNet, parsed = some ipNet ∧
          al.reservedIPs =
            if (ipNet.ones : Int) = cidr30.SubnetInfo.PrefixLength ∧ ipNet.bits = 32 then
              [ParseIP cidr30.SubnetInfo.Gateway, GetLocalBroadcastIP ipNet]
            else [ParseIP cidr30.SubnetInfo.Gateway])
      ∧ ∃ al30, initIPAllocators ⟨"pool", 1, ⟨[cidr30]⟩, ⟨[]⟩⟩ = .ok [al30]
          ∧ al30.reservedIPs = [some (ipv4 10 0 0 1), some (ipv4 10 0 0 3)] :=
  initIPAllocators_reservedIPs ⟨"pool", 1, ⟨[cidr30]⟩, ⟨[]⟩⟩ _ 0 cidr30 rfl rfl

/-! ## AllocateIP and Release: the range loops -/

theorem allocateIPLoop_none_iff (ip : Option IP) (allocs : MultiIPAllocator) (i : Nat) :
    allocateIPLoop ip allocs i = .ok none ↔ ∀ al ∈ allocs, al.Has ip = false := by
  induction allocs generalizing i with
  | nil => simp [allocateIPLoop]
  | cons al rest ih =>
    simp only [allocateIPLoop, List.mem_cons, forall_eq_or_imp]
    by_cases hhas : al.Has ip = true
    · simp only [hhas, if_true]
      cases al.AllocateIP ip <;> simp
    · simp only [hhas, if_false, Bool.false_eq_true]
      rw [ih]
      simp [hhas]

theorem allocateIPLoop_found (ip : Option IP) (allocs : MultiIPAllocator) (i k : Nat)
    (h : allocateIPLoop ip allocs i = .ok (some k)) :
    ∃ j al, k = i + j ∧ allocs[j]? = some al ∧ al.Has ip = true
      ∧ (∃ al1, al.AllocateIP ip = .ok al1)
      ∧ ∀ j1 al2, j1 < j → allocs[j1]? = some al2 → al2.Has ip = false := by
  induction allocs generalizing i with
  | nil => simp [allocateIPLoop] at h
  | cons al rest ih =>
    simp only [allocateIPLoop] at h
    split_ifs at h with hhas
    · cases hal : al.AllocateIP ip with
      | error e => rw [hal] at h; cases h
      | ok al1 =>
        rw [hal] at h
        simp only [Res.ok.injEq, Option.some.injEq] at h
        refine ⟨0, al, by omega, by simp, hhas, ⟨al1, hal⟩, ?_⟩
        intro j1 al2 hj; omega
    · obtain ⟨j, al3, hk, hj, hhas3, hok, hlow⟩ := ih _ h
      refine ⟨j + 1, al3, by omega, by simpa using hj, hhas3, hok, ?_⟩
      intro j1 al2 hj1 hget
      cases j1 with
      | zero =>
        simp only [List.getElem?_cons_zero, Option.some.injEq] at hget
        subst hget
        simpa using hhas
      | succ j2 => exact hlow j2 al2 (by omega) (by simpa using hget)

/-- What the range loop of `AllocateIP` does for an address, in terms of the first
range allocator that has it. -/
theorem allocateIPLoop_some (x : IP) (allocs : MultiIPAllocator) (i : Nat) :
    (∀ al, allocs.find? (fun al => al.Has (some x)) = some al → x ∈ al.allocated →
        allocateIPLoop (some x) allocs i = .error .alreadyAllocated)
      ∧ (∀ al, allocs.find? (fun al => al.Has (some x)) = some al → x ∉ al.allocated →
        ∃ k, allocateIPLoop (some x) allocs i = .ok (some k)) := by
  induction allocs generalizing i with
  | nil => simp
  | cons al rest ih =>
    by_cases hhas : al.Has (some x) = true
    · rw [find_has_cons_pos _ _ _ hhas]
      simp only [Option.some.injEq, forall_eq', allocateIPLoop, hhas, if_true]
      rw [al.AllocateIP_of_has x hhas]
      constructor
      · intro hm; simp [hm]
      · intro hm; simp [hm]
    · rw [find_has_cons_neg _ _ _ hhas]
      simp only [allocateIPLoop, hhas, if_false, Bool.false_eq_true]
      exact ih (i + 1)

theorem allocateIPLoop_of_replayed (x : IP) (allocs : MultiIPAllocator) (i : Nat)
    (h : Replayed allocs x) : allocateIPLoop (some x) allocs i = .error .alreadyAllocated := by
  obtain ⟨al, hf, hm⟩ := h
  exact (allocateIPLoop_some x allocs i).1 al hf hm

theorem MultiIPAllocator.Release_isOk_iff (allocs : MultiIPAllocator) (ip : Option IP) :
    (∃ allocs1, MultiIPAllocator.Release allocs ip = .ok allocs1) ↔
      ∃ x, ip = some x ∧ ∃ al ∈ allocs, x ∈ al.allocated := by
  induction allocs with
  | nil => simp [MultiIPAllocator.Release]
  | cons al rest ih =>
    simp only [MultiIPAllocator.Release, List.mem_cons, exists_eq_or_imp]
    cases hal : al.Release ip with
    | ok al1 =>
      obtain ⟨x, hx, hm⟩ := al.Release_ok al1 ip hal
      simp only [Res.ok.injEq, exists_eq', true_iff]
      exact ⟨x, hx, Or.inl hm⟩
    | error e =>
      simp only []
      have hnot : ∀ x, ip = some x → x ∉ al.allocated := by
        intro x hx hm
        subst hx
        rw [al.Release_of_mem x hm] at hal
        cases hal
      constructor
      · rintro ⟨allocs1, h⟩
        cases hr : MultiIPAllocator.Release rest ip with
        | error e1 => rw [hr] at h; cases h
        | ok rest1 =>
          obtain ⟨x, hx, al2, h2, h3⟩ := ih.1 ⟨rest1, hr⟩
          exact ⟨x, hx, Or.inr ⟨al2, h2, h3⟩⟩
      · rintro ⟨x, hx, h1 | ⟨al2, h2, h3⟩⟩
        · exact absurd h1 (hnot x hx)
        · obtain ⟨rest1, hr⟩ := ih.2 ⟨x, hx, al2, h2, h3⟩
          exact ⟨al :: rest1, by rw [hr]⟩

theorem replayed_marked (allocs : MultiIPAllocator) (x : IP) (h : Replayed allocs x) :
    ∃ al ∈ allocs, x ∈ al.allocated := by
  obtain ⟨al, hf, hm⟩ := h
  exact ⟨al, List.mem_of_find?_eq_some hf, hm⟩

/-! ## AllocateIP: an address already recorded, an address in no range -/

/-- C4, as stated, fails: in the pool with the range `10.0.0.5-10.0.0.6` whose
status records `10.0.0.5` and `10.0.0.9`, the recorded address `10.0.0.9` is
refused by `AllocateIP` with the inconsistent-state error of the rebuild, not with
the already-allocated error. -/
theorem AllocateIP_recorded_counterexample :
    recordOf 9 "b" "c2" ∈ inconsistentStore.pool.Status.IPAddresses
      ∧ ParseIP (recordOf 9 "b" "c2").IPAddress = some (ipv4 10 0 0 9)
      ∧ (AllocateIP poolAllocator (some (ipv4 10 0 0 9)) .Allocated (podOwner "c" "c3")
          inconsistentStore).1
        = (default, some (.inconsistentState "pool" (.canonical (ipv4 10 0 0 9))))
      ∧ Err.inconsistentState "pool" (.canonical (ipv4 10 0 0 9)) ≠ Err.alreadyAllocated := by
  decide

/-- C4 (amended): for every pool whose status replays cleanly onto its ranges and
every address that is already recorded in the pool's status (a record whose
address text denotes it), `AllocateIP` (store without faults) fails with the
already-allocated error of the range allocator, returns no subnet, and submits no
write: the stored pool is unchanged. -/
theorem AllocateIP_already_recorded (a : IPPoolAllocator) (x : IP) (state : IPAddressPhase)
    (owner : IPAddressOwner) (st : Store) (hq : st.faults = [])
    (hclean : ReplaysCleanly st.pool)
    (hrec : ∃ r ∈ st.pool.Status.IPAddresses, ParseIP r.IPAddress = some x) :
    (AllocateIP a (some x) state owner st).1 = (default, some .alreadyAllocated)
      ∧ (AllocateIP a (some x) state owner st).2.pool = st.pool
      ∧ (AllocateIP a (some x) state owner st).2.writes = st.writes := by
  obtain ⟨allocs, hinit⟩ := hclean
  obtain ⟨r, hr, hp⟩ := hrec
  obtain ⟨y, hy, hrep⟩ := initIPAllocators_replayed st.pool allocs hinit r hr
  rw [hp] at hy
  cases hy
  rw [AllocateIP_quiet a (some x) state owner st hq, hinit]
  simp only []
  rw [allocateIPLoop_of_replayed x allocs 0 hrep]
  exact ⟨rfl, rfl, Store.afterGet_writes st⟩

/-- C4 (amended) at the pool with `10.0.0.5` recorded, asked for `10.0.0.5`. -/
theorem AllocateIP_already_recorded_witness :
    (AllocateIP poolAllocator (some (ipv4 10 0 0 5)) .Allocated (podOwner "b" "c2")
        smallStore).1 = (default, some .alreadyAllocated)
      ∧ (AllocateIP poolAllocator (some (ipv4 10 0 0 5)) .Allocated (podOwner "b" "c2")
        smallStore).2.pool = smallStore.pool
      ∧ (AllocateIP poolAllocator (some (ipv4 10 0 0 5)) .Allocated (podOwner "b" "c2")
        smallStore).2.writes = smallStore.writes :=
  AllocateIP_already_recorded poolAllocator (ipv4 10 0 0 5) .Allocated (podOwner "b" "c2")
    smallStore rfl (by decide) ⟨recordOf 5 "a" "c1", by simp [smallStore, storeOf], rfl⟩

/-- C6, as stated, fails: in the pool with the range `10.0.0.5-10.0.0.6` whose
status records `10.0.0.9`, no range allocator has `10.0.0.7`, and `AllocateIP`
refuses it with the inconsistent-state error of the rebuild, not with the
not-in-pool error. -/
theorem AllocateIP_not_in_pool_counterexample :
    (∃ allocators, initRanges inconsistentStore.pool.Spec.IPRanges = .ok allocators
        ∧ ∀ al ∈ allocators, al.Has (some (ipv4 10 0 0 7)) = false)
      ∧ (AllocateIP poolAllocator (some (ipv4 10 0 0 7)) .Allocated (podOwner "c" "c3")
          inconsistentStore).1
        = (default, some (.inconsistentState "pool" (.canonical (ipv4 10 0 0 9))))
      ∧ Err.inconsistentState "pool" (.canonical (ipv4 10 0 0 9))
        ≠ Err.doesNotBelong (IPString (some (ipv4 10 0 0 7))) "pool" :=
  ⟨⟨_, rfl, by decide⟩, by decide, by decide⟩

/-- C6 (amended): for every pool whose status replays cleanly onto its ranges and
every address that no configured range contains (`Has` is false for every range
allocator), `AllocateIP` (store without faults) fails with the error `IP ... does
not belong to IP pool`, returns no subnet, and submits no write; and with the
single explicit range `10.0.0.5-10.0.0.6`, `AllocateIP` of `10.0.0.7` fails so
while `10.0.0.5` and `10.0.0.6` are both allocated. -/
theorem AllocateIP_not_in_pool (a : IPPoolAllocator) (ip : Option IP) (state : IPAddressPhase)
    (owner : IPAddressOwner) (st : Store) (allocators : MultiIPAllocator)
    (hq : st.faults = []) (hclean : initIPAllocators st.pool = .ok allocators)
    (hhas : ∀ al ∈ allocators, al.Has ip = false) :
    ((AllocateIP a ip state owner st).1
        = (default, some (.doesNotBelong (IPString ip) a.ipPoolName))
      ∧ (AllocateIP a ip state owner st).2.pool = st.pool
      ∧ (AllocateIP a ip state owner st).2.writes = st.writes)
    ∧ (AllocateIP poolAllocator (some (ipv4 10 0 0 7)) .Allocated (podOwner "a" "c1")
          emptyStore).1
        = (default, some (.doesNotBelong (.canonical (ipv4 10 0 0 7)) "pool"))
    ∧ (AllocateIP poolAllocator (some (ipv4 10 0 0 5)) .Allocated (podOwner "a" "c1")
          emptyStore).1 = (subnet24, none)
    ∧ (AllocateIP poolAllocator (some (ipv4 10 0 0 6)) .Allocated (podOwner "a" "c1")
          emptyStore).1 = (subnet24, none) := by
  refine ⟨?_, by decide, by decide, by decide⟩
  rw [AllocateIP_quiet a ip state owner st hq, hclean]
  simp only []
  rw [(allocateIPLoop_none_iff ip allocators 0).2 hhas]
  exact ⟨rfl, rfl, Store.afterGet_writes st⟩

/-- C6 (amended) at the pool with the range `10.0.0.5-10.0.0.6` and `10.0.0.5`
recorded, asked for `10.0.0.7`. -/
theorem AllocateIP_not_in_pool_witness :
    ((AllocateIP poolAllocator (some (ipv4 10 0 0 7)) .Allocated (podOwner "b" "c2")
        smallStore).1
        = (default, some (.doesNotBelong (IPString (some (ipv4 10 0 0 7))) "pool"))
      ∧ (AllocateIP poolAllocator (some (ipv4 10 0 0 7)) .Allocated (podOwner "b" "c2")
        smallStore).2.pool = smallStore.pool
      ∧ (AllocateIP poolAllocator (some (ipv4 10 0 0 7)) .Allocated (podOwner "b" "c2")
        smallStore).2.writes = smallStore.writes)
    ∧ (AllocateIP poolAllocator (some (ipv4 10 0 0 7)) .Allocated (podOwner "a" "c1")
          emptyStore).1
        = (default, some (.doesNotBelong (.canonical (ipv4 10 0 0 7)) "pool"))
    ∧ (AllocateIP poolAllocator (some (ipv4 10 0 0 5)) .Allocated (podOwner "a" "c1")
          emptyStore).1 = (subnet24, none)
    ∧ (AllocateIP poolAllocator (some (ipv4 10 0 0 6)) .Allocated (podOwner "a" "c1")
          emptyStore).1 = (subnet24, none) :=
  AllocateIP_not_in_pool poolAllocator (some (ipv4 10 0 0 7)) .Allocated (podOwner "b" "c2")
    smallStore [⟨ipv4 10 0 0 5, 2, [], [ipv4 10 0 0 5]⟩] rfl rfl (by decide)

/-! ## Release -/

/-- C5, as stated, fails: in the pool with the range `10.0.0.5-10.0.0.6` whose
status records `10.0.0.5` and `10.0.0.9`, `Release` of the recorded `10.0.0.5`
writes nothing and fails with the inconsistent-state error of the rebuild, and
`Release` of the unrecorded `10.0.0.6` fails with that same error, not with a
not-allocated error. -/
theorem Release_counterexample :
    recordOf 5 "a" "c1" ∈ inconsistentStore.pool.Status.IPAddresses
      ∧ (recordOf 5 "a" "c1").IPAddress = IPString (some (ipv4 10 0 0 5))
      ∧ (Release poolAllocator (some (ipv4 10 0 0 5)) inconsistentStore).1
        = some (.inconsistentState "pool" (.canonical (ipv4 10 0 0 9)))
      ∧ (Release poolAllocator (some (ipv4 10 0 0 5)) inconsistentStore).2.pool
        = inconsistentStore.pool
      ∧ (Release poolAllocator (some (ipv4 10 0 0 5)) inconsistentStore).2.writes = []
      ∧ (∀ r ∈ inconsistentStore.pool.Status.IPAddresses,
          ParseIP r.IPAddress ≠ some (ipv4 10 0 0 6))
      ∧ (Release poolAllocator (some (ipv4 10 0 0 6)) inconsistentStore).1
        = some (.inconsistentState "pool" (.canonical (ipv4 10 0 0 9))) := by
  decide

/-- C5 (amended): for every pool whose status replays cleanly onto its ranges and
every address: when the status holds no record with the address, `Release` (store
without faults) fails with a not-allocated error (`IP ... does not belong to IP
pool` from the range allocators, or `IP address ... was not allocated from IP
pool` when only another spelling of the address is recorded) and submits no write;
when a record with the address exists, `Release` succeeds and writes the previous
list with the records of that address removed and every other record kept in its
original order. -/
theorem Release_by_address (a : IPPoolAllocator) (x : IP) (st : Store)
    (hq : st.faults = []) (hclean : ReplaysCleanly st.pool) :
    ((∀ r ∈ st.pool.Status.IPAddresses, r.IPAddress ≠ IPString (some x)) →
        ((Release a (some x) st).1 = some (.doesNotBelong (IPString (some x)) a.ipPoolName)
          ∨ (Release a (some x) st).1 = some (.wasNotAllocated (IPString (some x)) st.pool.Name))
        ∧ (Release a (some x) st).2.pool = st.pool
        ∧ (Release a (some x) st).2.writes = st.writes)
    ∧ ((∃ r ∈ st.pool.Status.IPAddresses, r.IPAddress = IPString (some x)) →
        (Release a (some x) st).1 = none
        ∧ (Release a (some x) st).2.pool.Status.IPAddresses
          = st.pool.Status.IPAddresses.filter (fun r => r.IPAddress ≠ IPString (some x))
        ∧ (Release a (some x) st).2.writes = st.writes ++ [st.pool.withoutUsage (some x)]) := by
  obtain ⟨allocs, hinit⟩ := hclean
  rw [Release_quiet a (some x) st hq, hinit]
  simp only []
  constructor
  · intro hno
    cases hr : MultiIPAllocator.Release allocs (some x) with
    | error e => exact ⟨Or.inl rfl, rfl, Store.afterGet_writes st⟩
    | ok allocs1 =>
      simp only []
      have hlen : (st.pool.withoutUsage (some x)).Status.IPAddresses.length
          = st.pool.Status.IPAddresses.length := by
        simp only [IPPool.withoutUsage]
        rw [List.filter_length_eq_length]
        intro r hr
        simpa using hno r hr
      rw [if_pos hlen]
      exact ⟨Or.inr rfl, rfl, Store.afterGet_writes st⟩
  · rintro ⟨r, hr, htext⟩
    obtain ⟨y, hy, hrep⟩ := initIPAllocators_replayed st.pool allocs hinit r hr
    rw [htext] at hy
    cases hy
    obtain ⟨allocs1, hrel⟩ :=
      (MultiIPAllocator.Release_isOk_iff allocs (some x)).2 ⟨x, rfl, replayed_marked allocs x hrep⟩
    rw [hrel]
    simp only []
    have hlen : ¬ (st.pool.withoutUsage (some x)).Status.IPAddresses.length
        = st.pool.Status.IPAddresses.length := by
      simp only [IPPool.withoutUsage]
      rw [List.filter_length_eq_length]
      intro hall
      have := hall r hr
      simp [htext] at this
    rw [if_neg hlen]
    refine ⟨rfl, rfl, ?_⟩
    rw [Store.afterUpdate_writes, Store.afterGet_writes]

/-- C5 (amended) at the pool with the range `10.0.0.5-10.0.0.6` and `10.0.0.5`
recorded, released: the written status is empty. -/
theorem Release_by_address_witness :
    (Release poolAllocator (some (ipv4 10 0 0 5)) smallStore).1 = none
      ∧ (Release poolAllocator (some (ipv4 10 0 0 5)) smallStore).2.pool.Status.IPAddresses
        = smallStore.pool.Status.IPAddresses.filter
            (fun r => r.IPAddress ≠ IPString (some (ipv4 10 0 0 5)))
      ∧ (Release poolAllocator (some (ipv4 10 0 0 5)) smallStore).2.writes
        = smallStore.writes ++ [smallStore.pool.withoutUsage (some (ipv4 10 0 0 5))] :=
  (Release_by_address poolAllocator (ipv4 10 0 0 5) smallStore rfl (by decide)).2
    ⟨recordOf 5 "a" "c1", by simp [smallStore, storeOf], rfl⟩

/-! ## AllocateIP: what a successful call wrote and returned -/

theorem RetryOnConflict_none {σ : Type} (n : Nat) (fn : σ → Option Err × σ)
    (l : Option Err) (s s1 : σ) (h : RetryOnConflict n fn l s = (none, s1)) :
    (n = 0 ∧ l = none ∧ s1 = s) ∨ ∃ s0, fn s0 = (none, s1) := by
  induction n generalizing l s with
  | zero =>
    simp only [RetryOnConflict, Prod.mk.injEq] at h
    exact Or.inl ⟨rfl, h.1, h.2.symm⟩
  | succ m ih =>
    right
    simp only [RetryOnConflict] at h
    rcases hfn : fn s with ⟨_ | e, s2⟩
    · rw [hfn] at h
      simp only [Prod.mk.injEq, true_and] at h
      subst h
      exact ⟨s, hfn⟩
    · rw [hfn] at h
      simp only [] at h
      split_ifs at h
      · rcases ih (some e) s2 h with ⟨_, hl, _⟩ | h2
        · cases hl
        · exact h2
      · cases h

theorem Store.Get_ok (st st0 : Store) (ipPool : IPPool) (h : st.Get = (.ok ipPool, st0)) :
    st0.pool = ipPool ∧ st0.log = st.log ++ [.get (.ok ipPool)] := by
  unfold Store.Get at h
  have hlog : st.env.2.log = st.log := by
    unfold Store.env
    split <;> rfl
  rcases henv : st.env with ⟨_ | _, st2⟩
  · rw [henv] at h; simp at h
  · rw [henv] at h hlog
    simp only [Prod.mk.injEq, Res.ok.injEq] at h
    obtain ⟨h1, h2⟩ := h
    subst h2
    simp only [] at hlog
    exact ⟨h1, by simp [hlog, h1]⟩

theorem Store.UpdateStatus_none (st0 st1 : Store) (newPool : IPPool)
    (h : st0.UpdateStatus newPool = (none, st1)) :
    st1.pool.Status = newPool.Status
      ∧ st1.log = st0.log ++ [.updateStatus newPool none] := by
  unfold Store.UpdateStatus at h
  have hlog : st0.env.2.log = st0.log := by
    unfold Store.env
    split <;> rfl
  rcases henv : st0.env with ⟨_ | _, st2⟩
  · rw [henv] at h; simp at h
  · rw [henv] at h hlog
    simp only [] at h hlog
    split_ifs at h
    · simp only [Prod.mk.injEq, true_and] at h
      subst h
      exact ⟨rfl, by simp [hlog]⟩
    · simp at h

theorem AllocateIP_attempt_none (a : IPPoolAllocator) (ip : Option IP)
    (state : IPAddressPhase) (owner : IPAddressOwner) (sn sn1 : SubnetInfo) (st st1 : Store)
    (h : AllocateIP.attempt a ip state owner (sn, st) = (none, (sn1, st1))) :
    ∃ ipPool st0 allocs index, st.Get = (.ok ipPool, st0)
      ∧ initIPAllocators ipPool = .ok allocs
      ∧ allocateIPLoop ip allocs 0 = .ok (some index)
      ∧ sn1 = (ipPool.Spec.IPRanges.getD index default).SubnetInfo
      ∧ st0.UpdateStatus (ipPool.withUsage ip state owner) = (none, st1) := by
  simp only [AllocateIP.attempt, readPoolAndInitIPAllocators] at h
  rcases hget : st.Get with ⟨_ | e, st0⟩
  · rename_i ipPool
    rw [hget] at h
    simp only [] at h
    cases hinit : initIPAllocators ipPool with
    | error e => rw [hinit] at h; simp at h
    | ok allocs =>
      rw [hinit] at h
      simp only [] at h
      cases hloop : allocateIPLoop ip allocs 0 with
      | error e => rw [hloop] at h; simp at h
      | ok idx =>
        rw [hloop] at h
        cases idx with
        | none => simp at h
        | some index =>
          simp only [Prod.mk.injEq] at h
          obtain ⟨h1, h2, h3⟩ := h
          refine ⟨ipPool, st0, allocs, index, rfl, hinit, hloop, h2.symm, ?_⟩
          rw [← h1, ← h3]
          rfl
  · rw [hget] at h; simp at h

/-- C7: whenever `AllocateIP` succeeds, whatever the store did before, the last two
calls it made on the store are the read of a pool and the accepted write of that
same pool with the single record (address, phase, owner) appended at the end of
its status, which is then the stored status; and the subnet returned is that of
the first range of that pool's spec, in declaration order, that contains the
address. -/
theorem AllocateIP_success (a : IPPoolAllocator) (ip : Option IP) (state : IPAddressPhase)
    (owner : IPAddressOwner) (st st1 : Store) (subnetSpec : SubnetInfo)
    (hok : AllocateIP a ip state owner st = ((subnetSpec, none), st1)) :
    ∃ (ipPool : IPPool) (calls : List StoreCall) (index : Nat) (ipRange : SubnetIPRange),
      st1.log = calls ++ [.get (.ok ipPool),
        .updateStatus { ipPool with
          Status := ⟨ipPool.Status.IPAddresses ++ [⟨IPString ip, state, owner⟩]⟩ } none]
      ∧ st1.pool.Status.IPAddresses
        = ipPool.Status.IPAddresses ++ [⟨IPString ip, state, owner⟩]
      ∧ ipPool.Spec.IPRanges[index]? = some ipRange
      ∧ ipRange.contains ip = true
      ∧ (∀ (j : Nat) (r : SubnetIPRange), j < index → ipPool.Spec.IPRanges[j]? = some r
          → r.contains ip = false)
      ∧ subnetSpec = ipRange.SubnetInfo := by
  unfold AllocateIP at hok
  rcases hretry : RetryOnConflict DefaultRetrySteps (AllocateIP.attempt a ip state owner) none
      (default, st) with ⟨err, sn, st2⟩
  rw [hretry] at hok
  simp only [Prod.mk.injEq] at hok
  obtain ⟨⟨h1, h2⟩, h3⟩ := hok
  subst h1 h2 h3
  rcases RetryOnConflict_none _ _ _ _ _ hretry with ⟨h0, _⟩ | ⟨⟨sn0, st0⟩, hatt⟩
  · cases h0
  · obtain ⟨ipPool, stg, allocs, index, hget, hinit, hloop, hsn, hupd⟩ :=
      AllocateIP_attempt_none a ip state owner sn0 sn st0 st2 hatt
    obtain ⟨_, hlog0⟩ := Store.Get_ok _ _ _ hget
    obtain ⟨hstatus, hlog1⟩ := Store.UpdateStatus_none _ _ _ hupd
    obtain ⟨j, al, hj, hal, hhas, _, hlow⟩ := allocateIPLoop_found ip allocs 0 index hloop
    have hidx : j = index := by omega
    subst hidx
    have hlt : j < ipPool.Spec.IPRanges.length := by
      rw [← initIPAllocators_length ipPool allocs hinit]
      exact (List.getElem?_eq_some.1 hal).1
    have hr : ipPool.Spec.IPRanges[j]? = some ipPool.Spec.IPRanges[j] :=
      List.getElem?_eq_getElem hlt
    have hcontains : ∀ (k : Nat) (r : SubnetIPRange) (al2 : SingleIPAllocator),
        ipPool.Spec.IPRanges[k]? = some r → allocs[k]? = some al2 →
        r.contains ip = al2.Has ip := by
      intro k r al2 hk hk2
      obtain ⟨al3, al0, h3, hnew, hsh⟩ := initIPAllocators_getElem? ipPool allocs hinit k r hk
      rw [hk2] at h3
      cases h3
      simp only [SubnetIPRange.contains, hnew]
      exact (SingleIPAllocator.Has_eq_of_shape al0 al2 hsh ip).symm
    refine ⟨ipPool, st0.log, j, ipPool.Spec.IPRanges[j], ?_, ?_, hr, ?_, ?_, ?_⟩
    · rw [hlog1, hlog0]
      simp [IPPool.withUsage]
    · rw [hstatus]; rfl
    · rw [hcontains j _ al hr hal, hhas]
    · intro k r hk hkr
      have hk2 : k < allocs.length := by
        rw [initIPAllocators_length ipPool allocs hinit]; omega
      rw [hcontains k r allocs[k] hkr (List.getElem?_eq_getElem hk2)]
      exact hlow k _ hk (List.getElem?_eq_getElem hk2)
    · rw [hsn, List.getD_eq_getElem?_getD, hr]
      rfl

/-- C7 at the pool with the range `10.0.0.5-10.0.0.6` and `10.0.0.5` recorded,
asked for `10.0.0.6`. -/
theorem AllocateIP_success_witness :
    ∃ (ipPool : IPPool) (calls : List StoreCall) (index : Nat) (ipRange : SubnetIPRange),
      (AllocateIP poolAllocator (some (ipv4 10 0 0 6)) .Allocated (podOwner "b" "c2")
          smallStore).2.log
        = calls ++ [.get (.ok ipPool),
          .updateStatus { ipPool with
            Status := ⟨ipPool.Status.IPAddresses
              ++ [⟨IPString (some (ipv4 10 0 0 6)), .Allocated, podOwner "b" "c2"⟩]⟩ } none]
      ∧ (AllocateIP poolAllocator (some (ipv4 10 0 0 6)) .Allocated (podOwner "b" "c2")
          smallStore).2.pool.Status.IPAddresses
        = ipPool.Status.IPAddresses
          ++ [⟨IPString (some (ipv4 10 0 0 6)), .Allocated, podOwner "b" "c2"⟩]
      ∧ ipPool.Spec.IPRanges[index]? = some ipRange
      ∧ ipRange.contains (some (ipv4 10 0 0 6)) = true
      ∧ (∀ (j : Nat) (r : SubnetIPRange), j < index → ipPool.Spec.IPRanges[j]? = some r
          → r.contains (some (ipv4 10 0 0 6)) = false)
      ∧ subnet24 = ipRange.SubnetInfo :=
  AllocateIP_success poolAllocator (some (ipv4 10 0 0 6)) .Allocated (podOwner "b" "c2")
    smallStore _ subnet24 (by decide)

/-! ## AllocateNext: the order of the ranges, exhaustion -/

theorem SingleIPAllocator.exhausted_iff (al : SingleIPAllocator) :
    al.Exhausted ↔ al.AllocateNext = .error .rangeExhausted := by
  constructor
  · intro h
    cases hn : al.AllocateNext with
    | ok r =>
      obtain ⟨h1, h2, _, _⟩ := al.AllocateNext_ok r.2 r.1 hn
      exact absurd (h _ h1) h2
    | error e => rw [(al.AllocateNext_error e hn).1]
  · intro h
    exact (al.AllocateNext_error _ h).2

/-- C8, as stated, fails: in the pool whose single range `10.0.0.5-10.0.0.5` is used
up by container `c1`, every range is exhausted, and `AllocateNext` asked by `c1`
fails with the error `container ... was already allocated an address`, not with
the pool-exhausted error. -/
theorem AllocateNext_exhausted_counterexample :
    (∃ allocators, initIPAllocators fullStore.pool = .ok allocators
        ∧ ∀ al ∈ allocators, al.AllocateNext = .error .rangeExhausted)
      ∧ (AllocateNext poolAllocator .Allocated (podOwner "a" "c1") fullStore).1
        = (none, default, some (.containerAlreadyAllocated "c1" "pool"))
      ∧ Err.containerAlreadyAllocated "c1" "pool" ≠ Err.poolExhausted "pool" :=
  ⟨⟨_, rfl, by decide⟩, by decide, by decide⟩

/-! ## The round trip AllocateIP, Release, AllocateIP -/

theorem initIPAllocators_congr (p q : IPPool) (hn : p.Name = q.Name) (hs : p.Spec = q.Spec)
    (ht : p.Status = q.Status) : initIPAllocators p = initIPAllocators q := by
  unfold initIPAllocators
  rw [hn, hs, ht]

/-- After a clean rebuild, an address that some range has and no record denotes is
free in the first range allocator that has it. -/
theorem free_of_unrecorded (ipPool : IPPool) (allocs : MultiIPAllocator) (x : IP)
    (hinit : initIPAllocators ipPool = .ok allocs)
    (hin : ∃ al ∈ allocs, al.Has (some x) = true)
    (hnot : ∀ r ∈ ipPool.Status.IPAddresses, ParseIP r.IPAddress ≠ some x) :
    ∃ al, allocs.find? (fun al => al.Has (some x)) = some al ∧ x ∉ al.allocated := by
  cases hf : allocs.find? (fun al => al.Has (some x)) with
  | none =>
    obtain ⟨al, hal, hhas⟩ := hin
    rw [List.find?_eq_none] at hf
    exact absurd hhas (hf al hal)
  | some al =>
    refine ⟨al, rfl, ?_⟩
    intro hm
    obtain ⟨r, hr, hp⟩ :=
      initIPAllocators_marks ipPool allocs hinit al (List.mem_of_find?_eq_some hf) x hm
    exact hnot r hr hp

theorem AllocateIP_free_quiet (a : IPPoolAllocator) (x : IP) (state : IPAddressPhase)
    (owner : IPAddressOwner) (st : Store) (allocs : MultiIPAllocator) (hq : st.faults = [])
    (hinit : initIPAllocators st.pool = .ok allocs)
    (hin : ∃ al ∈ allocs, al.Has (some x) = true)
    (hnot : ∀ r ∈ st.pool.Status.IPAddresses, ParseIP r.IPAddress ≠ some x) :
    ∃ sn, AllocateIP a (some x) state owner st
      = ((sn, none), st.afterGet.afterUpdate (st.pool.withUsage (some x) state owner)) := by
  obtain ⟨al, hf, hfree⟩ := free_of_unrecorded st.pool allocs x hinit hin hnot
  obtain ⟨k, hk⟩ := (allocateIPLoop_some x allocs 0).2 al hf hfree
  rw [AllocateIP_quiet a (some x) state owner st hq, hinit]
  simp only []
  rw [hk]
  exact ⟨_, rfl⟩

/-- The rebuild still succeeds once the record of a free address is appended. -/
theorem initIPAllocators_withUsage (ipPool ipPool1 : IPPool) (allocs : MultiIPAllocator)
    (x : IP) (state : IPAddressPhase) (owner : IPAddressOwner)
    (hinit : initIPAllocators ipPool = .ok allocs)
    (hin : ∃ al ∈ allocs, al.Has (some x) = true)
    (hnot : ∀ r ∈ ipPool.Status.IPAddresses, ParseIP r.IPAddress ≠ some x)
    (hn : ipPool1.Name = ipPool.Name) (hs : ipPool1.Spec = ipPool.Spec)
    (ht : ipPool1.Status = (ipPool.withUsage (some x) state owner).Status) :
    ∃ allocs1, initIPAllocators ipPool1 = .ok allocs1 := by
  obtain ⟨al, hf, hfree⟩ := free_of_unrecorded ipPool allocs x hinit hin hnot
  obtain ⟨allocs0, h0, h1⟩ := initIPAllocators_ok ipPool allocs hinit
  obtain ⟨allocs1, h2⟩ := (MultiIPAllocator.AllocateIP_some allocs x).2 ⟨al, hf, hfree⟩
  refine ⟨allocs1, ?_⟩
  unfold initIPAllocators
  rw [hn, hs, ht, h0]
  simp only [IPPool.withUsage]
  rw [markAllocated_append, h1]
  simp only [IPString, ParseIP]
  rw [h2]

theorem Release_recorded_quiet (a : IPPoolAllocator) (x : IP) (st : Store)
    (hq : st.faults = []) (hclean : ReplaysCleanly st.pool)
    (hrec : ∃ r ∈ st.pool.Status.IPAddresses, r.IPAddress = IPString (some x)) :
    Release a (some x) st
      = (none, st.afterGet.afterUpdate (st.pool.withoutUsage (some x))) := by
  obtain ⟨allocs, hinit⟩ := hclean
  obtain ⟨r, hr, htext⟩ := hrec
  rw [Release_quiet a (some x) st hq, hinit]
  simp only []
  obtain ⟨y, hy, hrep⟩ := initIPAllocators_replayed st.pool allocs hinit r hr
  rw [htext] at hy
  cases hy
  obtain ⟨allocs1, hrel⟩ :=
    (MultiIPAllocator.Release_isOk_iff allocs (some x)).2 ⟨x, rfl, replayed_marked allocs x hrep⟩
  rw [hrel]
  simp only []
  have hlen : ¬ (st.pool.withoutUsage (some x)).Status.IPAddresses.length
      = st.pool.Status.IPAddresses.length := by
    simp only [IPPool.withoutUsage]
    rw [List.filter_length_eq_length]
    intro hall
    have := hall r hr
    simp [htext] at this
  rw [if_neg hlen]

/-- C9, as stated, fails: in the pool with the range `10.0.0.5-10.0.0.6` whose
status records `10.0.0.5` and `10.0.0.9`, the address `10.0.0.6` lies in the range
and is not recorded, and the first `AllocateIP` of it already fails, with the
inconsistent-state error of the rebuild. And in the pool whose range is the CIDR
`10.0.0.0/30` with gateway `10.0.0.1` and nothing recorded, the address `10.0.0.1`
lies in the CIDR, and `AllocateIP` of it fails: it is reserved. -/
theorem round_trip_counterexample :
    ((rangeOf 5 6).contains (some (ipv4 10 0 0 6)) = true
      ∧ rangeOf 5 6 ∈ inconsistentStore.pool.Spec.IPRanges
      ∧ (∀ r ∈ inconsistentStore.pool.Status.IPAddresses,
          ParseIP r.IPAddress ≠ some (ipv4 10 0 0 6))
      ∧ (AllocateIP poolAllocator (some (ipv4 10 0 0 6)) .Allocated (podOwner "c" "c3")
          inconsistentStore).1
        = (default, some (.inconsistentState "pool" (.canonical (ipv4 10 0 0 9)))))
    ∧ (ipv4 10 0 0 0 ≤ ipv4 10 0 0 1 ∧ ipv4 10 0 0 1 ≤ ipv4 10 0 0 3
      ∧ cidrStore.pool.Status.IPAddresses = []
      ∧ (AllocateIP poolAllocator (some (ipv4 10 0 0 1)) .Allocated (podOwner "c" "c3")
          cidrStore).1
        = (default, some (.doesNotBelong (.canonical (ipv4 10 0 0 1)) "pool"))) := by
  decide

/-- C9 (amended): for every pool whose status replays cleanly onto its ranges and
every address that lies in a configured range (some range allocator has it) and
is not recorded (no record denotes it), the sequence `AllocateIP`, `Release`,
`AllocateIP` of the address (store without faults) succeeds at each step; the
status after the `Release` equals the status before the first `AllocateIP`; and
the status holds a record with the address after each `AllocateIP` (the status
before with that one record appended) and none after the `Release`. -/
theorem AllocateIP_Release_round_trip (a : IPPoolAllocator) (x : IP)
    (state : IPAddressPhase) (owner : IPAddressOwner) (st : Store)
    (allocators : MultiIPAllocator) (hq : st.faults = [])
    (hclean : initIPAllocators st.pool = .ok allocators)
    (hin : ∃ al ∈ allocators, al.Has (some x) = true)
    (hnot : ∀ r ∈ st.pool.Status.IPAddresses, ParseIP r.IPAddress ≠ some x) :
    let s1 := (AllocateIP a (some x) state owner st).2
    let s2 := (Release a (some x) s1).2
    let s3 := (AllocateIP a (some x) state owner s2).2
    (AllocateIP a (some x) state owner st).1.2 = none
      ∧ (Release a (some x) s1).1 = none
      ∧ (AllocateIP a (some x) state owner s2).1.2 = none
      ∧ s2.pool.Status = st.pool.Status
      ∧ s1.pool.Status.IPAddresses
        = st.pool.Status.IPAddresses ++ [⟨IPString (some x), state, owner⟩]
      ∧ s3.pool.Status.IPAddresses
        = st.pool.Status.IPAddresses ++ [⟨IPString (some x), state, owner⟩]
      ∧ (∀ r ∈ s2.pool.Status.IPAddresses,
          r.IPAddress ≠ IPString (some x) ∧ ParseIP r.IPAddress ≠ some x) := by
  intro s1 s2 s3
  have htext : ∀ r ∈ st.pool.Status.IPAddresses, r.IPAddress ≠ IPString (some x) := by
    intro r hr heq
    exact hnot r hr (by rw [heq]; rfl)
  -- first allocation
  obtain ⟨sn1, h1⟩ := AllocateIP_free_quiet a x state owner st allocators hq hclean hin hnot
  have hs1 : s1 = st.afterGet.afterUpdate (st.pool.withUsage (some x) state owner) := by
    simp only [s1, h1]
  have hq1 : s1.faults = [] := by rw [hs1]; simpa using hq
  have hst1 : s1.pool.Status.IPAddresses
      = st.pool.Status.IPAddresses ++ [⟨IPString (some x), state, owner⟩] := by
    rw [hs1]; rfl
  -- release
  have hclean1 : ReplaysCleanly s1.pool :=
    initIPAllocators_withUsage st.pool s1.pool allocators x state owner hclean hin hnot
      (by rw [hs1]; rfl) (by rw [hs1]; rfl) (by rw [hs1]; rfl)
  have h2 := Release_recorded_quiet a x s1 hq1 hclean1
    ⟨⟨IPString (some x), state, owner⟩, by rw [hst1]; simp, rfl⟩
  have hs2 : s2 = s1.afterGet.afterUpdate (s1.pool.withoutUsage (some x)) := by
    simp only [s2, h2]
  have hq2 : s2.faults = [] := by rw [hs2]; simpa using hq1
  have hst2 : s2.pool.Status = st.pool.Status := by
    rw [hs2]
    simp only [Store.afterUpdate_status, IPPool.withoutUsage, hst1]
    have : (st.pool.Status.IPAddresses
          ++ [(⟨IPString (some x), state, owner⟩ : IPAddressState)]).filter
        (fun entry => entry.IPAddress ≠ IPString (some x)) = st.pool.Status.IPAddresses := by
      rw [List.filter_append, List.filter_eq_self.2 (by simpa using htext)]
      simp
    rw [this]
  -- second allocation
  have hclean2 : initIPAllocators s2.pool = .ok allocators := by
    rw [← hclean]
    exact initIPAllocators_congr _ _ (by rw [hs2, hs1]; rfl) (by rw [hs2, hs1]; rfl) hst2
  have hnot2 : ∀ r ∈ s2.pool.Status.IPAddresses, ParseIP r.IPAddress ≠ some x := by
    rw [hst2]; exact hnot
  obtain ⟨sn3, h3⟩ := AllocateIP_free_quiet a x state owner s2 allocators hq2 hclean2 hin hnot2
  have hs3 : s3 = s2.afterGet.afterUpdate (s2.pool.withUsage (some x) state owner) := by
    simp only [s3, h3]
  refine ⟨by rw [h1], by rw [h2], by rw [h3], hst2, hst1, ?_, ?_⟩
  · rw [hs3]
    show (s2.pool.withUsage (some x) state owner).Status.IPAddresses = _
    simp only [IPPool.withUsage, hst2]
  · rw [hst2]
    exact fun r hr => ⟨htext r hr, hnot r hr⟩

/-- C9 (amended) at the pool with the range `10.0.0.5-10.0.0.6` and `10.0.0.5`
recorded, for the address `10.0.0.6`. -/
theorem AllocateIP_Release_round_trip_witness :
    (AllocateIP poolAllocator (some (ipv4 10 0 0 6)) .Allocated (podOwner "b" "c2")
        smallStore).1.2 = none
      ∧ (Release poolAllocator (some (ipv4 10 0 0 6))
          (AllocateIP poolAllocator (some (ipv4 10 0 0 6)) .Allocated (podOwner "b" "c2")
            smallStore).2).2.pool.Status = smallStore.pool.Status := by
  have h := AllocateIP_Release_round_trip poolAllocator (ipv4 10 0 0 6) .Allocated
    (podOwner "b" "c2") smallStore [⟨ipv4 10 0 0 5, 2, [], [ipv4 10 0 0 5]⟩] rfl rfl
    (by decide) (by decide)
  exact ⟨h.1, h.2.2.2.1⟩

/-! ## ReleasePod -/

/-- C10, as stated, fails: in the status that holds `10.0.0.5` for the Pod
`default/a` and again for the Pod `default/b`, `ReleasePod` of `default/a` succeeds
and writes the empty list: the record of `default/b`, which is not the first record
of the released Pod, is removed as well. And in the status whose only record, of
the Pod `default/a`, spells its address `::ffff:10.0.0.5`, `ReleasePod` of
`default/a` fails with the not-allocated error and the record stays. -/
theorem ReleasePod_duplicate_counterexample :
    (duplicateStore.pool.Status.IPAddresses = [recordOf 5 "a" "c1", recordOf 5 "b" "c2"]
      ∧ duplicateStore.pool.Status.IPAddresses.find? (ownedByPod "default" "a")
        = some (recordOf 5 "a" "c1")
      ∧ (ReleasePod poolAllocator "default" "a" duplicateStore).1 = none
      ∧ (ReleasePod poolAllocator "default" "a" duplicateStore).2.pool.Status.IPAddresses = []
      ∧ (ReleasePod poolAllocator "default" "a" duplicateStore).2.pool.Status.IPAddresses
        ≠ [recordOf 5 "b" "c2"])
    ∧ (aliasStore.pool.Status.IPAddresses.find? (ownedByPod "default" "a")
        = some ⟨.other "::ffff:10.0.0.5" (some (ipv4 10 0 0 5)), .Allocated, podOwner "a" "c1"⟩
      ∧ (ReleasePod poolAllocator "default" "a" aliasStore).1
        = some (.wasNotAllocated (.canonical (ipv4 10 0 0 5)) "pool")
      ∧ (ReleasePod poolAllocator "default" "a" aliasStore).2.pool = aliasStore.pool) := by
  decide

/-- C10 (amended): `ReleasePod` (store without faults): for every status that
contains a record whose Pod owner has that namespace and name, and in which the
first such record holds the canonical text of an address, the call succeeds and
the written status is the previous list with every record holding that address
removed and every other record kept in order (which removes exactly the first such
record when no two records hold the same address); for every status with no such
record (including records whose owner is not a Pod owner) it fails with the
not-found error and submits no write. -/
theorem ReleasePod_by_owner (a : IPPoolAllocator) (ns podName : String) (st : Store)
    (hq : st.faults = []) :
    (∀ (r : IPAddressState) (x : IP),
        st.pool.Status.IPAddresses.find? (ownedByPod ns podName) = some r →
        r.IPAddress = IPString (some x) →
        (ReleasePod a ns podName st).1 = none
        ∧ (ReleasePod a ns podName st).2.pool.Status.IPAddresses
          = st.pool.Status.IPAddresses.filter (fun e => e.IPAddress ≠ r.IPAddress)
        ∧ (ReleasePod a ns podName st).2.writes = st.writes ++ [st.pool.withoutUsage (some x)]
        ∧ ((st.pool.Status.IPAddresses.map (fun e => e.IPAddress)).Nodup →
            (ReleasePod a ns podName st).2.pool.Status.IPAddresses
              = st.pool.Status.IPAddresses.erase r))
    ∧ ((∀ r ∈ st.pool.Status.IPAddresses, ∀ p, r.Owner.Pod = some p →
          ¬ (p.Namespace = ns ∧ p.Name = podName)) →
        (ReleasePod a ns podName st).1 = some (.podRecordNotFound ns podName a.ipPoolName)
        ∧ (ReleasePod a ns podName st).2.pool = st.pool
        ∧ (ReleasePod a ns podName st).2.writes = st.writes) := by
  rw [ReleasePod_quiet a ns podName st hq]
  constructor
  · intro r x hf htext
    rw [hf]
    simp only []
    have hr : r ∈ st.pool.Status.IPAddresses := List.mem_of_find?_eq_some hf
    have hparse : ParseIP r.IPAddress = some x := by rw [htext]; rfl
    rw [hparse]
    have hlen : ¬ (st.pool.withoutUsage (some x)).Status.IPAddresses.length
        = st.pool.Status.IPAddresses.length := by
      simp only [IPPool.withoutUsage]
      rw [List.filter_length_eq_length]
      intro hall
      have := hall r hr
      simp [htext] at this
    rw [if_neg hlen]
    refine ⟨rfl, ?_, ?_, ?_⟩
    · simp only [Store.afterUpdate_status, IPPool.withoutUsage, htext]
    · rw [Store.afterUpdate_writes, Store.afterGet_writes]
    · intro hnodup
      simp only [Store.afterUpdate_status, IPPool.withoutUsage, ← htext]
      rw [List.Nodup.erase_eq_filter (List.Nodup.of_map _ hnodup) r]
      apply List.filter_congr
      intro e he
      by_cases heq : e = r
      · simp [heq]
      · have : e.IPAddress ≠ r.IPAddress :=
          fun h => heq (List.inj_on_of_nodup_map hnodup he hr h)
        simp [heq, this]
  · intro hno
    have hnone : st.pool.Status.IPAddresses.find? (ownedByPod ns podName) = none := by
      rw [List.find?_eq_none]
      intro r hr
      simp only [ownedByPod]
      cases hp : r.Owner.Pod with
      | none => simp
      | some p => simpa using hno r hr p hp
    rw [hnone]
    exact ⟨rfl, rfl, Store.afterGet_writes st⟩

/-- C10 (amended) at the pool with `10.0.0.5` recorded for the Pod `default/a`,
released: the written status is the list without that record. -/
theorem ReleasePod_by_owner_witness :
    (ReleasePod poolAllocator "default" "a" smallStore).1 = none
      ∧ (ReleasePod poolAllocator "default" "a" smallStore).2.pool.Status.IPAddresses
        = smallStore.pool.Status.IPAddresses.erase (recordOf 5 "a" "c1") := by
  have h := (ReleasePod_by_owner poolAllocator "default" "a" smallStore rfl).1
    (recordOf 5 "a" "c1") (ipv4 10 0 0 5) (by decide) rfl
  exact ⟨h.1, h.2.2.2 (by decide)⟩

/-! ## ReleaseContainerIfPresent -/

theorem ReleaseContainerIfPresent_quiet (containerID : String) (st : Store)
    (hq : st.faults = []) :
    ReleaseContainerIfPresent containerID st =
      match st.pool.Status.IPAddresses.find? (ownedByContainer containerID) with
      | none => (none, st.afterGet)
      | some r =>
        if (st.pool.withoutUsage (ParseIP r.IPAddress)).Status.IPAddresses.length
            = st.pool.Status.IPAddresses.length
        then (some (.wasNotAllocated (IPString (ParseIP r.IPAddress)) st.pool.Name), st.afterGet)
        else (none, st.afterGet.afterUpdate (st.pool.withoutUsage (ParseIP r.IPAddress))) := by
  unfold ReleaseContainerIfPresent
  have hq1 : st.afterGet.faults = [] := by simpa using hq
  have hatt : ReleaseContainerIfPresent.attempt containerID st =
      match st.pool.Status.IPAddresses.find? (ownedByContainer containerID) with
      | none => (none, st.afterGet)
      | some r => removePoolUsage st.pool (ParseIP r.IPAddress) st.afterGet := by
    simp only [ReleaseContainerIfPresent.attempt]
    rw [Store.Get_quiet st hq]
    simp only []
    cases st.pool.Status.IPAddresses.find? (ownedByContainer containerID) <;> rfl
  rw [RetryOnConflict_first]
  · rw [hatt]
    cases hf : st.pool.Status.IPAddresses.find? (ownedByContainer containerID) with
    | none => rfl
    | some r =>
      simp only []
      rw [removePoolUsage_quiet st.pool _ st.afterGet hq1 rfl]
  · intro e he
    rw [hatt] at he
    cases hf : st.pool.Status.IPAddresses.find? (ownedByContainer containerID) with
    | none => rw [hf] at he; simp at he
    | some r =>
      rw [hf] at he
      exact removePoolUsage_not_conflict st.pool _ st.afterGet hq1 rfl e he

/-- C11, as stated, fails: in the status that holds `10.0.0.5` and `10.0.0.6` for
the container `c1` (the status two `AllocateIP` calls of that owner leave),
`ReleaseContainerIfPresent` succeeds and leaves the record of `10.0.0.6`, and a
second call succeeds again and leaves the empty list: twice is not once. -/
theorem ReleaseContainerIfPresent_twice_counterexample :
    (AllocateIP poolAllocator (some (ipv4 10 0 0 6)) .Allocated (podOwner "a" "c1")
        (AllocateIP poolAllocator (some (ipv4 10 0 0 5)) .Allocated (podOwner "a" "c1")
          emptyStore).2).2.pool.Status = twoRecordStore.pool.Status
      ∧ (ReleaseContainerIfPresent "c1" twoRecordStore).1 = none
      ∧ (ReleaseContainerIfPresent "c1" twoRecordStore).2.pool.Status.IPAddresses
        = [recordOf 6 "a" "c1"]
      ∧ (ReleaseContainerIfPresent "c1" (ReleaseContainerIfPresent "c1" twoRecordStore).2).1
        = none
      ∧ (ReleaseContainerIfPresent "c1"
          (ReleaseContainerIfPresent "c1" twoRecordStore).2).2.pool.Status.IPAddresses = []
      ∧ (ReleaseContainerIfPresent "c1"
          (ReleaseContainerIfPresent "c1" twoRecordStore).2).2.pool.Status
        ≠ (ReleaseContainerIfPresent "c1" twoRecordStore).2.pool.Status := by
  decide

/-- C11 (amended): `ReleaseContainerIfPresent` (store without faults): when no record
of the status has a Pod owner with that container ID it returns success and
submits no write; and for every status in which the records of that container all
hold the address of the first of them, written in canonical text, applying it
twice in a row leaves the same stored pool, with the same success result, as
applying it once: the second call submits no write. -/
theorem ReleaseContainerIfPresent_idempotent (containerID : String) (st : Store)
    (hq : st.faults = []) :
    (st.pool.Status.IPAddresses.any (ownedByContainer containerID) = false →
        (ReleaseContainerIfPresent containerID st).1 = none
        ∧ (ReleaseContainerIfPresent containerID st).2.pool = st.pool
        ∧ (ReleaseContainerIfPresent containerID st).2.writes = st.writes)
    ∧ ((∀ r0, st.pool.Status.IPAddresses.find? (ownedByContainer containerID) = some r0 →
          (∃ x, r0.IPAddress = IPString (some x))
          ∧ ∀ r ∈ st.pool.Status.IPAddresses, ownedByContainer containerID r = true →
              r.IPAddress = r0.IPAddress) →
        (ReleaseContainerIfPresent containerID st).1 = none
        ∧ (ReleaseContainerIfPresent containerID
            (ReleaseContainerIfPresent containerID st).2).1 = none
        ∧ (ReleaseContainerIfPresent containerID
            (ReleaseContainerIfPresent containerID st).2).2.pool
          = (ReleaseContainerIfPresent containerID st).2.pool
        ∧ (ReleaseContainerIfPresent containerID
            (ReleaseContainerIfPresent containerID st).2).2.writes
          = (ReleaseContainerIfPresent containerID st).2.writes) := by
  constructor
  · intro hno
    have hnone : st.pool.Status.IPAddresses.find? (ownedByContainer containerID) = none := by
      rw [List.find?_eq_none]
      intro r hr
      have := List.any_eq_false.1 hno r hr
      simpa using this
    rw [ReleaseContainerIfPresent_quiet containerID st hq, hnone]
    exact ⟨rfl, rfl, Store.afterGet_writes st⟩
  · intro hsame
    cases hf : st.pool.Status.IPAddresses.find? (ownedByContainer containerID) with
    | none =>
      have h1 : ReleaseContainerIfPresent containerID st = (none, st.afterGet) := by
        rw [ReleaseContainerIfPresent_quiet containerID st hq, hf]
      have hq1 : st.afterGet.faults = [] := by simpa using hq
      have h2 : ReleaseContainerIfPresent containerID st.afterGet
          = (none, st.afterGet.afterGet) := by
        rw [ReleaseContainerIfPresent_quiet containerID st.afterGet hq1]
        simp only [Store.afterGet_pool, hf]
      rw [h1]
      simp only []
      rw [h2]
      simp
    | some r0 =>
      obtain ⟨⟨x, htext⟩, hall⟩ := hsame r0 hf
      have hr0 : r0 ∈ st.pool.Status.IPAddresses := List.mem_of_find?_eq_some hf
      have hparse : ParseIP r0.IPAddress = some x := by rw [htext]; rfl
      have hlen : ¬ (st.pool.withoutUsage (some x)).Status.IPAddresses.length
          = st.pool.Status.IPAddresses.length := by
        simp only [IPPool.withoutUsage]
        rw [List.filter_length_eq_length]
        intro h
        have := h r0 hr0
        simp [htext] at this
      have h1 : ReleaseContainerIfPresent containerID st
          = (none, st.afterGet.afterUpdate (st.pool.withoutUsage (some x))) := by
        rw [ReleaseContainerIfPresent_quiet containerID st hq, hf]
        simp only [hparse]
        rw [if_neg hlen]
      have hq1 : (st.afterGet.afterUpdate (st.pool.withoutUsage (some x))).faults = [] := by
        simpa using hq
      have hnone : (st.afterGet.afterUpdate (st.pool.withoutUsage (some x))).pool.Status.IPAddresses.find?
          (ownedByContainer containerID) = none := by
        rw [List.find?_eq_none]
        intro r hr
        simp only [Store.afterUpdate_status, IPPool.withoutUsage, List.mem_filter,
          decide_eq_true_eq] at hr
        intro hown
        exact hr.2 (by rw [hall r hr.1 hown, htext])
      have h2 : ReleaseContainerIfPresent containerID
          (st.afterGet.afterUpdate (st.pool.withoutUsage (some x)))
          = (none, (st.afterGet.afterUpdate (st.pool.withoutUsage (some x))).afterGet) := by
        rw [ReleaseContainerIfPresent_quiet containerID _ hq1, hnone]
      rw [h1]
      simp only []
      rw [h2]
      simp

/-- C11 (amended) at the pool with `10.0.0.5` recorded for the container `c1`. -/
theorem ReleaseContainerIfPresent_idempotent_witness :
    (ReleaseContainerIfPresent "c1" smallStore).1 = none
      ∧ (ReleaseContainerIfPresent "c1" (ReleaseContainerIfPresent "c1" smallStore).2).1 = none
      ∧ (ReleaseContainerIfPresent "c1" (ReleaseContainerIfPresent "c1" smallStore).2).2.pool
        = (ReleaseContainerIfPresent "c1" smallStore).2.pool
      ∧ (ReleaseContainerIfPresent "c1" (ReleaseContainerIfPresent "c1" smallStore).2).2.writes
        = (ReleaseContainerIfPresent "c1" smallStore).2.writes :=
  (ReleaseContainerIfPresent_idempotent "c1" smallStore rfl).2 (by
    intro r0 h
    have : r0 = recordOf 5 "a" "c1" := by
      have h2 : smallStore.pool.Status.IPAddresses.find? (ownedByContainer "c1")
          = some (recordOf 5 "a" "c1") := by decide
      rw [h2] at h
      exact (Option.some.inj h).symm
    subst this
    exact ⟨⟨ipv4 10 0 0 5, rfl⟩, by decide⟩)

/-! ## The rebuild of the allocators on a status that fits no range -/

theorem markAllocated_error (name : String) (recs : List IPAddressState)
    (allocs : MultiIPAllocator) (e : Err)
    (h : markAllocated name allocs recs = .error e) : e.isInconsistentState = true := by
  induction recs generalizing allocs with
  | nil => simp [markAllocated] at h
  | cons r rest ih =>
    rw [markAllocated_cons] at h
    cases hr : MultiIPAllocator.AllocateIP allocs (ParseIP r.IPAddress) with
    | error e1 => rw [hr] at h; cases h; rfl
    | ok al1 => rw [hr] at h; exact ih al1 h

theorem has_of_find_shape (allocs allocs1 : MultiIPAllocator) (x : IP)
    (hs : allocs1.map SingleIPAllocator.shape = allocs.map SingleIPAllocator.shape)
    (al1 : SingleIPAllocator) (h : allocs1.find? (fun al => al.Has (some x)) = some al1) :
    ∃ al ∈ allocs, al.Has (some x) = true := by
  have hm := find_has_of_shape allocs allocs1 x hs
  rw [h] at hm
  cases hf : allocs.find? (fun al => al.Has (some x)) with
  | none => rw [hf] at hm; cases hm
  | some al =>
    exact ⟨al, List.mem_of_find?_eq_some hf, by simpa using List.find?_some hf⟩

/-- A status with a record that fits no range makes the rebuild fail with the
inconsistent-state error. -/
theorem initIPAllocators_inconsistent (ipPool : IPPool) (allocators : MultiIPAllocator)
    (hranges : initRanges ipPool.Spec.IPRanges = .ok allocators)
    (hbad : ∃ r ∈ ipPool.Status.IPAddresses,
      ∀ al ∈ allocators, al.Has (ParseIP r.IPAddress) = false) :
    ∃ e, initIPAllocators ipPool = .error e ∧ e.isInconsistentState = true := by
  unfold initIPAllocators
  rw [hranges]
  simp only []
  cases hm : markAllocated ipPool.Name allocators ipPool.Status.IPAddresses with
  | error e => exact ⟨e, rfl, markAllocated_error _ _ _ _ hm⟩
  | ok allocs1 =>
    exfalso
    obtain ⟨r, hr, hno⟩ := hbad
    obtain ⟨x, hx, al1, hf, _⟩ := (markAllocated_replayed _ _ _ _ hm).2 r hr
    obtain ⟨al, hal, hhas⟩ :=
      has_of_find_shape allocators allocs1 x (markAllocated_shape _ _ _ _ hm) al1 hf
    have := hno al hal
    rw [hx, hhas] at this
    cases this

/-- C12, as stated, fails: on the pool with the range `10.0.0.5-10.0.0.6` whose
status records `10.0.0.5` for the Pod `default/a` (container `c1`) and `10.0.0.9`,
which fits no range, for container `c2`: `ReleasePod` of `default/a` succeeds and
writes the status with the still inconsistent record; `ReleaseContainerIfPresent`
of `c2` succeeds and writes the status without that record, which is so dropped
silently; and `AllocateNext` asked by `c1` fails with the error `container ... was
already allocated an address`. None returns the inconsistent-state error. -/
theorem mutating_operations_rebuild_counterexample :
    (∃ allocators, initRanges inconsistentStore.pool.Spec.IPRanges = .ok allocators
        ∧ ∀ al ∈ allocators, al.Has (ParseIP (recordOf 9 "b" "c2").IPAddress) = false)
      ∧ recordOf 9 "b" "c2" ∈ inconsistentStore.pool.Status.IPAddresses
      ∧ (ReleasePod poolAllocator "default" "a" inconsistentStore).1 = none
      ∧ (ReleasePod poolAllocator "default" "a" inconsistentStore).2.pool.Status.IPAddresses
        = [recordOf 9 "b" "c2"]
      ∧ (ReleaseContainerIfPresent "c2" inconsistentStore).1 = none
      ∧ (ReleaseContainerIfPresent "c2" inconsistentStore).2.pool.Status.IPAddresses
        = [recordOf 5 "a" "c1"]
      ∧ (AllocateNext poolAllocator .Allocated (podOwner "a" "c1") inconsistentStore).1
        = (none, default, some (.containerAlreadyAllocated "c1" "pool")) :=
  ⟨⟨_, rfl, by decide⟩, by decide, by decide, by decide, by decide, by decide, by decide⟩

/-- C12 (amended): `AllocateIP`, `Release`, and `AllocateNext` for an owner that holds
no allocation in the pool, rebuild the multi-range allocator by replaying the
status they read before they mutate or write: for every pool with well-formed
ranges whose status records an address that fits no configured range, each of
these operations (store without faults) returns the inconsistent-state error and
submits no write, so the stored pool, the inconsistent record included, is
unchanged. -/
theorem mutating_operations_rebuild (a : IPPoolAllocator) (ip : Option IP)
    (state : IPAddressPhase) (owner : IPAddressOwner) (st : Store)
    (allocators : MultiIPAllocator) (hq : st.faults = [])
    (hranges : initRanges st.pool.Spec.IPRanges = .ok allocators)
    (hbad : ∃ r ∈ st.pool.Status.IPAddresses,
      ∀ al ∈ allocators, al.Has (ParseIP r.IPAddress) = false) :
    (∃ e, e.isInconsistentState = true
        ∧ (AllocateIP a ip state owner st).1 = (default, some e)
        ∧ (AllocateIP a ip state owner st).2.pool = st.pool
        ∧ (AllocateIP a ip state owner st).2.writes = st.writes)
    ∧ (∃ e, e.isInconsistentState = true
        ∧ (Release a ip st).1 = some e
        ∧ (Release a ip st).2.pool = st.pool
        ∧ (Release a ip st).2.writes = st.writes)
    ∧ (∀ pod, owner.Pod = some pod →
        st.pool.Status.IPAddresses.any (ownedByContainer pod.ContainerID) = false →
        ∃ e, e.isInconsistentState = true
          ∧ (AllocateNext a state owner st).1 = (none, default, some e)
          ∧ (AllocateNext a state owner st).2.pool = st.pool
          ∧ (AllocateNext a state owner st).2.writes = st.writes) := by
  obtain ⟨e, hinit, he⟩ := initIPAllocators_inconsistent st.pool allocators hranges hbad
  refine ⟨⟨e, he, ?_⟩, ⟨e, he, ?_⟩, ?_⟩
  · rw [AllocateIP_quiet a ip state owner st hq, hinit]
    exact ⟨rfl, rfl, Store.afterGet_writes st⟩
  · rw [Release_quiet a ip st hq, hinit]
    exact ⟨rfl, rfl, Store.afterGet_writes st⟩
  · intro pod hpod hown
    refine ⟨e, he, ?_⟩
    rw [AllocateNext_quiet a state owner pod st hq hpod, hown, hinit]
    simp

/-- C12 (amended) at the pool with the range `10.0.0.5-10.0.0.6` whose status records
`10.0.0.5` and `10.0.0.9`, for `AllocateIP` and `Release` of `10.0.0.6` and for
`AllocateNext` asked by a new container. -/
theorem mutating_operations_rebuild_witness :
    (∃ e, e.isInconsistentState = true
        ∧ (AllocateIP poolAllocator (some (ipv4 10 0 0 6)) .Allocated (podOwner "c" "c3")
            inconsistentStore).1 = (default, some e)
        ∧ (AllocateIP poolAllocator (some (ipv4 10 0 0 6)) .Allocated (podOwner "c" "c3")
            inconsistentStore).2.pool = inconsistentStore.pool
        ∧ (AllocateIP poolAllocator (some (ipv4 10 0 0 6)) .Allocated (podOwner "c" "c3")
            inconsistentStore).2.writes = inconsistentStore.writes)
    ∧ (∃ e, e.isInconsistentState = true
        ∧ (Release poolAllocator (some (ipv4 10 0 0 6)) inconsistentStore).1 = some e
        ∧ (Release poolAllocator (some (ipv4 10 0 0 6)) inconsistentStore).2.pool
          = inconsistentStore.pool
        ∧ (Release poolAllocator (some (ipv4 10 0 0 6)) inconsistentStore).2.writes
          = inconsistentStore.writes)
    ∧ (∀ pod, (podOwner "c" "c3").Pod = some pod →
        inconsistentStore.pool.Status.IPAddresses.any (ownedByContainer pod.ContainerID)
          = false →
        ∃ e, e.isInconsistentState = true
          ∧ (AllocateNext poolAllocator .Allocated (podOwner "c" "c3") inconsistentStore).1
            = (none, default, some e)
          ∧ (AllocateNext poolAllocator .Allocated (podOwner "c" "c3") inconsistentStore).2.pool
            = inconsistentStore.pool
          ∧ (AllocateNext poolAllocator .Allocated (podOwner "c" "c3")
            inconsistentStore).2.writes = inconsistentStore.writes) :=
  mutating_operations_rebuild poolAllocator (some (ipv4 10 0 0 6)) .Allocated
    (podOwner "c" "c3") inconsistentStore [⟨ipv4 10 0 0 5, 2, [], []⟩] rfl rfl
    ⟨recordOf 9 "b" "c2", by decide, by decide⟩

/-! ## The retry loop: its attempts and their store calls -/

theorem Store.env_log (st : Store) : st.env.2.log = st.log := by
  unfold Store.env
  split <;> rfl

theorem Store.Get_log (st : Store) :
    (st.Get).2.log = st.log ++ [.get (st.Get).1]
      ∧ ((st.Get).1 = .error .storeUnavailable ∨ ∃ ipPool, (st.Get).1 = .ok ipPool) := by
  unfold Store.Get
  have hlog := st.env_log
  rcases henv : st.env with ⟨_ | _, st1⟩
  · rw [henv] at hlog
    simp only [] at hlog ⊢
    refine ⟨by rw [hlog], ?_⟩
    simp
  · rw [henv] at hlog
    simp only [] at hlog ⊢
    refine ⟨by rw [hlog], ?_⟩
    simp

theorem Store.UpdateStatus_log (st : Store) (newPool : IPPool) :
    (st.UpdateStatus newPool).2.log = st.log ++ [.updateStatus newPool (st.UpdateStatus newPool).1]
      ∧ ((st.UpdateStatus newPool).1 = none ∨ (st.UpdateStatus newPool).1 = some .conflict
        ∨ (st.UpdateStatus newPool).1 = some .storeUnavailable) := by
  unfold Store.UpdateStatus
  have hlog := st.env_log
  rcases henv : st.env with ⟨_ | _, st1⟩
  · rw [henv] at hlog
    simp only [] at hlog ⊢
    refine ⟨by rw [hlog], ?_⟩
    simp
  · rw [henv] at hlog
    simp only [] at hlog ⊢
    split_ifs
    · refine ⟨by rw [hlog], ?_⟩
      simp
    · refine ⟨by rw [hlog], ?_⟩
      simp

/-- The store calls of one cycle, and how it ends. -/
theorem cycle_calls (plan : IPPool → Res (Option IPPool))
    (hplan : ∀ p e, plan p = .error e → e.fromStore = false) (st : Store) :
    ∃ calls, (cycle plan st).2.log = st.log ++ calls
      ∧ (((cycle plan st).1 = some .conflict ∧ ConflictStep plan calls)
        ∨ ((cycle plan st).1 ≠ some .conflict ∧ FinalAttempt plan calls (cycle plan st).1)) := by
  unfold cycle
  obtain ⟨hlog, hres⟩ := st.Get_log
  rcases hget : st.Get with ⟨_ | e, st1⟩
  · rename_i ipPool
    rw [hget] at hlog hres
    simp only [] at hlog ⊢
    cases hp : plan ipPool with
    | error e =>
      simp only []
      refine ⟨_, hlog, Or.inr ⟨?_, Or.inr (Or.inl ⟨ipPool, rfl, Or.inl ⟨e, hp, rfl⟩⟩)⟩⟩
      intro h
      have := hplan ipPool e hp
      simp only [Option.some.injEq] at h
      subst h
      cases this
    | ok o =>
      cases o with
      | none =>
        simp only []
        exact ⟨_, hlog, Or.inr ⟨by simp, Or.inr (Or.inl ⟨ipPool, rfl, Or.inr ⟨hp, rfl⟩⟩)⟩⟩
      | some newPool =>
        simp only []
        obtain ⟨hlog1, hres1⟩ := st1.UpdateStatus_log newPool
        refine ⟨[.get (.ok ipPool), .updateStatus newPool (st1.UpdateStatus newPool).1], ?_, ?_⟩
        · rw [hlog1, hlog]; simp
        · rcases hres1 with h | h | h
          · exact Or.inr ⟨by rw [h]; simp, Or.inr (Or.inr ⟨ipPool, newPool, rfl, hp, Or.inl h⟩)⟩
          · exact Or.inl ⟨h, ipPool, newPool, by rw [h], hp⟩
          · exact Or.inr ⟨by rw [h]; simp, Or.inr (Or.inr ⟨ipPool, newPool, rfl, hp, Or.inr h⟩)⟩
  · rw [hget] at hlog hres
    simp only [] at hlog hres ⊢
    rcases hres with h | ⟨p, h⟩
    · cases h
      exact ⟨_, hlog, Or.inr ⟨by simp, Or.inl ⟨rfl, rfl⟩⟩⟩
    · cases h

/-- The attempts the retry loop makes over a cycle, and the log they leave. -/
theorem retry_trace (plan : IPPool → Res (Option IPPool))
    (hplan : ∀ p e, plan p = .error e → e.fromStore = false) (n : Nat) (l : Option Err)
    (st : Store) :
    ∃ attempts, RetryTrace plan n l attempts (RetryOnConflict n (cycle plan) l st).1
      ∧ (RetryOnConflict n (cycle plan) l st).2.log = st.log ++ attempts.flatten := by
  induction n generalizing l st with
  | zero => exact ⟨[], RetryTrace.exhausted l, by simp [RetryOnConflict]⟩
  | succ m ih =>
    obtain ⟨calls, hlog, hcase⟩ := cycle_calls plan hplan st
    simp only [RetryOnConflict]
    rcases hc : cycle plan st with ⟨_ | e, st1⟩
    · rw [hc] at hlog hcase
      simp only [] at hlog hcase ⊢
      rcases hcase with ⟨h, _⟩ | ⟨h, hfin⟩
      · cases h
      · exact ⟨[calls], RetryTrace.done m l calls none hfin h, by simp [hlog]⟩
    · rw [hc] at hlog hcase
      simp only [] at hlog hcase ⊢
      rcases hcase with ⟨h, hstep⟩ | ⟨h, hfin⟩
      · simp only [Option.some.injEq] at h
        subst h
        simp only [Err.isConflict, if_true]
        obtain ⟨attempts, htr, hlog2⟩ := ih (some .conflict) st1
        exact ⟨calls :: attempts, RetryTrace.again m l calls attempts _ hstep htr,
          by rw [hlog2, hlog]; simp⟩
      · have hne : e.isConflict = false := by
          cases e <;> first | rfl | exact absurd rfl h
        simp only [hne, Bool.false_eq_true, if_false]
        exact ⟨[calls], RetryTrace.done m l calls (some e) hfin h, by simp [hlog]⟩

theorem RetryTrace.length_le {plan : IPPool → Res (Option IPPool)} {n : Nat} {l err : Option Err}
    {attempts : List (List StoreCall)} (h : RetryTrace plan n l attempts err) :
    attempts.length ≤ n := by
  induction h with
  | exhausted _ => simp
  | done _ _ _ _ _ _ => simp
  | again _ _ _ _ _ _ _ ih => simp only [List.length_cons]; omega

theorem ConflictStep.conflictAttempt {plan : IPPool → Res (Option IPPool)}
    {calls : List StoreCall} (h : ConflictStep plan calls) : ConflictAttempt calls := by
  obtain ⟨p, sub, hc, _⟩ := h
  exact ⟨p, sub, hc⟩

theorem RetryTrace.attemptCalls {plan : IPPool → Res (Option IPPool)} {n : Nat}
    {l err : Option Err} {attempts : List (List StoreCall)}
    (hder : ∀ p sub, plan p = .ok (some sub) → DerivedFrom p sub)
    (h : RetryTrace plan n l attempts err) : ∀ calls ∈ attempts, AttemptCalls calls := by
  induction h with
  | exhausted _ => simp
  | done _ _ calls err hfin _ =>
    intro b hb
    simp only [List.mem_singleton] at hb
    subst hb
    rcases hfin with ⟨hc, _⟩ | ⟨p, hc, _⟩ | ⟨p, sub, hc, hp, _⟩
    · exact Or.inl ⟨_, hc⟩
    · exact Or.inl ⟨_, hc⟩
    · exact Or.inr ⟨p, sub, err, hc, hder p sub hp⟩
  | again _ _ calls _ _ hstep _ ih =>
    intro b hb
    rcases List.mem_cons.1 hb with rfl | hb
    · obtain ⟨p, sub, hc, hp⟩ := hstep
      exact Or.inr ⟨p, sub, _, hc, hder p sub hp⟩
    · exact ih b hb

theorem RetryTrace.dropLast_conflict {plan : IPPool → Res (Option IPPool)} {n : Nat}
    {l err : Option Err} {attempts : List (List StoreCall)}
    (h : RetryTrace plan n l attempts err) :
    ∀ calls ∈ attempts.dropLast, ConflictAttempt calls := by
  induction h with
  | exhausted _ => simp
  | done _ _ _ _ _ _ => simp
  | again _ _ calls attempts _ hstep _ ih =>
    intro b hb
    cases attempts with
    | nil => simp at hb
    | cons a rest =>
      rw [List.dropLast_cons_of_ne_nil (by simp)] at hb
      rcases List.mem_cons.1 hb with rfl | hb
      · exact hstep.conflictAttempt
      · exact ih b hb

theorem FinalAttempt.not_conflictAttempt {plan : IPPool → Res (Option IPPool)}
    {calls : List StoreCall} {err : Option Err} (h : FinalAttempt plan calls err) :
    ¬ ConflictAttempt calls := by
  rintro ⟨p, sub, hc⟩
  rcases h with ⟨h1, _⟩ | ⟨q, h1, _⟩ | ⟨q, sub2, h1, _, h2⟩
  · rw [h1] at hc; simp at hc
  · rw [h1] at hc; simp at hc
  · rw [h1] at hc
    simp only [List.cons.injEq, StoreCall.updateStatus.injEq, and_true] at hc
    rcases h2 with h2 | h2 <;> rw [h2] at hc <;> simp at hc

theorem RetryTrace.outcome {plan : IPPool → Res (Option IPPool)} {n : Nat}
    {l err : Option Err} {attempts : List (List StoreCall)}
    (h : RetryTrace plan n l attempts err) :
    (err = some .conflict ∧ attempts.length = n ∧ (∀ calls ∈ attempts, ConflictAttempt calls)
        ∧ (n = 0 → l = some .conflict))
      ∨ (err ≠ some .conflict
        ∧ ((n = 0 ∧ err = l) ∨ ∃ calls, attempts.getLast? = some calls
            ∧ ¬ ConflictAttempt calls)) := by
  induction h with
  | exhausted l =>
    by_cases hl : l = some .conflict
    · exact Or.inl ⟨hl, rfl, by simp, fun _ => hl⟩
    · exact Or.inr ⟨hl, Or.inl ⟨rfl, rfl⟩⟩
  | done _ _ calls err hfin hne =>
    exact Or.inr ⟨hne, Or.inr ⟨calls, rfl, hfin.not_conflictAttempt⟩⟩
  | again m _ calls attempts err hstep _ ih =>
    rcases ih with ⟨h1, h2, h3, _⟩ | ⟨h1, h2⟩
    · refine Or.inl ⟨h1, by simp [h2], ?_, by omega⟩
      intro b hb
      rcases List.mem_cons.1 hb with rfl | hb
      · exact hstep.conflictAttempt
      · exact h3 b hb
    · refine Or.inr ⟨h1, Or.inr ?_⟩
      rcases h2 with ⟨_, h3⟩ | ⟨b, hb, hnc⟩
      · exact absurd h3 h1
      · refine ⟨b, ?_, hnc⟩
        cases attempts with
        | nil => simp at hb
        | cons a rest => rw [List.getLast?_cons_cons]; exact hb

/-- With attempts left at the start, the loop returns a conflict error exactly when
it used every attempt and every one of them had its write rejected. -/
theorem RetryTrace.conflict_iff {plan : IPPool → Res (Option IPPool)} {n : Nat}
    {err : Option Err} {attempts : List (List StoreCall)}
    (h : RetryTrace plan (n + 1) none attempts err) :
    err = some .conflict ↔
      attempts.length = n + 1 ∧ ∀ calls ∈ attempts, ConflictAttempt calls := by
  rcases h.outcome with ⟨h1, h2, h3, _⟩ | ⟨h1, h2⟩
  · exact ⟨fun _ => ⟨h2, h3⟩, fun _ => h1⟩
  · constructor
    · intro he; exact absurd he h1
    · rintro ⟨_, hall⟩
      rcases h2 with ⟨h0, _⟩ | ⟨b, hb, hnc⟩
      · omega
      · exact absurd (hall b (List.mem_of_mem_getLast? hb)) hnc

/-- With attempts left at the start, an attempt whose write was rejected is the last
one only when the attempts are used up. -/
theorem RetryTrace.last_conflict {plan : IPPool → Res (Option IPPool)} {n : Nat}
    {err : Option Err} {attempts : List (List StoreCall)}
    (h : RetryTrace plan (n + 1) none attempts err) :
    ∀ calls, attempts.getLast? = some calls → ConflictAttempt calls →
      attempts.length = n + 1 := by
  intro calls hlast hconf
  rcases h.outcome with ⟨_, h2, _, _⟩ | ⟨_, h2⟩
  · exact h2
  · rcases h2 with ⟨h0, _⟩ | ⟨b, hb, hnc⟩
    · omega
    · rw [hlast] at hb
      cases hb
      exact absurd hconf hnc

theorem RetryTrace.unavailable {plan : IPPool → Res (Option IPPool)} {n : Nat}
    {l err : Option Err} {attempts : List (List StoreCall)}
    (h : RetryTrace plan n l attempts err) :
    (∀ c ∈ attempts.flatten.dropLast, c.unavailable = false)
      ∧ ∀ c, attempts.flatten.getLast? = some c → c.unavailable = true →
          err = some .storeUnavailable := by
  induction h with
  | exhausted _ => simp
  | done _ _ calls err hfin _ =>
    simp only [List.flatten_cons, List.flatten_nil, List.append_nil]
    rcases hfin with ⟨hc, he⟩ | ⟨p, hc, _⟩ | ⟨p, sub, hc, _, _⟩
    · subst hc; exact ⟨by simp, fun _ _ _ => he⟩
    · subst hc
      refine ⟨by simp, ?_⟩
      intro c hc hu
      simp only [List.getLast?_singleton, Option.some.injEq] at hc
      subst hc
      simp [StoreCall.unavailable] at hu
    · subst hc
      refine ⟨by simp [StoreCall.unavailable], ?_⟩
      intro c hc hu
      simp only [List.getLast?_cons_cons, List.getLast?_singleton, Option.some.injEq] at hc
      subst hc
      cases err with
      | none => simp [StoreCall.unavailable] at hu
      | some e => cases e <;> simp [StoreCall.unavailable] at hu ⊢
  | again _ _ calls attempts err hstep _ ih =>
    obtain ⟨p, sub, hc, _⟩ := hstep
    subst hc
    simp only [List.flatten_cons]
    by_cases hnil : attempts.flatten = []
    · rw [hnil]
      refine ⟨by simp [StoreCall.unavailable], ?_⟩
      intro c hc hu
      simp only [List.append_nil, List.getLast?_cons_cons, List.getLast?_singleton,
        Option.some.injEq] at hc
      subst hc
      simp [StoreCall.unavailable] at hu
    · constructor
      · rw [List.dropLast_append_of_ne_nil _ hnil]
        intro c hc
        rcases List.mem_append.1 hc with h1 | h1
        · simp only [List.mem_cons, List.mem_singleton, List.not_mem_nil, or_false] at h1
          rcases h1 with rfl | rfl <;> rfl
        · exact ih.1 c h1
      · intro c hc hu
        rw [List.getLast?_append_of_ne_nil _ hnil] at hc
        exact ih.2 c hc hu

theorem Err.fromStore_of_not_conflict_ne (e : Err) (h : e.isConflict = false)
    (hne : e ≠ .storeUnavailable) : e.fromStore = false := by
  cases e <;> simp_all [Err.fromStore, Err.isConflict]

theorem SingleIPAllocator.AllocateIP_not_store (al : SingleIPAllocator) (ip : Option IP)
    (e : Err) (h : al.AllocateIP ip = .error e) : e.fromStore = false := by
  cases ip with
  | none => simp [SingleIPAllocator.AllocateIP] at h; subst h; rfl
  | some x =>
    simp only [SingleIPAllocator.AllocateIP] at h
    split_ifs at h <;> cases h <;> rfl

theorem initRanges_not_store (rs : List SubnetIPRange) (e : Err)
    (h : initRanges rs = .error e) : e.fromStore = false := by
  induction rs with
  | nil => simp [initRanges] at h
  | cons r rest ih =>
    simp only [initRanges] at h
    cases hr : newRangeAllocator r with
    | error e1 =>
      rw [hr] at h
      cases h
      unfold newRangeAllocator at hr
      cases hc : r.CIDR with
      | empty =>
        rw [hc] at hr
        simp only [NewIPRangeAllocator] at hr
        split at hr
        · split_ifs at hr
          · cases hr; rfl
        · cases hr; rfl
      | text parsed =>
        rw [hc] at hr
        cases parsed with
        | none => cases hr; rfl
        | some n => simp [NewCIDRAllocator] at hr
    | ok al =>
      rw [hr] at h
      cases hrest : initRanges rest with
      | error e2 => rw [hrest] at h; cases h; exact ih hrest
      | ok als => rw [hrest] at h; cases h

theorem markAllocated_not_store (name : String) (recs : List IPAddressState)
    (allocs : MultiIPAllocator) (e : Err)
    (h : markAllocated name allocs recs = .error e) : e.fromStore = false := by
  induction recs generalizing allocs with
  | nil => simp [markAllocated] at h
  | cons r rest ih =>
    simp only [markAllocated] at h
    cases hr : MultiIPAllocator.AllocateIP allocs (ParseIP r.IPAddress) with
    | error e1 => rw [hr] at h; cases h; rfl
    | ok al1 => rw [hr] at h; exact ih al1 h

theorem initIPAllocators_not_store (ipPool : IPPool) (e : Err)
    (h : initIPAllocators ipPool = .error e) : e.fromStore = false := by
  unfold initIPAllocators at h
  cases hr : initRanges ipPool.Spec.IPRanges with
  | error e1 => rw [hr] at h; cases h; exact initRanges_not_store _ _ hr
  | ok als => rw [hr] at h; exact markAllocated_not_store _ _ _ _ h

theorem allocateIPLoop_not_store (ip : Option IP) (allocs : MultiIPAllocator) (i : Nat)
    (e : Err) (h : allocateIPLoop ip allocs i = .error e) : e.fromStore = false := by
  induction allocs generalizing i with
  | nil => simp [allocateIPLoop] at h
  | cons al rest ih =>
    simp only [allocateIPLoop] at h
    split_ifs at h
    · cases hal : al.AllocateIP ip with
      | error e1 =>
        rw [hal] at h; cases h
        exact SingleIPAllocator.AllocateIP_not_store _ _ _ hal
      | ok a1 => rw [hal] at h; cases h
    · exact ih _ h

theorem removePlan_not_store (ipPool : IPPool) (ip : Option IP) (e : Err)
    (h : removePlan ipPool ip = .error e) : e.fromStore = false := by
  unfold removePlan at h
  split_ifs at h
  cases h; rfl

theorem removePlan_derived (ipPool : IPPool) (ip : Option IP) (sub : IPPool)
    (h : removePlan ipPool ip = .ok (some sub)) : DerivedFrom ipPool sub := by
  unfold removePlan at h
  split_ifs at h
  cases h
  exact ⟨rfl, rfl, rfl, Or.inr ⟨ip, rfl⟩⟩

theorem withUsage_derived (ipPool : IPPool) (ip : Option IP) (state : IPAddressPhase)
    (owner : IPAddressOwner) : DerivedFrom ipPool (ipPool.withUsage ip state owner) :=
  ⟨rfl, rfl, rfl, Or.inl ⟨_, rfl⟩⟩

theorem AllocateIP_plan_not_store (a : IPPoolAllocator) (ip : Option IP)
    (state : IPAddressPhase) (owner : IPAddressOwner) (p : IPPool) (e : Err)
    (h : AllocateIP.plan a ip state owner p = .error e) : e.fromStore = false := by
  unfold AllocateIP.plan at h
  cases hi : initIPAllocators p with
  | error e1 => rw [hi] at h; cases h; exact initIPAllocators_not_store _ _ hi
  | ok als =>
    rw [hi] at h
    simp only [] at h
    cases hl : allocateIPLoop ip als 0 with
    | error e1 => rw [hl] at h; cases h; exact allocateIPLoop_not_store _ _ _ _ hl
    | ok o =>
      rw [hl] at h
      cases o with
      | none => cases h; rfl
      | some i => cases h

theorem AllocateIP_plan_derived (a : IPPoolAllocator) (ip : Option IP)
    (state : IPAddressPhase) (owner : IPAddressOwner) (p sub : IPPool)
    (h : AllocateIP.plan a ip state owner p = .ok (some sub)) : DerivedFrom p sub := by
  unfold AllocateIP.plan at h
  cases hi : initIPAllocators p with
  | error e1 => rw [hi] at h; cases h
  | ok als =>
    rw [hi] at h
    simp only [] at h
    cases hl : allocateIPLoop ip als 0 with
    | error e1 => rw [hl] at h; cases h
    | ok o =>
      rw [hl] at h
      cases o with
      | none => cases h
      | some i => cases h; exact withUsage_derived _ _ _ _

theorem AllocateNext_plan_not_store (a : IPPoolAllocator)
    (state : IPAddressPhase) (owner : IPAddressOwner) (p : IPPool) (e : Err)
    (h : AllocateNext.plan a state owner p = .error e) : e.fromStore = false := by
  unfold AllocateNext.plan at h
  cases hi : initIPAllocators p with
  | error e1 => rw [hi] at h; cases h; exact initIPAllocators_not_store _ _ hi
  | ok als =>
    rw [hi] at h
    simp only [] at h
    rcases hl : allocateNextLoop als 0 none with ⟨x, _ | i⟩
    · rw [hl] at h; cases h; rfl
    · rw [hl] at h; cases h

theorem AllocateNext_plan_derived (a : IPPoolAllocator)
    (state : IPAddressPhase) (owner : IPAddressOwner) (p sub : IPPool)
    (h : AllocateNext.plan a state owner p = .ok (some sub)) : DerivedFrom p sub := by
  unfold AllocateNext.plan at h
  cases hi : initIPAllocators p with
  | error e1 => rw [hi] at h; cases h
  | ok als =>
    rw [hi] at h
    simp only [] at h
    rcases hl : allocateNextLoop als 0 none with ⟨x, _ | i⟩
    · rw [hl] at h; cases h
    · rw [hl] at h; cases h; exact withUsage_derived _ _ _ _

theorem Release_plan_not_store (a : IPPoolAllocator) (ip : Option IP) (p : IPPool) (e : Err)
    (h : Release.plan a ip p = .error e) : e.fromStore = false := by
  unfold Release.plan at h
  cases hi : initIPAllocators p with
  | error e1 => rw [hi] at h; cases h; exact initIPAllocators_not_store _ _ hi
  | ok als =>
    rw [hi] at h
    simp only [] at h
    cases hl : MultiIPAllocator.Release als ip with
    | error e1 => rw [hl] at h; cases h; rfl
    | ok o => rw [hl] at h; exact removePlan_not_store _ _ _ h

theorem Release_plan_derived (a : IPPoolAllocator) (ip : Option IP) (p sub : IPPool)
    (h : Release.plan a ip p = .ok (some sub)) : DerivedFrom p sub := by
  unfold Release.plan at h
  cases hi : initIPAllocators p with
  | error e1 => rw [hi] at h; cases h
  | ok als =>
    rw [hi] at h
    simp only [] at h
    cases hl : MultiIPAllocator.Release als ip with
    | error e1 => rw [hl] at h; cases h
    | ok o => rw [hl] at h; exact removePlan_derived _ _ _ h

theorem ReleasePod_plan_not_store (a : IPPoolAllocator) (ns podName : String) (p : IPPool)
    (e : Err) (h : ReleasePod.plan a ns podName p = .error e) : e.fromStore = false := by
  unfold ReleasePod.plan at h
  cases hf : p.Status.IPAddresses.find? (ownedByPod ns podName) with
  | none => rw [hf] at h; cases h; rfl
  | some r => rw [hf] at h; exact removePlan_not_store _ _ _ h

theorem ReleasePod_plan_derived (a : IPPoolAllocator) (ns podName : String) (p sub : IPPool)
    (h : ReleasePod.plan a ns podName p = .ok (some sub)) : DerivedFrom p sub := by
  unfold ReleasePod.plan at h
  cases hf : p.Status.IPAddresses.find? (ownedByPod ns podName) with
  | none => rw [hf] at h; cases h
  | some r => rw [hf] at h; exact removePlan_derived _ _ _ h

theorem ReleaseContainerIfPresent_plan_not_store (containerID : String) (p : IPPool)
    (e : Err) (h : ReleaseContainerIfPresent.plan containerID p = .error e) :
    e.fromStore = false := by
  unfold ReleaseContainerIfPresent.plan at h
  cases hf : p.Status.IPAddresses.find? (ownedByContainer containerID) with
  | none => rw [hf] at h; cases h
  | some r => rw [hf] at h; exact removePlan_not_store _ _ _ h

theorem ReleaseContainerIfPresent_plan_derived (containerID : String) (p sub : IPPool)
    (h : ReleaseContainerIfPresent.plan containerID p = .ok (some sub)) :
    DerivedFrom p sub := by
  unfold ReleaseContainerIfPresent.plan at h
  cases hf : p.Status.IPAddresses.find? (ownedByContainer containerID) with
  | none => rw [hf] at h; cases h
  | some r => rw [hf] at h; exact removePlan_derived _ _ _ h

theorem removePoolUsage_plan (ipPool : IPPool) (ip : Option IP) (st : Store) :
    removePoolUsage ipPool ip st =
      match removePlan ipPool ip with
      | .error e => (some e, st)
      | .ok none => (none, st)
      | .ok (some newPool) => st.UpdateStatus newPool := by
  unfold removePoolUsage removePlan IPPool.withoutUsage
  simp only []
  split_ifs <;> rfl

theorem appendPoolUsage_withUsage (ipPool : IPPool) (ip : Option IP) (state : IPAddressPhase)
    (owner : IPAddressOwner) (st : Store) :
    appendPoolUsage ipPool ip state owner st = st.UpdateStatus (ipPool.withUsage ip state owner) :=
  rfl

theorem allocateNextLoop_start (allocs : MultiIPAllocator) (i : Nat) (ip ip0 : Option IP) :
    (allocateNextLoop allocs i ip).2 = (allocateNextLoop allocs i ip0).2
      ∧ ((allocateNextLoop allocs i ip).2 ≠ none →
          (allocateNextLoop allocs i ip).1 = (allocateNextLoop allocs i ip0).1) := by
  cases allocs with
  | nil => simp [allocateNextLoop]
  | cons al rest =>
    simp [allocateNextLoop]

theorem Release_attempt_cycle (a : IPPoolAllocator) (ip : Option IP) (st : Store) :
    Release.attempt a ip st = cycle (Release.plan a ip) st := by
  unfold Release.attempt cycle readPoolAndInitIPAllocators Release.plan
  rcases st.Get with ⟨_ | e, st1⟩
  · rename_i ipPool
    simp only []
    cases initIPAllocators ipPool with
    | error e => rfl
    | ok als =>
      simp only []
      cases MultiIPAllocator.Release als ip with
      | error e => rfl
      | ok o =>
        simp only []
        rw [removePoolUsage_plan]
  · rfl

theorem ReleasePod_attempt_cycle (a : IPPoolAllocator) (ns podName : String) (st : Store) :
    ReleasePod.attempt a ns podName st = cycle (ReleasePod.plan a ns podName) st := by
  unfold ReleasePod.attempt cycle ReleasePod.plan
  rcases st.Get with ⟨_ | e, st1⟩
  · rename_i ipPool
    simp only []
    cases ipPool.Status.IPAddresses.find? (ownedByPod ns podName) with
    | none => rfl
    | some r =>
      simp only []
      rw [removePoolUsage_plan]
  · rfl

theorem ReleaseContainerIfPresent_attempt_cycle (containerID : String) (st : Store) :
    ReleaseContainerIfPresent.attempt containerID st
      = cycle (ReleaseContainerIfPresent.plan containerID) st := by
  unfold ReleaseContainerIfPresent.attempt cycle ReleaseContainerIfPresent.plan
  rcases st.Get with ⟨_ | e, st1⟩
  · rename_i ipPool
    simp only []
    cases ipPool.Status.IPAddresses.find? (ownedByContainer containerID) with
    | none => rfl
    | some r =>
      simp only []
      rw [removePoolUsage_plan]
  · rfl

theorem AllocateIP_attempt_cycle (a : IPPoolAllocator) (ip : Option IP)
    (state : IPAddressPhase) (owner : IPAddressOwner) (s : SubnetInfo × Store) :
    (AllocateIP.attempt a ip state owner s).1 = (cycle (AllocateIP.plan a ip state owner) s.2).1
      ∧ (AllocateIP.attempt a ip state owner s).2.2
          = (cycle (AllocateIP.plan a ip state owner) s.2).2 := by
  obtain ⟨sn, st⟩ := s
  unfold AllocateIP.attempt cycle readPoolAndInitIPAllocators AllocateIP.plan
  simp only []
  rcases st.Get with ⟨_ | e, st1⟩
  · rename_i ipPool
    simp only []
    cases initIPAllocators ipPool with
    | error e => exact ⟨rfl, rfl⟩
    | ok als =>
      simp only []
      cases allocateIPLoop ip als 0 with
      | error e => exact ⟨rfl, rfl⟩
      | ok o =>
        cases o with
        | none => exact ⟨rfl, rfl⟩
        | some i =>
          simp [appendPoolUsage_withUsage]
  · exact ⟨rfl, rfl⟩

theorem AllocateNext_attempt_cycle (a : IPPoolAllocator)
    (state : IPAddressPhase) (owner : IPAddressOwner) (s : Option IP × SubnetInfo × Store) :
    (AllocateNext.attempt a state owner s).1 = (cycle (AllocateNext.plan a state owner) s.2.2).1
      ∧ (AllocateNext.attempt a state owner s).2.2.2
          = (cycle (AllocateNext.plan a state owner) s.2.2).2 := by
  obtain ⟨ip, sn, st⟩ := s
  unfold AllocateNext.attempt cycle readPoolAndInitIPAllocators AllocateNext.plan
  simp only []
  rcases st.Get with ⟨_ | e, st1⟩
  · rename_i ipPool
    simp only []
    cases initIPAllocators ipPool with
    | error e => exact ⟨rfl, rfl⟩
    | ok als =>
      simp only []
      obtain ⟨h1, h2⟩ := allocateNextLoop_start als 0 ip none
      rcases hl : allocateNextLoop als 0 ip with ⟨x, _ | i⟩
      · rw [hl] at h1
        rcases hl0 : allocateNextLoop als 0 none with ⟨y, _ | j⟩
        · exact ⟨rfl, rfl⟩
        · rw [hl0] at h1; cases h1
      · rw [hl] at h1 h2
        rcases hl0 : allocateNextLoop als 0 none with ⟨y, _ | j⟩
        · rw [hl0] at h1; cases h1
        · rw [hl0] at h2
          have hxy : x = y := h2 (by simp)
          subst hxy
          simp [appendPoolUsage_withUsage]
  · exact ⟨rfl, rfl⟩

/-- A retried function that acts on the store as `g` does, whatever else it keeps
in its state, makes the retry loop act on the store as it does over `g`. -/
theorem RetryOnConflict_project {σ : Type} (π : σ → Store) (fn : σ → Option Err × σ)
    (g : Store → Option Err × Store)
    (h : ∀ s, (fn s).1 = (g (π s)).1 ∧ π (fn s).2 = (g (π s)).2)
    (n : Nat) (l : Option Err) (s : σ) :
    (RetryOnConflict n fn l s).1 = (RetryOnConflict n g l (π s)).1
      ∧ π (RetryOnConflict n fn l s).2 = (RetryOnConflict n g l (π s)).2 := by
  induction n generalizing l s with
  | zero => exact ⟨rfl, rfl⟩
  | succ m ih =>
    obtain ⟨h1, h2⟩ := h s
    simp only [RetryOnConflict]
    rcases hf : fn s with ⟨_ | e, s1⟩
    · rw [hf] at h1 h2
      rcases hg : g (π s) with ⟨_ | e2, t1⟩
      · rw [hg] at h2
        exact ⟨rfl, h2⟩
      · rw [hg] at h1; cases h1
    · rw [hf] at h1 h2
      rcases hg : g (π s) with ⟨_ | e2, t1⟩
      · rw [hg] at h1; cases h1
      · rw [hg] at h1 h2
        simp only [Option.some.injEq] at h1
        subst h1
        simp only [] at h2
        subst h2
        simp only []
        split_ifs
        · exact ih (some e) s1
        · exact ⟨rfl, rfl⟩

theorem Store.env_congr (s t : Store) (hp : s.pool = t.pool) (hf : s.faults = t.faults) :
    s.env.2.pool = t.env.2.pool ∧ s.env.2.faults = t.env.2.faults ∧ s.env.1 = t.env.1 := by
  obtain ⟨sp, sf, sl⟩ := s
  obtain ⟨tp, tf, tl⟩ := t
  simp only [] at hp hf
  subst hp hf
  unfold Store.env
  simp only []
  split <;> simp

theorem Store.drift_congr (k : Nat) (s t : Store) (hp : s.pool = t.pool)
    (hf : s.faults = t.faults) :
    (s.drift k).pool = (t.drift k).pool ∧ (s.drift k).faults = (t.drift k).faults := by
  induction k generalizing s t with
  | zero => exact ⟨hp, hf⟩
  | succ m ih =>
    obtain ⟨h1, h2, _⟩ := Store.env_congr s t hp hf
    exact ih _ _ h1 h2

theorem Store.drift_add (a b : Nat) (s : Store) : (s.drift a).drift b = s.drift (a + b) := by
  induction a generalizing s with
  | zero => simp [Store.drift]
  | succ m ih =>
    have : m + 1 + b = (m + b) + 1 := by omega
    rw [this]
    simp only [Store.drift]
    exact ih _

theorem Store.Get_drift (st : Store) :
    (st.Get).2.pool = (st.drift 1).pool ∧ (st.Get).2.faults = (st.drift 1).faults := by
  unfold Store.Get
  simp only [Store.drift]
  rcases st.env with ⟨_ | _, st1⟩ <;> exact ⟨rfl, rfl⟩

theorem Store.UpdateStatus_drift (st : Store) (newPool : IPPool)
    (h : (st.UpdateStatus newPool).1 ≠ none) :
    (st.UpdateStatus newPool).2.pool = (st.drift 1).pool
      ∧ (st.UpdateStatus newPool).2.faults = (st.drift 1).faults := by
  unfold Store.UpdateStatus at h ⊢
  simp only [Store.drift]
  rcases henv : st.env with ⟨_ | _, st1⟩
  · exact ⟨rfl, rfl⟩
  · rw [henv] at h
    simp only [] at h ⊢
    split_ifs at h ⊢
    · exact absurd rfl h
    · exact ⟨rfl, rfl⟩

theorem cycle_conflict_drift (plan : IPPool → Res (Option IPPool))
    (hplan : ∀ p e, plan p = .error e → e.fromStore = false) (st : Store)
    (h : (cycle plan st).1 = some .conflict) :
    (cycle plan st).2.pool = (st.drift 2).pool
      ∧ (cycle plan st).2.faults = (st.drift 2).faults := by
  unfold cycle at h ⊢
  obtain ⟨_, hres⟩ := st.Get_log
  obtain ⟨hgp, hgf⟩ := st.Get_drift
  rcases hget : st.Get with ⟨_ | e, st1⟩
  · rename_i ipPool
    rw [hget] at hgp hgf h
    simp only [] at hgp hgf h ⊢
    cases hp : plan ipPool with
    | error e =>
      rw [hp] at h
      simp only [Option.some.injEq] at h
      have := hplan _ _ hp
      rw [h] at this
      cases this
    | ok o =>
      rw [hp] at h
      cases o with
      | none => cases h
      | some newPool =>
        simp only [] at h ⊢
        have hne : (st1.UpdateStatus newPool).1 ≠ none := by rw [h]; simp
        obtain ⟨h1, h2⟩ := Store.UpdateStatus_drift st1 newPool hne
        obtain ⟨h3, h4⟩ := Store.drift_congr 1 st1 (st.drift 1) hgp hgf
        rw [Store.drift_add] at h3 h4
        exact ⟨h1.trans h3, h2.trans h4⟩
  · rw [hget] at hres h
    simp only [] at hres h
    rcases hres with hres | ⟨p, hres⟩
    · cases hres; cases h
    · cases hres

theorem retry_conflict_drift (plan : IPPool → Res (Option IPPool))
    (hplan : ∀ p e, plan p = .error e → e.fromStore = false) (n : Nat) (l : Option Err)
    (st : Store) (h : (RetryOnConflict n (cycle plan) l st).1 = some .conflict) :
    (RetryOnConflict n (cycle plan) l st).2.pool = (st.drift (2 * n)).pool
      ∧ (RetryOnConflict n (cycle plan) l st).2.faults = (st.drift (2 * n)).faults := by
  induction n generalizing l st with
  | zero => exact ⟨rfl, rfl⟩
  | succ m ih =>
    have hc := cycle_conflict_drift plan hplan st
    simp only [RetryOnConflict] at h ⊢
    rcases hcy : cycle plan st with ⟨_ | e, st1⟩
    · rw [hcy] at h; cases h
    · rw [hcy] at h hc
      simp only [] at h hc ⊢
      split_ifs at h ⊢ with hconf
      · have he : e = .conflict := by cases e <;> simp_all [Err.isConflict]
        subst he
        obtain ⟨h1, h2⟩ := hc rfl
        obtain ⟨h3, h4⟩ := ih (some .conflict) st1 h
        obtain ⟨h5, h6⟩ := Store.drift_congr (2 * m) st1 (st.drift 2) h1 h2
        rw [Store.drift_add] at h5 h6
        have : 2 + 2 * m = 2 * (m + 1) := by omega
        rw [this] at h5 h6
        exact ⟨h3.trans h5, h4.trans h6⟩
      · simp only [Option.some.injEq] at h
        subst h
        simp [Err.isConflict] at hconf

/-- The retry loop over a read-decide-write cycle follows the protocol. -/
theorem retry_protocol (plan : IPPool → Res (Option IPPool))
    (hplan : ∀ p e, plan p = .error e → e.fromStore = false)
    (hder : ∀ p sub, plan p = .ok (some sub) → DerivedFrom p sub)
    (st0 : Store) (lead : List StoreCall) (st : Store) (hlog : st.log = st0.log ++ lead)
    (hpool : st.pool = (st0.drift lead.length).pool)
    (hfaults : st.faults = (st0.drift lead.length).faults) :
    RetryProtocol st0 lead (RetryOnConflict DefaultRetrySteps (cycle plan) none st).1
      (RetryOnConflict DefaultRetrySteps (cycle plan) none st).2 := by
  obtain ⟨attempts, htrace, hl⟩ := retry_trace plan hplan DefaultRetrySteps none st
  refine ⟨attempts, by rw [hl, hlog], htrace.length_le, htrace.attemptCalls hder,
    htrace.dropLast_conflict, RetryTrace.last_conflict htrace, RetryTrace.conflict_iff htrace,
    ?_⟩
  intro herr
  obtain ⟨h1, _⟩ := retry_conflict_drift plan hplan DefaultRetrySteps none st herr
  obtain ⟨h2, _⟩ := Store.drift_congr (2 * DefaultRetrySteps) st _ hpool hfaults
  rw [Store.drift_add] at h2
  exact h1.trans h2

theorem AllocateIP_retry (a : IPPoolAllocator) (ip : Option IP) (state : IPAddressPhase)
    (owner : IPAddressOwner) (st : Store) :
    (AllocateIP a ip state owner st).1.2
        = (RetryOnConflict DefaultRetrySteps (cycle (AllocateIP.plan a ip state owner)) none st).1
      ∧ (AllocateIP a ip state owner st).2
        = (RetryOnConflict DefaultRetrySteps (cycle (AllocateIP.plan a ip state owner))
            none st).2 := by
  obtain ⟨h1, h2⟩ := RetryOnConflict_project Prod.snd (AllocateIP.attempt a ip state owner)
    (cycle (AllocateIP.plan a ip state owner)) (AllocateIP_attempt_cycle a ip state owner)
    DefaultRetrySteps none (default, st)
  unfold AllocateIP
  rcases hr : RetryOnConflict DefaultRetrySteps (AllocateIP.attempt a ip state owner) none
    (default, st) with ⟨err, sn, st1⟩
  rw [hr] at h1 h2
  exact ⟨h1, h2⟩

theorem Release_retry (a : IPPoolAllocator) (ip : Option IP) (st : Store) :
    Release a ip st = RetryOnConflict DefaultRetrySteps (cycle (Release.plan a ip)) none st := by
  have : Release.attempt a ip = cycle (Release.plan a ip) :=
    funext (Release_attempt_cycle a ip)
  unfold Release
  rw [this]

theorem ReleasePod_retry (a : IPPoolAllocator) (ns podName : String) (st : Store) :
    ReleasePod a ns podName st
      = RetryOnConflict DefaultRetrySteps (cycle (ReleasePod.plan a ns podName)) none st := by
  have : ReleasePod.attempt a ns podName = cycle (ReleasePod.plan a ns podName) :=
    funext (ReleasePod_attempt_cycle a ns podName)
  unfold ReleasePod
  rw [this]

theorem ReleaseContainerIfPresent_retry (containerID : String) (st : Store) :
    ReleaseContainerIfPresent containerID st
      = RetryOnConflict DefaultRetrySteps (cycle (ReleaseContainerIfPresent.plan containerID))
          none st := by
  have : ReleaseContainerIfPresent.attempt containerID
      = cycle (ReleaseContainerIfPresent.plan containerID) :=
    funext (ReleaseContainerIfPresent_attempt_cycle containerID)
  unfold ReleaseContainerIfPresent
  rw [this]

/-- The four ways a call of `AllocateNext` goes: a panic before any store call; the
read of the owner check fails; the owner check finds a record of the container; or
the retry loop runs from the store the owner check left. -/
theorem AllocateNext_shape (a : IPPoolAllocator) (state : IPAddressPhase)
    (owner : IPAddressOwner) (st : Store) :
    (owner.Pod = none ∧ (AllocateNext a state owner st).1.2.2 = some .nilPointerPanic
        ∧ (AllocateNext a state owner st).2 = st)
      ∨ (owner.Pod ≠ none ∧ (st.Get).1 = .error .storeUnavailable
        ∧ (AllocateNext a state owner st).1.2.2 = some .storeUnavailable
        ∧ (AllocateNext a state owner st).2 = (st.Get).2)
      ∨ (owner.Pod ≠ none ∧ (∃ ipPool, (st.Get).1 = .ok ipPool)
        ∧ (∃ c, (AllocateNext a state owner st).1.2.2
            = some (.containerAlreadyAllocated c a.ipPoolName))
        ∧ (AllocateNext a state owner st).2 = (st.Get).2)
      ∨ (owner.Pod ≠ none ∧ (∃ ipPool, (st.Get).1 = .ok ipPool)
        ∧ (AllocateNext a state owner st).1.2.2
            = (RetryOnConflict DefaultRetrySteps (cycle (AllocateNext.plan a state owner))
                none (st.Get).2).1
        ∧ (AllocateNext a state owner st).2
            = (RetryOnConflict DefaultRetrySteps (cycle (AllocateNext.plan a state owner))
                none (st.Get).2).2) := by
  unfold AllocateNext
  cases hpod : owner.Pod with
  | none => exact Or.inl ⟨rfl, rfl, rfl⟩
  | some pod =>
    simp only []
    unfold HasContainer
    obtain ⟨_, hres⟩ := st.Get_log
    rcases hget : st.Get with ⟨_ | e, st1⟩
    · rename_i ipPool
      simp only []
      cases hany : ipPool.Status.IPAddresses.any (ownedByContainer pod.ContainerID) with
      | true => exact Or.inr (Or.inr (Or.inl ⟨by simp, ⟨_, rfl⟩, ⟨_, rfl⟩, rfl⟩))
      | false =>
        simp only []
        obtain ⟨h1, h2⟩ := RetryOnConflict_project (fun s => s.2.2)
          (AllocateNext.attempt a state owner) (cycle (AllocateNext.plan a state owner))
          (AllocateNext_attempt_cycle a state owner) DefaultRetrySteps none (none, default, st1)
        rcases hr : RetryOnConflict DefaultRetrySteps (AllocateNext.attempt a state owner) none
          (none, default, st1) with ⟨err, x, sn, st2⟩
        rw [hr] at h1 h2
        exact Or.inr (Or.inr (Or.inr ⟨by simp, ⟨_, rfl⟩, h1, h2⟩))
    · rw [hget] at hres
      simp only [] at hres
      rcases hres with hres | ⟨p, hres⟩
      · cases hres
        exact Or.inr (Or.inl ⟨by simp, rfl, rfl, rfl⟩)
      · cases hres

theorem RetryProtocol_no_attempt (st : Store) (lead : List StoreCall) (err : Option Err)
    (st1 : Store) (hlog : st1.log = st.log ++ lead) (herr : err ≠ some .conflict) :
    RetryProtocol st lead err st1 := by
  refine ⟨[], by simp [hlog], by simp, by simp, by simp, by simp, ?_,
    fun h => absurd h herr⟩
  constructor
  · intro h; exact absurd h herr
  · rintro ⟨h, _⟩
    simp [DefaultRetrySteps] at h

/-- C13: in every mutating operation (`AllocateIP`, `Release`, `ReleasePod`,
`ReleaseContainerIfPresent`, and `AllocateNext` after the single read of its owner
check), whatever the store and its environment do: each attempt starts with a fresh
read of the pool, and a status it writes is derived from the pool read in that same
attempt; an attempt is followed by another one exactly when its write was rejected
with a version conflict and fewer than `DefaultRetrySteps` attempts were made; and
the operation returns a conflict error exactly when every one of the
`DefaultRetrySteps` attempts had its write rejected, the stored pool then being what
the writes of the other agents made it. -/
theorem conflict_restarts_cycle (a : IPPoolAllocator) (ip : Option IP)
    (state : IPAddressPhase) (owner : IPAddressOwner) (ns podName containerID : String)
    (st : Store) :
    RetryProtocol st [] (AllocateIP a ip state owner st).1.2 (AllocateIP a ip state owner st).2
      ∧ RetryProtocol st [] (Release a ip st).1 (Release a ip st).2
      ∧ RetryProtocol st [] (ReleasePod a ns podName st).1 (ReleasePod a ns podName st).2
      ∧ RetryProtocol st [] (ReleaseContainerIfPresent containerID st).1
          (ReleaseContainerIfPresent containerID st).2
      ∧ ∃ lead, lead.length ≤ 1 ∧ (∀ c ∈ lead, ∃ r, c = .get r)
          ∧ RetryProtocol st lead (AllocateNext a state owner st).1.2.2
              (AllocateNext a state owner st).2 := by
  refine ⟨?_, ?_, ?_, ?_, ?_⟩
  · obtain ⟨h1, h2⟩ := AllocateIP_retry a ip state owner st
    rw [h1, h2]
    exact retry_protocol _ (AllocateIP_plan_not_store a ip state owner)
      (AllocateIP_plan_derived a ip state owner) st [] st (by simp) rfl rfl
  · rw [Release_retry]
    exact retry_protocol _ (Release_plan_not_store a ip) (Release_plan_derived a ip)
      st [] st (by simp) rfl rfl
  · rw [ReleasePod_retry]
    exact retry_protocol _ (ReleasePod_plan_not_store a ns podName)
      (ReleasePod_plan_derived a ns podName) st [] st (by simp) rfl rfl
  · rw [ReleaseContainerIfPresent_retry]
    exact retry_protocol _ (ReleaseContainerIfPresent_plan_not_store containerID)
      (ReleaseContainerIfPresent_plan_derived containerID) st [] st (by simp) rfl rfl
  · obtain ⟨hlog, _⟩ := st.Get_log
    obtain ⟨hgp, hgf⟩ := st.Get_drift
    rcases AllocateNext_shape a state owner st with ⟨_, h1, h2⟩ | ⟨_, _, h1, h2⟩ |
      ⟨_, _, ⟨c, h1⟩, h2⟩ | ⟨_, _, h1, h2⟩
    · refine ⟨[], by simp, by simp, ?_⟩
      rw [h1, h2]
      exact RetryProtocol_no_attempt _ _ _ _ (by simp) (by simp)
    · refine ⟨[.get (st.Get).1], by simp, by simp, ?_⟩
      rw [h1, h2]
      exact RetryProtocol_no_attempt _ _ _ _ hlog (by simp)
    · refine ⟨[.get (st.Get).1], by simp, by simp, ?_⟩
      rw [h1, h2]
      exact RetryProtocol_no_attempt _ _ _ _ hlog (by simp)
    · refine ⟨[.get (st.Get).1], by simp, by simp, ?_⟩
      rw [h1, h2]
      exact retry_protocol _ (AllocateNext_plan_not_store a state owner)
        (AllocateNext_plan_derived a state owner) st [.get (st.Get).1] (st.Get).2 hlog hgp hgf

/-- On the contended store every one of the five attempts of `AllocateIP` reads the
pool and has its write rejected: the call returns the conflict error after ten store
calls, and the stored status is the one the other agent wrote. -/
theorem AllocateIP_contended_example :
    (AllocateIP poolAllocator (some (ipv4 10 0 0 6)) .Allocated (podOwner "b" "c2")
        contendedStore).1.2 = some .conflict
      ∧ (AllocateIP poolAllocator (some (ipv4 10 0 0 6)) .Allocated (podOwner "b" "c2")
        contendedStore).2.log.length = 10
      ∧ (AllocateIP poolAllocator (some (ipv4 10 0 0 6)) .Allocated (podOwner "b" "c2")
        contendedStore).2.pool.Status = ⟨[]⟩ := by
  decide

theorem retry_read_unavailable (plan : IPPool → Res (Option IPPool)) (n : Nat) (st : Store)
    (h : (st.Get).1 = .error .storeUnavailable) :
    RetryOnConflict (n + 1) (cycle plan) none st = (some .storeUnavailable, (st.Get).2) := by
  have hc : cycle plan st = (some .storeUnavailable, (st.Get).2) := by
    unfold cycle
    rcases hget : st.Get with ⟨_ | e, st1⟩
    · rw [hget] at h; cases h
    · rw [hget] at h; cases h; rfl
  exact RetryOnConflict_error _ _ _ _ _ _ hc rfl

/-- The retry loop over a read-decide-write cycle does not retry a store error other
than a conflict. -/
theorem retry_surfaces_unavailable (plan : IPPool → Res (Option IPPool))
    (hplan : ∀ p e, plan p = .error e → e.fromStore = false) (st : Store) :
    SurfacesUnavailable st (RetryOnConflict DefaultRetrySteps (cycle plan) none st).1
      (RetryOnConflict DefaultRetrySteps (cycle plan) none st).2 := by
  constructor
  · intro h
    unfold DefaultRetrySteps
    rw [retry_read_unavailable plan 4 st h]
    exact ⟨rfl, rfl⟩
  · obtain ⟨attempts, htrace, hl⟩ := retry_trace plan hplan DefaultRetrySteps none st
    exact ⟨attempts.flatten, hl, htrace.unavailable.1, htrace.unavailable.2⟩

/-- On the flaky store the read of the first attempt fails and every later call
would be served, yet `AllocateIP` of the free address `10.0.0.6`, `Release` of the
recorded address `10.0.0.5` and `ReleasePod` of its owner each return the store
error after that single read, while the same call made next succeeds. -/
theorem store_unavailable_retry_counterexample :
    ((AllocateIP poolAllocator (some (ipv4 10 0 0 6)) .Allocated (podOwner "b" "c2")
        flakyStore).1.2 = some .storeUnavailable
      ∧ (AllocateIP poolAllocator (some (ipv4 10 0 0 6)) .Allocated (podOwner "b" "c2")
        flakyStore).2.log = [.get (.error .storeUnavailable)]
      ∧ (AllocateIP poolAllocator (some (ipv4 10 0 0 6)) .Allocated (podOwner "b" "c2")
          (AllocateIP poolAllocator (some (ipv4 10 0 0 6)) .Allocated (podOwner "b" "c2")
            flakyStore).2).1.2 = none)
    ∧ ((Release poolAllocator (some (ipv4 10 0 0 5)) flakyStore).1 = some .storeUnavailable
      ∧ (Release poolAllocator (some (ipv4 10 0 0 5)) flakyStore).2.log
          = [.get (.error .storeUnavailable)]
      ∧ (Release poolAllocator (some (ipv4 10 0 0 5))
          (Release poolAllocator (some (ipv4 10 0 0 5)) flakyStore).2).1 = none)
    ∧ ((ReleasePod poolAllocator "default" "a" flakyStore).1 = some .storeUnavailable
      ∧ (ReleasePod poolAllocator "default" "a" flakyStore).2.log
          = [.get (.error .storeUnavailable)]
      ∧ (ReleasePod poolAllocator "default" "a"
          (ReleasePod poolAllocator "default" "a" flakyStore).2).1 = none) := by
  decide

/-- C14 (amended): a store error other than a version conflict is not retried. For
every mutating operation (`AllocateNext` for an owner with a Pod), whatever the
store and its environment do: when the first read of the pool fails with
StoreUnavailable the operation returns that error and makes no further call; and
any store call, read or status write, that fails with StoreUnavailable is the last
call of the operation, which returns that error. -/
theorem store_unavailable_surfaced (a : IPPoolAllocator) (ip : Option IP)
    (state : IPAddressPhase) (owner nextOwner : IPAddressOwner) (pod : PodOwner)
    (ns podName containerID : String) (st : Store) (hpod : nextOwner.Pod = some pod) :
    SurfacesUnavailable st (AllocateIP a ip state owner st).1.2
        (AllocateIP a ip state owner st).2
      ∧ SurfacesUnavailable st (Release a ip st).1 (Release a ip st).2
      ∧ SurfacesUnavailable st (ReleasePod a ns podName st).1 (ReleasePod a ns podName st).2
      ∧ SurfacesUnavailable st (ReleaseContainerIfPresent containerID st).1
          (ReleaseContainerIfPresent containerID st).2
      ∧ SurfacesUnavailable st (AllocateNext a state nextOwner st).1.2.2
          (AllocateNext a state nextOwner st).2 := by
  refine ⟨?_, ?_, ?_, ?_, ?_⟩
  · obtain ⟨h1, h2⟩ := AllocateIP_retry a ip state owner st
    rw [h1, h2]
    exact retry_surfaces_unavailable _ (AllocateIP_plan_not_store a ip state owner) st
  · rw [Release_retry]
    exact retry_surfaces_unavailable _ (Release_plan_not_store a ip) st
  · rw [ReleasePod_retry]
    exact retry_surfaces_unavailable _ (ReleasePod_plan_not_store a ns podName) st
  · rw [ReleaseContainerIfPresent_retry]
    exact retry_surfaces_unavailable _ (ReleaseContainerIfPresent_plan_not_store containerID) st
  · obtain ⟨hlog, _⟩ := st.Get_log
    rcases AllocateNext_shape a state nextOwner st with ⟨h0, _, _⟩ | ⟨_, hg, h1, h2⟩ |
      ⟨_, ⟨p, hg⟩, ⟨c, h1⟩, h2⟩ | ⟨_, ⟨p, hg⟩, h1, h2⟩
    · rw [hpod] at h0; cases h0
    · rw [h1, h2]
      refine ⟨fun _ => ⟨rfl, rfl⟩, [.get (st.Get).1], hlog, by simp, fun _ _ _ => rfl⟩
    · rw [h1, h2]
      refine ⟨fun h => ?_, [.get (st.Get).1], hlog, by simp, ?_⟩
      · rw [hg] at h; cases h
      · intro c1 hc hu
        simp only [List.getLast?_singleton, Option.some.injEq] at hc
        subst hc
        rw [hg] at hu
        simp [StoreCall.unavailable] at hu
    · rw [h1, h2]
      obtain ⟨_, calls, hl, hd, hlast⟩ := retry_surfaces_unavailable _
        (AllocateNext_plan_not_store a state nextOwner) (st.Get).2
      refine ⟨fun h => ?_, .get (st.Get).1 :: calls, ?_, ?_, ?_⟩
      · rw [hg] at h; cases h
      · rw [hl, hlog]; simp
      · intro c1 hc
        cases calls with
        | nil => simp at hc
        | cons c2 rest =>
          rw [List.dropLast_cons_of_ne_nil (by simp)] at hc
          rcases List.mem_cons.1 hc with rfl | hc
          · rw [hg]; rfl
          · exact hd c1 hc
      · intro c1 hc hu
        cases calls with
        | nil =>
          simp only [List.getLast?_singleton, Option.some.injEq] at hc
          subst hc
          rw [hg] at hu
          simp [StoreCall.unavailable] at hu
        | cons c2 rest =>
          rw [List.getLast?_cons_cons] at hc
          exact hlast c1 hc hu

theorem store_unavailable_surfaced_witness :
    SurfacesUnavailable flakyStore
        (AllocateIP poolAllocator (some (ipv4 10 0 0 6)) .Allocated (podOwner "b" "c2")
          flakyStore).1.2
        (AllocateIP poolAllocator (some (ipv4 10 0 0 6)) .Allocated (podOwner "b" "c2")
          flakyStore).2
      ∧ SurfacesUnavailable flakyStore (Release poolAllocator (some (ipv4 10 0 0 5)) flakyStore).1
          (Release poolAllocator (some (ipv4 10 0 0 5)) flakyStore).2
      ∧ SurfacesUnavailable flakyStore (ReleasePod poolAllocator "default" "a" flakyStore).1
          (ReleasePod poolAllocator "default" "a" flakyStore).2
      ∧ SurfacesUnavailable flakyStore (ReleaseContainerIfPresent "c1" flakyStore).1
          (ReleaseContainerIfPresent "c1" flakyStore).2
      ∧ SurfacesUnavailable flakyStore
          (AllocateNext poolAllocator .Allocated (podOwner "b" "c2") flakyStore).1.2.2
          (AllocateNext poolAllocator .Allocated (podOwner "b" "c2") flakyStore).2 :=
  store_unavailable_surfaced poolAllocator (some (ipv4 10 0 0 6)) .Allocated
    (podOwner "b" "c2") (podOwner "b" "c2") ⟨"b", "default", "c2"⟩ "default" "a" "c1"
    flakyStore rfl

/-! ## AllocateNext under any store behaviour: the address, the range order -/

theorem Store.env_spec (st : Store) : st.env.2.pool.Spec = st.pool.Spec := by
  unfold Store.env
  split <;> rfl

theorem Store.Get_spec (st : Store) : (st.Get).2.pool.Spec = st.pool.Spec := by
  unfold Store.Get
  have := st.env_spec
  rcases henv : st.env with ⟨_ | _, st1⟩ <;> rw [henv] at this <;> exact this

theorem Store.UpdateStatus_spec (st : Store) (newPool : IPPool) :
    (st.UpdateStatus newPool).2.pool.Spec = st.pool.Spec := by
  unfold Store.UpdateStatus
  have := st.env_spec
  rcases henv : st.env with ⟨_ | _, st1⟩
  · rw [henv] at this; exact this
  · rw [henv] at this
    simp only [] at this ⊢
    split_ifs <;> exact this

theorem AllocateNext_attempt_spec (a : IPPoolAllocator) (state : IPAddressPhase)
    (owner : IPAddressOwner) (s : Option IP × SubnetInfo × Store) :
    (AllocateNext.attempt a state owner s).2.2.2.pool.Spec = s.2.2.pool.Spec := by
  obtain ⟨ip, sn, st⟩ := s
  have hg := st.Get_spec
  simp only [AllocateNext.attempt, readPoolAndInitIPAllocators]
  rcases hget : st.Get with ⟨_ | e, st1⟩
  · rename_i ipPool
    rw [hget] at hg
    simp only [] at hg ⊢
    cases initIPAllocators ipPool with
    | error e => exact hg
    | ok allocs =>
      simp only []
      rcases allocateNextLoop allocs 0 ip with ⟨ip1, _ | index⟩
      · exact hg
      · simp only [appendPoolUsage]
        rw [Store.UpdateStatus_spec]
        exact hg
  · rw [hget] at hg
    exact hg

/-- A retry loop that ends without error ends with an attempt that returned no
error, made from a state that keeps whatever every attempt keeps. -/
theorem RetryOnConflict_none_inv {σ : Type} (I : σ → Prop) (n : Nat)
    (fn : σ → Option Err × σ) (l : Option Err) (s s1 : σ) (hI : ∀ t, I t → I (fn t).2)
    (hs : I s) (h : RetryOnConflict n fn l s = (none, s1)) :
    (n = 0 ∧ l = none ∧ s1 = s) ∨ ∃ s0, I s0 ∧ fn s0 = (none, s1) := by
  induction n generalizing l s with
  | zero =>
    simp only [RetryOnConflict, Prod.mk.injEq] at h
    exact Or.inl ⟨rfl, h.1, h.2.symm⟩
  | succ m ih =>
    right
    simp only [RetryOnConflict] at h
    have hnext := hI s hs
    rcases hfn : fn s with ⟨_ | e, s2⟩
    · rw [hfn] at h
      simp only [Prod.mk.injEq, true_and] at h
      subst h
      exact ⟨s, hs, hfn⟩
    · rw [hfn] at h hnext
      simp only [] at h hnext
      split_ifs at h
      · rcases ih (some e) s2 hnext h with ⟨_, hl, _⟩ | h2
        · cases hl
        · exact h2
      · cases h

theorem AllocateNext_attempt_none (a : IPPoolAllocator) (state : IPAddressPhase)
    (owner : IPAddressOwner) (ip0 ip1 : Option IP) (sn sn1 : SubnetInfo) (st st1 : Store)
    (h : AllocateNext.attempt a state owner (ip0, sn, st) = (none, (ip1, sn1, st1))) :
    ∃ ipPool st0 allocs index, st.Get = (.ok ipPool, st0)
      ∧ initIPAllocators ipPool = .ok allocs
      ∧ allocateNextLoop allocs 0 ip0 = (ip1, some index)
      ∧ sn1 = (ipPool.Spec.IPRanges.getD index default).SubnetInfo
      ∧ st0.UpdateStatus (ipPool.withUsage ip1 state owner) = (none, st1) := by
  simp only [AllocateNext.attempt, readPoolAndInitIPAllocators] at h
  rcases hget : st.Get with ⟨_ | e, st0⟩
  · rename_i ipPool
    rw [hget] at h
    simp only [] at h
    cases hinit : initIPAllocators ipPool with
    | error e => rw [hinit] at h; simp at h
    | ok allocs =>
      rw [hinit] at h
      simp only [] at h
      rcases hloop : allocateNextLoop allocs 0 ip0 with ⟨ip2, _ | index⟩
      · rw [hloop] at h; simp at h
      · rw [hloop] at h
        simp only [Prod.mk.injEq] at h
        obtain ⟨h1, h2, h3, h4⟩ := h
        subst h2
        refine ⟨ipPool, st0, allocs, index, rfl, hinit, hloop, h3.symm, ?_⟩
        rw [← h1, ← h4]
        rfl
  · rw [hget] at h; simp at h

/-- What a successful call of `AllocateNext` did, whatever the store did before: its
last two store calls are the read of a pool and the accepted write of that pool with
the record of the returned address appended; the address is the next one of the
first range allocator, rebuilt from that pool, that is not exhausted. -/
theorem AllocateNext_success (a : IPPoolAllocator) (state : IPAddressPhase)
    (owner : IPAddressOwner) (st st1 : Store) (ip : Option IP) (subnetSpec : SubnetInfo)
    (hok : AllocateNext a state owner st = ((ip, subnetSpec, none), st1)) :
    ∃ (ipPool : IPPool) (calls : List StoreCall) (allocs : MultiIPAllocator) (index : Nat)
      (al al1 : SingleIPAllocator) (x : IP),
      st1.log = calls ++ [.get (.ok ipPool),
        .updateStatus (ipPool.withUsage (some x) state owner) none]
      ∧ ipPool.Spec = st.pool.Spec
      ∧ initIPAllocators ipPool = .ok allocs
      ∧ allocs[index]? = some al ∧ al.AllocateNext = .ok (x, al1)
      ∧ (∀ j al2, j < index → allocs[j]? = some al2 →
          al2.AllocateNext = .error .rangeExhausted)
      ∧ ip = some x
      ∧ subnetSpec = (ipPool.Spec.IPRanges.getD index default).SubnetInfo
      ∧ st1.pool.Status = (ipPool.withUsage (some x) state owner).Status := by
  unfold AllocateNext at hok
  cases hpod : owner.Pod with
  | none => rw [hpod] at hok; simp at hok
  | some pod =>
    rw [hpod] at hok
    simp only [HasContainer] at hok
    have hgs := st.Get_spec
    rcases hget : st.Get with ⟨_ | e, stA⟩
    · rename_i ipPool0
      rw [hget] at hok hgs
      simp only [] at hok hgs
      cases hany : ipPool0.Status.IPAddresses.any (ownedByContainer pod.ContainerID) with
      | true => rw [hany] at hok; simp at hok
      | false =>
        rw [hany] at hok
        simp only [] at hok
        rcases hretry : RetryOnConflict DefaultRetrySteps (AllocateNext.attempt a state owner)
            none (none, default, stA) with ⟨err, ip2, sn2, st2⟩
        rw [hretry] at hok
        simp only [Prod.mk.injEq] at hok
        obtain ⟨⟨h1, h2, h3⟩, h4⟩ := hok
        subst h1 h2 h3 h4
        rcases RetryOnConflict_none_inv (fun s => s.2.2.pool.Spec = st.pool.Spec) _ _ _ _ _
            (fun t ht => (AllocateNext_attempt_spec a state owner t).trans ht) hgs hretry
          with ⟨h0, _⟩ | ⟨⟨ip0, sn0, st0⟩, hspec, hatt⟩
        · cases h0
        · obtain ⟨ipPool, stg, allocs, index, hget1, hinit, hloop, hsn, hupd⟩ :=
            AllocateNext_attempt_none a state owner ip0 ip2 sn0 sn2 st0 st2 hatt
          obtain ⟨hpool, hlog0⟩ := Store.Get_ok _ _ _ hget1
          obtain ⟨hstatus, hlog1⟩ := Store.UpdateStatus_none _ _ _ hupd
          obtain ⟨j, al, x, al1, hj, hal, hnext, hx, hlow⟩ :=
            allocateNextLoop_found _ _ _ _ _ hloop
          have hidx : j = index := by omega
          subst hidx hx
          have hsp : ipPool.Spec = st.pool.Spec := by
            have := st0.Get_spec
            rw [hget1] at this
            simp only [] at this hspec
            rw [← hpool, this, hspec]
          refine ⟨ipPool, st0.log, allocs, j, al, al1, x, ?_, hsp, hinit, hal, hnext, hlow,
            rfl, hsn, hstatus⟩
          rw [hlog1, hlog0]
          simp
    · rw [hget] at hok
      simp at hok

/-- In a store without faults, the pool a successful `AllocateNext` read last is the
stored pool. -/
theorem AllocateNext_success_quiet (a : IPPoolAllocator) (state : IPAddressPhase)
    (owner : IPAddressOwner) (st st1 : Store) (ip : Option IP) (subnetSpec : SubnetInfo)
    (hq : st.faults = [])
    (hok : AllocateNext a state owner st = ((ip, subnetSpec, none), st1))
    (ipPool : IPPool) (calls : List StoreCall) (c : StoreCall)
    (hlog : st1.log = calls ++ [.get (.ok ipPool), c]) : ipPool = st.pool := by
  cases hpod : owner.Pod with
  | none => simp [AllocateNext, hpod] at hok
  | some pod =>
    rw [AllocateNext_quiet a state owner pod st hq hpod] at hok
    split_ifs at hok with hany
    · simp at hok
    · cases hinit : initIPAllocators st.pool with
      | error e => rw [hinit] at hok; simp at hok
      | ok allocs =>
        rw [hinit] at hok
        simp only [] at hok
        rcases hl : allocateNextLoop allocs 0 none with ⟨ip1, _ | index⟩
        · rw [hl] at hok; simp at hok
        · rw [hl] at hok
          simp only [Prod.mk.injEq] at hok
          obtain ⟨_, hst⟩ := hok
          rw [← hst] at hlog
          simp only [Store.afterUpdate, Store.afterGet, List.append_assoc,
            List.singleton_append] at hlog
          have hre : st.log ++ ([StoreCall.get (.ok st.pool), StoreCall.get (.ok st.pool)]
              ++ [StoreCall.updateStatus (st.pool.withUsage ip1 state owner) none])
              = (st.log ++ [StoreCall.get (.ok st.pool)]) ++ [StoreCall.get (.ok st.pool),
                  StoreCall.updateStatus (st.pool.withUsage ip1 state owner) none] := by
            simp
          rw [hre] at hlog
          have h2 := (List.append_inj' hlog (by simp)).2
          simp only [List.cons.injEq, StoreCall.get.injEq, Res.ok.injEq] at h2
          exact h2.1.symm

theorem disjointRanges_of_spec (p q : IPPool) (h : p.Spec = q.Spec) (hd : DisjointRanges q) :
    DisjointRanges p := by
  unfold DisjointRanges at hd ⊢
  rw [h]
  exact hd

/-- C1 (amended): for every pool whose ranges are pairwise disjoint, whenever
`AllocateNext` succeeds, whatever the store and the other agents did during the
call, its last two store calls are the read of a pool and the accepted write of
that pool with one record for the returned address appended (in a store without
faults the pool read is the stored pool); no record of the status it read there
holds the returned address, neither as its text nor as what its text parses to; and
the status it wrote, which is then the stored status, holds the address exactly
once. -/
theorem AllocateNext_returns_unrecorded_address (a : IPPoolAllocator)
    (state : IPAddressPhase) (owner : IPAddressOwner) (st st1 : Store) (ip : Option IP)
    (subnetSpec : SubnetInfo) (hd : DisjointRanges st.pool)
    (hok : AllocateNext a state owner st = ((ip, subnetSpec, none), st1)) :
    ∃ (ipPool : IPPool) (calls : List StoreCall) (x : IP),
      ip = some x
      ∧ st1.log = calls ++ [.get (.ok ipPool),
          .updateStatus (ipPool.withUsage (some x) state owner) none]
      ∧ (st.faults = [] → ipPool = st.pool)
      ∧ (∀ r ∈ ipPool.Status.IPAddresses,
          r.IPAddress ≠ IPString (some x) ∧ ParseIP r.IPAddress ≠ some x)
      ∧ st1.pool.Status.IPAddresses
          = ipPool.Status.IPAddresses ++ [⟨IPString (some x), state, owner⟩]
      ∧ List.countP (fun r => r.IPAddress = IPString (some x))
          st1.pool.Status.IPAddresses = 1 := by
  obtain ⟨ipPool, calls, allocs, index, al, al1, x, hlog, hsp, hinit, hal, hnext, _, hip, _,
    hstatus⟩ := AllocateNext_success a state owner st st1 ip subnetSpec hok
  obtain ⟨hhas, hfree, _, _⟩ := al.AllocateNext_ok al1 x hnext
  have hmem : al ∈ allocs := List.getElem?_mem hal
  have hfresh := fresh_of_disjoint ipPool allocs (disjointRanges_of_spec _ _ hsp hd) hinit al
    hmem x hhas hfree
  have htext : ∀ r ∈ ipPool.Status.IPAddresses, r.IPAddress ≠ IPString (some x) := by
    intro r hr heq
    exact hfresh r hr (by rw [heq]; rfl)
  have hst : st1.pool.Status.IPAddresses
      = ipPool.Status.IPAddresses ++ [⟨IPString (some x), state, owner⟩] := by
    rw [hstatus]; rfl
  refine ⟨ipPool, calls, x, hip, hlog, ?_, fun r hr => ⟨htext r hr, hfresh r hr⟩, hst, ?_⟩
  · intro hq
    exact AllocateNext_success_quiet a state owner st st1 ip subnetSpec hq hok ipPool calls _
      hlog
  · rw [hst, List.countP_append, List.countP_eq_zero.2 (by simpa using htext)]
    simp

/-- C1 (amended) at the pool with the disjoint ranges `10.0.0.5-10.0.0.5` (used up)
and `10.0.0.130-10.0.0.131`, in a store where another agent records `10.0.0.130`
between the first read and the first write: the first write is rejected, the second
attempt reads the new status and the call returns `10.0.0.131`. -/
theorem AllocateNext_returns_unrecorded_address_witness :
    ∃ (ipPool : IPPool) (calls : List StoreCall) (x : IP),
      some (ipv4 10 0 0 131) = some x
      ∧ (AllocateNext poolAllocator .Allocated (podOwner "b" "c2") racedStore).2.log
        = calls ++ [.get (.ok ipPool),
            .updateStatus (ipPool.withUsage (some x) .Allocated (podOwner "b" "c2")) none]
      ∧ (racedStore.faults = [] → ipPool = racedStore.pool)
      ∧ (∀ r ∈ ipPool.Status.IPAddresses,
          r.IPAddress ≠ IPString (some x) ∧ ParseIP r.IPAddress ≠ some x)
      ∧ (AllocateNext poolAllocator .Allocated (podOwner "b" "c2")
            racedStore).2.pool.Status.IPAddresses
          = ipPool.Status.IPAddresses ++ [⟨IPString (some x), .Allocated, podOwner "b" "c2"⟩]
      ∧ List.countP (fun r => r.IPAddress = IPString (some x))
          (AllocateNext poolAllocator .Allocated (podOwner "b" "c2")
            racedStore).2.pool.Status.IPAddresses = 1 :=
  AllocateNext_returns_unrecorded_address poolAllocator .Allocated (podOwner "b" "c2")
    racedStore _ (some (ipv4 10 0 0 131)) subnet25 (by decide) (by decide)

/-- On the raced store the call makes the read of the owner check and two attempts,
the first rejected with a conflict, and returns `10.0.0.131` of the second range. -/
theorem AllocateNext_raced_example :
    (AllocateNext poolAllocator .Allocated (podOwner "b" "c2") racedStore).1
        = (some (ipv4 10 0 0 131), subnet25, none)
      ∧ (AllocateNext poolAllocator .Allocated (podOwner "b" "c2") racedStore).2.log.length = 5
      ∧ (AllocateNext poolAllocator .Allocated (podOwner "b" "c2")
          racedStore).2.pool.Status.IPAddresses
        = [recordOf 5 "a" "c1", recordOf 130 "c" "c3",
            ⟨IPString (some (ipv4 10 0 0 131)), .Allocated, podOwner "b" "c2"⟩] := by
  decide

theorem initRanges_not_exhausted (rs : List SubnetIPRange) (e : Err) (name : String)
    (h : initRanges rs = .error e) : e ≠ .poolExhausted name := by
  induction rs with
  | nil => simp [initRanges] at h
  | cons r rest ih =>
    simp only [initRanges] at h
    cases hr : newRangeAllocator r with
    | error e1 =>
      rw [hr] at h
      cases h
      unfold newRangeAllocator at hr
      cases hc : r.CIDR with
      | empty =>
        rw [hc] at hr
        simp only [NewIPRangeAllocator] at hr
        split at hr
        · split_ifs at hr
          · cases hr; simp
        · cases hr; simp
      | text parsed =>
        rw [hc] at hr
        cases parsed with
        | none => cases hr; simp
        | some n => simp [NewCIDRAllocator] at hr
    | ok al =>
      rw [hr] at h
      cases hrest : initRanges rest with
      | error e2 => rw [hrest] at h; cases h; exact ih hrest
      | ok als => rw [hrest] at h; cases h

theorem markAllocated_not_exhausted (name : String) (recs : List IPAddressState)
    (allocs : MultiIPAllocator) (e : Err) (name1 : String)
    (h : markAllocated name allocs recs = .error e) : e ≠ .poolExhausted name1 := by
  induction recs generalizing allocs with
  | nil => simp [markAllocated] at h
  | cons r rest ih =>
    simp only [markAllocated] at h
    cases hr : MultiIPAllocator.AllocateIP allocs (ParseIP r.IPAddress) with
    | error e1 => rw [hr] at h; cases h; simp
    | ok al1 => rw [hr] at h; exact ih al1 h

theorem initIPAllocators_not_exhausted (ipPool : IPPool) (e : Err) (name : String)
    (h : initIPAllocators ipPool = .error e) : e ≠ .poolExhausted name := by
  unfold initIPAllocators at h
  cases hr : initRanges ipPool.Spec.IPRanges with
  | error e1 => rw [hr] at h; cases h; exact initRanges_not_exhausted _ _ _ hr
  | ok als => rw [hr] at h; exact markAllocated_not_exhausted _ _ _ _ _ h

/-- A retry loop that ends with an error other than a conflict ends with an attempt
that returned that error, made from a state that keeps whatever every attempt keeps. -/
theorem RetryOnConflict_some_inv {σ : Type} (I : σ → Prop) (n : Nat)
    (fn : σ → Option Err × σ) (l : Option Err) (s s1 : σ) (e : Err)
    (hI : ∀ t, I t → I (fn t).2) (hs : I s) (he : e.isConflict = false)
    (h : RetryOnConflict n fn l s = (some e, s1)) :
    (n = 0 ∧ l = some e ∧ s1 = s) ∨ ∃ s0, I s0 ∧ fn s0 = (some e, s1) := by
  induction n generalizing l s with
  | zero =>
    simp only [RetryOnConflict, Prod.mk.injEq] at h
    exact Or.inl ⟨rfl, h.1, h.2.symm⟩
  | succ m ih =>
    right
    simp only [RetryOnConflict] at h
    have hnext := hI s hs
    rcases hfn : fn s with ⟨_ | e2, s2⟩
    · rw [hfn] at h
      simp at h
    · rw [hfn] at h hnext
      simp only [] at h hnext
      split_ifs at h with hc
      · rcases ih (some e2) s2 hnext h with ⟨_, hl, _⟩ | h2
        · simp only [Option.some.injEq] at hl
          subst hl
          rw [hc] at he
          cases he
        · exact h2
      · simp only [Prod.mk.injEq, Option.some.injEq] at h
        obtain ⟨h1, h2⟩ := h
        subst h1 h2
        exact ⟨s, hs, hfn⟩

theorem AllocateNext_attempt_exhausted (a : IPPoolAllocator) (state : IPAddressPhase)
    (owner : IPAddressOwner) (ip0 ip1 : Option IP) (sn sn1 : SubnetInfo) (st st1 : Store)
    (name : String)
    (h : AllocateNext.attempt a state owner (ip0, sn, st)
      = (some (.poolExhausted name), (ip1, sn1, st1))) :
    ∃ ipPool allocs, st.Get = (.ok ipPool, st1)
      ∧ initIPAllocators ipPool = .ok allocs
      ∧ (allocateNextLoop allocs 0 ip0).2 = none := by
  simp only [AllocateNext.attempt, readPoolAndInitIPAllocators] at h
  obtain ⟨_, hres⟩ := st.Get_log
  rcases hget : st.Get with ⟨_ | e, st0⟩
  · rename_i ipPool
    rw [hget] at h
    simp only [] at h
    cases hinit : initIPAllocators ipPool with
    | error e =>
      rw [hinit] at h
      simp only [Prod.mk.injEq, Option.some.injEq] at h
      exact absurd h.1 (initIPAllocators_not_exhausted _ _ _ hinit)
    | ok allocs =>
      rw [hinit] at h
      simp only [] at h
      rcases hloop : allocateNextLoop allocs 0 ip0 with ⟨ip2, _ | index⟩
      · rw [hloop] at h
        simp only [Prod.mk.injEq] at h
        obtain ⟨_, _, _, h4⟩ := h
        subst h4
        exact ⟨ipPool, allocs, rfl, hinit, by rw [hloop]⟩
      · rw [hloop] at h
        simp only [appendPoolUsage, Prod.mk.injEq] at h
        obtain ⟨_, hu⟩ := Store.UpdateStatus_log st0
          { ipPool with Status := ⟨ipPool.Status.IPAddresses
              ++ [⟨IPString ip2, state, owner⟩]⟩ }
        rw [h.1] at hu
        simp at hu
  · rw [hget] at h hres
    simp only [Prod.mk.injEq, Option.some.injEq] at h hres
    rcases hres with hres | ⟨p, hres⟩
    · cases hres
      simp at h
    · cases hres

/-- What a call of `AllocateNext` that fails with the pool-exhausted error did,
whatever the store did before: its last store call is the read of a pool, still the
stored pool, whose rebuilt range allocators are all exhausted. -/
theorem AllocateNext_exhausted (a : IPPoolAllocator) (state : IPAddressPhase)
    (owner : IPAddressOwner) (st st1 : Store) (ip : Option IP) (subnetSpec : SubnetInfo)
    (name : String)
    (h : AllocateNext a state owner st = ((ip, subnetSpec, some (.poolExhausted name)), st1)) :
    ∃ (ipPool : IPPool) (calls : List StoreCall) (allocs : MultiIPAllocator),
      st1.log = calls ++ [.get (.ok ipPool)]
      ∧ st1.pool = ipPool
      ∧ initIPAllocators ipPool = .ok allocs
      ∧ ∀ al ∈ allocs, al.Exhausted := by
  unfold AllocateNext at h
  cases hpod : owner.Pod with
  | none => rw [hpod] at h; simp at h
  | some pod =>
    rw [hpod] at h
    simp only [HasContainer] at h
    obtain ⟨_, hres⟩ := st.Get_log
    rcases hget : st.Get with ⟨_ | e, stA⟩
    · rename_i ipPool0
      rw [hget] at h
      simp only [] at h
      cases hany : ipPool0.Status.IPAddresses.any (ownedByContainer pod.ContainerID) with
      | true => rw [hany] at h; simp at h
      | false =>
        rw [hany] at h
        simp only [] at h
        rcases hretry : RetryOnConflict DefaultRetrySteps (AllocateNext.attempt a state owner)
            none (none, default, stA) with ⟨err, ip2, sn2, st2⟩
        rw [hretry] at h
        simp only [Prod.mk.injEq] at h
        obtain ⟨⟨h1, h2, h3⟩, h4⟩ := h
        subst h1 h2 h3 h4
        rcases RetryOnConflict_some_inv (fun _ => True) _ _ _ _ _ (.poolExhausted name)
            (fun _ _ => trivial) trivial rfl hretry with ⟨h0, _⟩ | ⟨⟨ip0, sn0, st0⟩, _, hatt⟩
        · cases h0
        · obtain ⟨ipPool, allocs, hget1, hinit, hloop⟩ :=
            AllocateNext_attempt_exhausted a state owner ip0 ip2 sn0 sn2 st0 st2 name hatt
          obtain ⟨hpool, hlog0⟩ := Store.Get_ok _ _ _ hget1
          refine ⟨ipPool, st0.log, allocs, hlog0, hpool, hinit, ?_⟩
          intro al hal
          exact (al.exhausted_iff).2 ((allocateNextLoop_none_iff allocs 0 ip0).1 hloop al hal)
    · rw [hget] at h hres
      simp only [Prod.mk.injEq, Option.some.injEq] at h hres
      rcases hres with hres | ⟨p, hres⟩
      · cases hres
        simp at h
      · cases hres

/-- C8 (amended): `AllocateNext` tries the ranges in spec declaration order. Whenever
it succeeds, whatever the store and the other agents did during the call, its last
two store calls are the read of a pool and the accepted write of that pool with the
record of the returned address appended (in a store without faults the pool read is
the stored pool); the address returned is the lowest free, non-reserved address of
the first range allocator, rebuilt from that pool, that is not exhausted, and the
subnet returned is that of the range at the same index of the spec. Whenever it
fails with the pool-exhausted error, its last store call is the read of a pool all
of whose range allocators are exhausted. And for an owner that holds no allocation
in a pool whose status replays cleanly (store without faults), it fails with the
pool-exhausted error if and only if every range allocator is exhausted, and then it
submits no write. -/
theorem AllocateNext_range_order (a : IPPoolAllocator) (state : IPAddressPhase)
    (owner : IPAddressOwner) (st : Store) :
    (∀ (ip : Option IP) (subnetSpec : SubnetInfo) (st1 : Store),
        AllocateNext a state owner st = ((ip, subnetSpec, none), st1) →
        ∃ (ipPool : IPPool) (calls : List StoreCall) (allocators : MultiIPAllocator)
          (index : Nat) (al : SingleIPAllocator) (ipRange : SubnetIPRange) (x : IP),
          st1.log = calls ++ [.get (.ok ipPool),
            .updateStatus (ipPool.withUsage (some x) state owner) none]
          ∧ (st.faults = [] → ipPool = st.pool)
          ∧ initIPAllocators ipPool = .ok allocators
          ∧ allocators[index]? = some al
          ∧ ipPool.Spec.IPRanges[index]? = some ipRange
          ∧ (∀ (j : Nat) (al2 : SingleIPAllocator), j < index → allocators[j]? = some al2
              → al2.Exhausted)
          ∧ al.Has (some x) = true ∧ x ∉ al.allocated
          ∧ (∀ y, y < x → al.Has (some y) = true → y ∈ al.allocated)
          ∧ ip = some x ∧ subnetSpec = ipRange.SubnetInfo)
    ∧ (∀ (ip : Option IP) (subnetSpec : SubnetInfo) (st1 : Store),
        AllocateNext a state owner st
          = ((ip, subnetSpec, some (.poolExhausted a.ipPoolName)), st1) →
        ∃ (ipPool : IPPool) (calls : List StoreCall) (allocators : MultiIPAllocator),
          st1.log = calls ++ [.get (.ok ipPool)]
          ∧ st1.pool = ipPool
          ∧ initIPAllocators ipPool = .ok allocators
          ∧ ∀ al ∈ allocators, al.Exhausted)
    ∧ (∀ (pod : PodOwner) (allocators : MultiIPAllocator), st.faults = [] →
        owner.Pod = some pod →
        st.pool.Status.IPAddresses.any (ownedByContainer pod.ContainerID) = false →
        initIPAllocators st.pool = .ok allocators →
        ((AllocateNext a state owner st).1.2.2 = some (.poolExhausted a.ipPoolName)
            ↔ ∀ al ∈ allocators, al.Exhausted)
        ∧ ((AllocateNext a state owner st).1.2.2 = some (.poolExhausted a.ipPoolName) →
            (AllocateNext a state owner st).2.pool = st.pool
            ∧ (AllocateNext a state owner st).2.writes = st.writes)) := by
  refine ⟨?_, ?_, ?_⟩
  · intro ip subnetSpec st1 hok
    obtain ⟨ipPool, calls, allocs, index, al, al1, x, hlog, _, hinit, hal, hnext, hlow, hip,
      hsn, _⟩ := AllocateNext_success a state owner st st1 ip subnetSpec hok
    obtain ⟨hhas, hfree, _, hmin⟩ := al.AllocateNext_ok al1 x hnext
    have hlt : index < ipPool.Spec.IPRanges.length := by
      rw [← initIPAllocators_length ipPool allocs hinit]
      exact (List.getElem?_eq_some.1 hal).1
    have hr : ipPool.Spec.IPRanges[index]? = some ipPool.Spec.IPRanges[index] :=
      List.getElem?_eq_getElem hlt
    refine ⟨ipPool, calls, allocs, index, al, ipPool.Spec.IPRanges[index], x, hlog, ?_, hinit,
      hal, hr, ?_, hhas, hfree, hmin, hip, ?_⟩
    · intro hq
      exact AllocateNext_success_quiet a state owner st st1 ip subnetSpec hq hok ipPool calls
        _ hlog
    · intro k al2 hk hk2
      exact (al2.exhausted_iff).2 (hlow k al2 hk hk2)
    · rw [hsn, List.getD_eq_getElem?_getD, hr]
      rfl
  · intro ip subnetSpec st1 h
    exact AllocateNext_exhausted a state owner st st1 ip subnetSpec _ h
  · intro pod allocators hq hpod hown hclean
    rw [AllocateNext_quiet a state owner pod st hq hpod, hown, hclean]
    simp only [Bool.false_eq_true, if_false]
    rcases hl : allocateNextLoop allocators 0 none with ⟨ip1, _ | index⟩
    · have hall := (allocateNextLoop_none_iff allocators 0 none).1 (by rw [hl])
      simp only [true_iff, forall_true_left]
      refine ⟨?_, rfl, ?_⟩
      · intro al hal
        exact (al.exhausted_iff).2 (hall al hal)
      · simp [Store.afterGet_writes]
    · simp only [reduceCtorEq, false_iff, false_implies, and_true]
      obtain ⟨j, al, x, al1, hj, hal, hnext, hx, hlow⟩ := allocateNextLoop_found _ _ _ _ _ hl
      intro hall
      have := (al.exhausted_iff).1 (hall al (List.getElem?_mem hal))
      rw [hnext] at this
      cases this

/-- C8 (amended): first at the pool with the ranges `10.0.0.5-10.0.0.5` (used up) and
`10.0.0.130-10.0.0.131` of another subnet, in the store where another agent records
`10.0.0.130` during the first attempt: the call, asked by `c2`, returns
`10.0.0.131` and the subnet of the second range. Then at the pool whose two ranges
are both used up, asked by `c2`: the call fails with the pool-exhausted error, every
range allocator is exhausted, and nothing is written. -/
theorem AllocateNext_range_order_witness :
    (∃ (ipPool : IPPool) (calls : List StoreCall) (allocators : MultiIPAllocator)
        (index : Nat) (al : SingleIPAllocator) (ipRange : SubnetIPRange) (x : IP),
        (AllocateNext poolAllocator .Allocated (podOwner "b" "c2") racedStore).2.log
          = calls ++ [.get (.ok ipPool),
            .updateStatus (ipPool.withUsage (some x) .Allocated (podOwner "b" "c2")) none]
        ∧ (racedStore.faults = [] → ipPool = racedStore.pool)
        ∧ initIPAllocators ipPool = .ok allocators
        ∧ allocators[index]? = some al
        ∧ ipPool.Spec.IPRanges[index]? = some ipRange
        ∧ (∀ (j : Nat) (al2 : SingleIPAllocator), j < index → allocators[j]? = some al2
            → al2.Exhausted)
        ∧ al.Has (some x) = true ∧ x ∉ al.allocated
        ∧ (∀ y, y < x → al.Has (some y) = true → y ∈ al.allocated)
        ∧ some (ipv4 10 0 0 131) = some x ∧ subnet25 = ipRange.SubnetInfo)
    ∧ (∃ (ipPool : IPPool) (calls : List StoreCall) (allocators : MultiIPAllocator),
        (AllocateNext poolAllocator .Allocated (podOwner "b" "c2") exhaustedStore).2.log
          = calls ++ [.get (.ok ipPool)]
        ∧ (AllocateNext poolAllocator .Allocated (podOwner "b" "c2") exhaustedStore).2.pool
          = ipPool
        ∧ initIPAllocators ipPool = .ok allocators
        ∧ ∀ al ∈ allocators, al.Exhausted)
    ∧ (((AllocateNext poolAllocator .Allocated (podOwner "b" "c2") exhaustedStore).1.2.2
          = some (.poolExhausted poolAllocator.ipPoolName)
        ↔ ∀ al ∈ [(⟨ipv4 10 0 0 5, 1, [], [ipv4 10 0 0 5]⟩ : SingleIPAllocator),
            ⟨ipv4 10 0 0 7, 1, [], [ipv4 10 0 0 7]⟩], al.Exhausted)
      ∧ ((AllocateNext poolAllocator .Allocated (podOwner "b" "c2") exhaustedStore).1.2.2
          = some (.poolExhausted poolAllocator.ipPoolName) →
        (AllocateNext poolAllocator .Allocated (podOwner "b" "c2") exhaustedStore).2.pool
          = exhaustedStore.pool
        ∧ (AllocateNext poolAllocator .Allocated (podOwner "b" "c2") exhaustedStore).2.writes
          = exhaustedStore.writes)) :=
  ⟨(AllocateNext_range_order poolAllocator .Allocated (podOwner "b" "c2") racedStore).1
      (some (ipv4 10 0 0 131)) subnet25 _ (by decide),
    (AllocateNext_range_order poolAllocator .Allocated (podOwner "b" "c2") exhaustedStore).2.1
      none default _ (by decide),
    (AllocateNext_range_order poolAllocator .Allocated (podOwner "b" "c2") exhaustedStore).2.2
      ⟨"b", "default", "c2"⟩
      [⟨ipv4 10 0 0 5, 1, [], [ipv4 10 0 0 5]⟩, ⟨ipv4 10 0 0 7, 1, [], [ipv4 10 0 0 7]⟩]
      rfl rfl (by decide) rfl⟩

/-- On the pool whose two ranges are both used up, `AllocateNext` asked by a new
container fails with the pool-exhausted error after two reads and no write; on the
two-range pool without faults it returns `10.0.0.130`, the first address of the
second range, with the subnet of that range. -/
theorem AllocateNext_two_ranges_example :
    (AllocateNext poolAllocator .Allocated (podOwner "b" "c2") exhaustedStore).1.2.2
        = some (.poolExhausted "pool")
      ∧ (AllocateNext poolAllocator .Allocated (podOwner "b" "c2") exhaustedStore).2.writes = []
      ∧ (AllocateNext poolAllocator .Allocated (podOwner "b" "c2") twoRangeStore).1
        = (some (ipv4 10 0 0 130), subnet25, none) := by
  decide

end PoolAllocator
